import Mathlib

/-! # seq: type-checking transform and `BaseSeqType` code generation

A verification development over two parts of the repository:

* `compiler/parser/ast/transform.h` declares `TransformVisitor` and its helpers
  `processAssignment`, `addAssignment`, `prepend` and `realize`.  The header
  holds declarations only; the bodies of these helpers are modelled from the
  specification and every such definition says so.
* `src/types/seqt.cpp` holds the code generator of the builtin sequence types.
  It is embedded as functions that append instructions to basic blocks, and a
  small interpreter gives the emitted instructions a meaning.
-/

namespace Seq

/-! ## Syntax tree (the node kinds the modelled operations need) -/

/-- Identifier names: names written in the program, and temporaries the
transform synthesizes (a reserved name space no program text can spell). -/
inductive Name
  | user (s : String)
  | temp (n : Nat)
  deriving DecidableEq, Repr

mutual
/-- Expression nodes (`IdExpr`, `IntExpr`, `TupleExpr`, `UnpackExpr`,
`IndexExpr`, `SliceExpr`, `DotExpr`, `CallExpr`). -/
inductive Expr
  | id (value : Name)
  | int (value : Int)
  | tuple (items : ExprList)
  | unpack (what : Expr)
  | index (expr : Expr) (index : Expr)
  | slice (st : OptExpr) (ed : OptExpr) (step : OptExpr)
  | dot (expr : Expr) (member : String)
  | call (expr : Expr) (args : ExprList)
  deriving DecidableEq, Repr
/-- A `std::vector<ExprPtr>`. -/
inductive ExprList
  | nil
  | cons (head : Expr) (tail : ExprList)
  deriving DecidableEq, Repr
/-- A nullable `ExprPtr`. -/
inductive OptExpr
  | none
  | some (e : Expr)
  deriving DecidableEq, Repr
end

/-- The items of an expression vector as a list. -/
def ExprList.toList : ExprList → List Expr
  | .nil => []
  | .cons e es => e :: es.toList

/-- Build an expression vector from a list. -/
def ExprList.ofList : List Expr → ExprList
  | [] => .nil
  | e :: es => .cons e (ExprList.ofList es)

/-- Statement nodes (`ExprStmt`, `AssignStmt`, `ReturnStmt`). -/
inductive Stmt
  | expr (e : Expr)
  | assign (lhs : Expr) (rhs : Expr) (type : OptExpr) (force : Bool)
  | ret (e : OptExpr)
  deriving DecidableEq, Repr

/-! ## Type model and type context (specification §3, §4.2) -/

/-- A `TypePtr`: the handle of a cell of the shared type graph. -/
abbrev TypePtr := Nat

/-- Modelled from the spec: the Type variants of §3 (`parser/ast/types.h` is
not part of the sources here). -/
inductive TypeCell
  | unbound (id : Nat) (level : Nat)
  | link (target : TypePtr)
  | cls (name : String) (args : List TypePtr)
  | func (args : List TypePtr) (ret : TypePtr) (generics : List String)
  deriving DecidableEq, Repr

/-- Modelled from the spec: the error kinds of §7; a realization failure wraps
its cause and carries the instantiating argument types. -/
inductive TransformError
  | UnboundName (name : Name)
  | TypeMismatch
  | InfiniteType
  | NoSuchMethod
  | InvalidPattern
  | RealizationFailure (argTypes : List TypePtr) (cause : TransformError)
  deriving DecidableEq, Repr

/-- Key of the realization cache: (generic identity, concrete argument types). -/
abbrev RealizationKey := Nat × List TypePtr

/-- Modelled from the spec: the `TypeContext` of §3 (`parser/context.h` is not
part of the sources here): the substitution store, the scope stack (innermost
scope first), the realization cache and the counter of fresh variable ids. -/
structure TypeContext where
  cells : List TypeCell
  scopes : List (List (Name × TypePtr))
  cache : List (RealizationKey × TypePtr)
  counter : Nat
  deriving DecidableEq, Repr

namespace TypeContext

/-- Allocate a cell in the type graph and return its handle. -/
def alloc (ctx : TypeContext) (c : TypeCell) : TypePtr × TypeContext :=
  (ctx.cells.length, { ctx with cells := ctx.cells ++ [c] })

/-- `freshUnbound(level)`: a new type variable tagged with the scope depth. -/
def freshUnbound (ctx : TypeContext) (level : Nat) : TypePtr × TypeContext :=
  ({ ctx with counter := ctx.counter + 1 }).alloc (.unbound ctx.counter level)

/-- `enterScope()`: push an empty innermost scope. -/
def enterScope (ctx : TypeContext) : TypeContext :=
  { ctx with scopes := [] :: ctx.scopes }

/-- `exitScope()`: pop the innermost scope. -/
def exitScope (ctx : TypeContext) : TypeContext :=
  { ctx with scopes := ctx.scopes.tail }

/-- `declare(name, type)`: insert into the innermost scope. -/
def declare (ctx : TypeContext) (name : Name) (t : TypePtr) : TypeContext :=
  match ctx.scopes with
  | [] => { ctx with scopes := [[(name, t)]] }
  | s :: rest => { ctx with scopes := ((name, t) :: s) :: rest }

/-- Search a scope stack innermost-to-outermost. -/
def lookupIn (name : Name) : List (List (Name × TypePtr)) → Option TypePtr
  | [] => none
  | s :: rest =>
    match s.lookup name with
    | some t => some t
    | none => lookupIn name rest

/-- `lookup(name)`: fails with `UnboundName` when no scope binds the name. -/
def lookup (ctx : TypeContext) (name : Name) : Except TransformError TypePtr :=
  match lookupIn name ctx.scopes with
  | some t => .ok t
  | none => .error (.UnboundName name)

/-- The realization cache read at a key. -/
def cached (ctx : TypeContext) (key : RealizationKey) : Option TypePtr :=
  ctx.cache.lookup key

/-- Store an entry in the realization cache. -/
def cacheStore (ctx : TypeContext) (key : RealizationKey) (t : TypePtr) : TypeContext :=
  { ctx with cache := (key, t) :: ctx.cache }

end TypeContext

/-! ## Realizer (specification §4.3) -/

/-- Modelled from the spec: the `FuncType` handed to `realize`: the identity of
the generic declaration, its generic parameters, the concrete argument types of
the instantiation, the annotated return type and the body statements. -/
structure FuncType where
  id : Nat
  generics : List Name
  argTypes : List TypePtr
  declaredRet : Option TypePtr
  body : List Stmt
  deriving DecidableEq, Repr

/-- The cache key of an instantiation. -/
def FuncType.key (f : FuncType) : RealizationKey := (f.id, f.argTypes)

/-- The collaborators of the realizer that are whole components of their own:
the tree transform run over a body (it yields the inferred return type, and
works on the type context and on the state `σ` of the transform itself, which
the realizer can only hand on) and the unifier (it only binds variables of the
substitution store). -/
structure TreeTransform (σ : Type) where
  transformBody :
    List Stmt → TypeContext → σ → Except TransformError (TypePtr × TypeContext × σ)
  unify : TypePtr → TypePtr → List TypeCell → Except TransformError (List TypeCell)

/-- The tree transform only ever adds realizations: an entry of the cache is
still there, unchanged, after a body was transformed. -/
def TreeTransform.KeepsCache {σ : Type} (T : TreeTransform σ) : Prop :=
  ∀ body ctx s t ctx' s', T.transformBody body ctx s = .ok (t, ctx', s') →
    ∀ key v, ctx.cached key = some v → ctx'.cached key = some v

/-- The measure `runs` of the state of the transform counts the bodies the
transform has transformed: each transformation of a body moves it up by one. -/
def TreeTransform.CountedBy {σ : Type} (T : TreeTransform σ) (runs : σ → Nat) : Prop :=
  ∀ body ctx s t ctx' s', T.transformBody body ctx s = .ok (t, ctx', s') → runs s' = runs s + 1

/-- State of the realizer: the type context and the state of the tree
transform. -/
structure Realizer (σ : Type) where
  ctx : TypeContext
  visitor : σ

/-- Bind each generic parameter to the corresponding concrete argument type. -/
def bindGenerics (ctx : TypeContext) : List Name → List TypePtr → TypeContext
  | n :: ns, t :: ts => bindGenerics (ctx.declare n t) ns ts
  | _, _ => ctx

/-- Step (3): unify the declared return type, when annotated, with the inferred
one. -/
def unifyDeclared {σ : Type} (T : TreeTransform σ) (declared : Option TypePtr)
    (inferred : TypePtr) (cells : List TypeCell) : Except TransformError (List TypeCell) :=
  match declared with
  | none => .ok cells
  | some d => T.unify d inferred cells

/-- The context the body of an instantiation is transformed in, and the
handles made for it: the in-progress function type, whose return type is a
fresh variable, is in the cache, and a child scope binds the generic
parameters to the argument types. -/
def realizeEntry (type : FuncType) (ctx : TypeContext) : TypePtr × TypePtr × TypeContext :=
  let (ret, c1) := ctx.freshUnbound ctx.scopes.length
  let (fn, c2) := c1.alloc (.func type.argTypes ret [])
  let c3 := c2.cacheStore type.key fn
  (ret, fn, bindGenerics c3.enterScope type.generics type.argTypes)

/-- Modelled from the spec: `TransformVisitor::realize` (declared in
`transform.h`, body not in the sources), following §4.3: (1) a cache hit returns
the cached type and transforms nothing; on a miss (4) the in-progress function
type, whose return type is a fresh variable, is stored in the cache before the
body is transformed, (2) a child scope binds the generic parameters and the tree
transform runs over the body, (3) the declared and the inferred return types are
unified and the placeholder return type is bound to the inferred one.  A failure
of the body is reported as a realization failure carrying the argument types. -/
def realize {σ : Type} (T : TreeTransform σ) (type : FuncType) (r : Realizer σ) :
    Except TransformError (TypePtr × Realizer σ) :=
  match r.ctx.cached type.key with
  | some t => .ok (t, r)
  | none =>
    let (ret, fn, c4) := realizeEntry type r.ctx
    match T.transformBody type.body c4 r.visitor with
    | .error e => .error (.RealizationFailure type.argTypes e)
    | .ok (inferred, c5, s5) =>
      match unifyDeclared T type.declaredRet inferred c5.cells with
      | .error e => .error (.RealizationFailure type.argTypes e)
      | .ok cells6 =>
        match T.unify ret inferred cells6 with
        | .error e => .error (.RealizationFailure type.argTypes e)
        | .ok cells7 =>
          .ok (fn, { ctx := ({ c5 with cells := cells7 }).exitScope, visitor := s5 })

/-- A tree transform to run the realizer on: every body infers the type in
cell 0, unification binds nothing, and the state of the transform is the number
of bodies it has transformed. -/
def countingTransform : TreeTransform Nat :=
  ⟨fun _ ctx n => .ok (0, ctx, n + 1), fun _ _ cells => .ok cells⟩

/-- The instantiation of `def id[T](x: T) -> T: return x` at the type in cell 0. -/
def identityFunc : FuncType :=
  ⟨7, [.user "T"], [0], some 0, [.ret (.some (.id (.user "x")))]⟩

/-- A realizer with an empty cache, one scope and one class type in cell 0,
whose transform has transformed no body yet. -/
def startRealizer : Realizer Nat :=
  ⟨⟨[.cls "int" []], [[]], [], 0⟩, 0⟩

/-- The handle and the state the first realization of `identityFunc` yields. -/
def realizedOnce : TypePtr × Realizer Nat :=
  (2, ⟨⟨[.cls "int" [], .unbound 0 1, .func [0] 1 []], [[]], [((7, [0]), 2)], 1⟩, 1⟩)

/-! ## Assignment decomposition (specification §4.4) -/

/-- The part of `TransformVisitor` the assignment helpers work on: the prepend
buffer (`prependStmts`) and the counter that names temporaries. -/
structure TransformVisitor where
  prependStmts : List Stmt
  tempCounter : Nat
  deriving DecidableEq, Repr

/-- Modelled from the spec: `TransformVisitor::prepend` (declared in
`transform.h`) appends a hoisted statement to the prepend buffer. -/
def TransformVisitor.prepend (v : TransformVisitor) (s : Stmt) : TransformVisitor :=
  { v with prependStmts := v.prependStmts ++ [s] }

/-- Modelled from the spec: `TransformVisitor::addAssignment` (declared in
`transform.h`), the helper for simple assignments (`a = b`, `a.x = b`,
`a[x] = b`): it yields the assignment statement of its arguments. -/
def addAssignment (lhs rhs : Expr) (type : OptExpr) (force : Bool) : Stmt :=
  .assign lhs rhs type force

/-- Number of items of an expression vector. -/
def ExprList.length : ExprList → Nat
  | .nil => 0
  | .cons _ es => es.length + 1

/-- The key that reads the positional remainder for a starred target at
position `pos` of `n` targets: the slice `[pos:]` when the star is last, else
`[pos:-(n - pos - 1)]`. -/
def starKey (pos n : Nat) (last : Bool) : Expr :=
  .slice (.some (.int pos)) (if last then .none else .some (.int (-((n : Int) - pos - 1)))) .none

/-- The key that reads the target at position `pos` of `n` targets: `pos` from
the front before the star, `pos - n` from the back after it. -/
def itemKey (pos n : Nat) (seenStar : Bool) : Expr :=
  .int (if seenStar then (pos : Int) - n else pos)

/-- Whether an expression vector is empty. -/
def ExprList.isNil : ExprList → Bool
  | .nil => true
  | .cons _ _ => false

/-- Whether a target is starred (`UnpackExpr`). -/
def Expr.isUnpack : Expr → Bool
  | .unpack _ => true
  | _ => false

mutual
/-- Modelled from the spec: `TransformVisitor::processAssignment` (declared in
`transform.h`, "decomposes complex assignments into simple ones, e.g.
`a, *b, (c, d) = foo`").  A tuple on the left first binds the right side to a
fresh temporary through the prepend buffer, then hands every target a read of
that temporary; any other left side is a simple assignment. -/
def processAssignment (lhs rhs : Expr) (stmts : List Stmt) (force : Bool)
    (v : TransformVisitor) : Except TransformError (List Stmt × TransformVisitor) :=
  match lhs with
  | .tuple items =>
    let tmp := Expr.id (.temp v.tempCounter)
    let v1 : TransformVisitor :=
      { prependStmts := (v.prepend (addAssignment tmp rhs .none force)).prependStmts,
        tempCounter := v.tempCounter + 1 }
    processTargets items tmp 0 items.length false stmts force v1
  | _ => .ok (stmts ++ [addAssignment lhs rhs .none force], v)
/-- The loop of `processAssignment` over the targets of a tuple: `pos` is the
position of the next target, `n` the number of targets, `seenStar` whether a
starred target came before.  A starred target takes the positional remainder
and a second star in the same tuple is an `InvalidPattern`; every other target
takes the item at its position. -/
def processTargets (items : ExprList) (tmp : Expr) (pos n : Nat) (seenStar : Bool)
    (stmts : List Stmt) (force : Bool) (v : TransformVisitor) :
    Except TransformError (List Stmt × TransformVisitor) :=
  match items with
  | .nil => .ok (stmts, v)
  | .cons (.unpack what) rest =>
    if seenStar then .error .InvalidPattern
    else
      match processAssignment what (.index tmp (starKey pos n rest.isNil)) stmts force v with
      | .error e => .error e
      | .ok (stmts1, v1) => processTargets rest tmp (pos + 1) n true stmts1 force v1
  | .cons t rest =>
    match processAssignment t (.index tmp (itemKey pos n seenStar)) stmts force v with
    | .error e => .error e
    | .ok (stmts1, v1) => processTargets rest tmp (pos + 1) n seenStar stmts1 force v1
end

/-- Number of starred targets among the items of one tuple level. -/
def ExprList.starCount : ExprList → Nat
  | .nil => 0
  | .cons t rest => (if t.isUnpack then 1 else 0) + rest.starCount

mutual
/-- Every tuple level of an assignment pattern has at most one starred
target. -/
def Expr.starsOk : Expr → Bool
  | .tuple items => decide (items.starCount ≤ 1) && items.allStarsOk
  | _ => true
/-- The targets of one tuple level are patterns with at most one star per
level; a starred target is judged by the pattern under the star. -/
def ExprList.allStarsOk : ExprList → Bool
  | .nil => true
  | .cons (.unpack what) rest => what.starsOk && rest.allStarsOk
  | .cons t rest => t.starsOk && rest.allStarsOk
end

mutual
/-- Number of occurrences of the expression `e` in an expression. -/
def Expr.occ (e : Expr) : Expr → Nat
  | .id x => if Expr.id x = e then 1 else 0
  | .int x => if Expr.int x = e then 1 else 0
  | .tuple items => (if Expr.tuple items = e then 1 else 0) + ExprList.occ e items
  | .unpack w => (if Expr.unpack w = e then 1 else 0) + Expr.occ e w
  | .index x i => (if Expr.index x i = e then 1 else 0) + Expr.occ e x + Expr.occ e i
  | .slice a b c =>
    (if Expr.slice a b c = e then 1 else 0) + OptExpr.occ e a + OptExpr.occ e b + OptExpr.occ e c
  | .dot x m => (if Expr.dot x m = e then 1 else 0) + Expr.occ e x
  | .call f args => (if Expr.call f args = e then 1 else 0) + Expr.occ e f + ExprList.occ e args
/-- Occurrences of `e` in the items of an expression vector. -/
def ExprList.occ (e : Expr) : ExprList → Nat
  | .nil => 0
  | .cons x xs => Expr.occ e x + ExprList.occ e xs
/-- Occurrences of `e` under a nullable expression. -/
def OptExpr.occ (e : Expr) : OptExpr → Nat
  | .none => 0
  | .some x => Expr.occ e x
end

/-- Occurrences of `e` in a statement. -/
def Stmt.occ (e : Expr) : Stmt → Nat
  | .expr x => Expr.occ e x
  | .assign lhs rhs type _ => Expr.occ e lhs + Expr.occ e rhs + OptExpr.occ e type
  | .ret x => OptExpr.occ e x

mutual
/-- Every temporary named in the expression has a number below `k`. -/
def Expr.tempsBelow (k : Nat) : Expr → Bool
  | .id (.temp n) => decide (n < k)
  | .id (.user _) => true
  | .int _ => true
  | .tuple items => items.tempsBelow k
  | .unpack w => w.tempsBelow k
  | .index x i => x.tempsBelow k && i.tempsBelow k
  | .slice a b c => a.tempsBelow k && b.tempsBelow k && c.tempsBelow k
  | .dot x _ => x.tempsBelow k
  | .call f args => f.tempsBelow k && args.tempsBelow k
/-- Every temporary named in the items has a number below `k`. -/
def ExprList.tempsBelow (k : Nat) : ExprList → Bool
  | .nil => true
  | .cons x xs => x.tempsBelow k && xs.tempsBelow k
/-- Every temporary named under a nullable expression has a number below `k`. -/
def OptExpr.tempsBelow (k : Nat) : OptExpr → Bool
  | .none => true
  | .some x => x.tempsBelow k
end

/-- The statement is a simple assignment whose right side reads, by index or
slice, a temporary numbered `c` or later. -/
def Stmt.readsTemp (c : Nat) : Stmt → Bool
  | .assign _ (.index (.id (.temp t)) _) .none _ => decide (c ≤ t)
  | _ => false

/-- Slice of a sequence value with the bounds read the way the language reads
them: a negative bound counts from the end, a missing end is the length. -/
def pySlice {α : Type} (xs : List α) (st : Int) (ed : Option Int) : List α :=
  let n : Int := xs.length
  let lo : Int := if st < 0 then max (st + n) 0 else min st n
  let hi : Int := match ed with
    | none => n
    | some e => if e < 0 then max (e + n) 0 else min e n
  (xs.drop lo.toNat).take (hi - lo).toNat

/-- The value a slice key reads from a sequence value. -/
def Expr.sliceOf {α : Type} (xs : List α) : Expr → Option (List α)
  | .slice (.some (.int a)) .none .none => some (pySlice xs a none)
  | .slice (.some (.int a)) (.some (.int b)) .none => some (pySlice xs a (some b))
  | _ => none

/-- The assignment `x[f()], b = f()`: its first target names the right side. -/
def assignTwice : Expr × Expr :=
  (.tuple (.cons (.index (.id (.user "x")) (.call (.id (.user "f")) .nil))
    (.cons (.id (.user "b")) .nil)),
   .call (.id (.user "f")) .nil)

/-- The pattern `a, *b, (c, d)`. -/
def patStarNested : Expr :=
  .tuple (.cons (.id (.user "a")) (.cons (.unpack (.id (.user "b")))
    (.cons (.tuple (.cons (.id (.user "c")) (.cons (.id (.user "d")) .nil))) .nil)))

/-- The outcome of a decomposition agrees with a verdict: success when the
verdict is `true`, the error `InvalidPattern` when it is `false`. -/
def Agrees {α : Type} (r : Except TransformError α) (b : Bool) : Prop :=
  match r with
  | .ok _ => b = true
  | .error e => e = .InvalidPattern ∧ b = false

/-- What a successful decomposition run from `(stmts, v)` leaves in `r`: the
statement list and the prepend buffer only grew, the counter of temporaries did
not go down, and every statement added reads a temporary numbered `c` or
later. -/
def Grows (c : Nat) (stmts : List Stmt) (v : TransformVisitor)
    (r : List Stmt × TransformVisitor) : Prop :=
  ∃ gen hoist, r.1 = stmts ++ gen ∧ r.2.prependStmts = v.prependStmts ++ hoist ∧
    v.tempCounter ≤ r.2.tempCounter ∧ ∀ s ∈ hoist ++ gen, s.readsTemp c = true

/-! ## The instructions `seqt.cpp` builds -/

/-- The LLVM types the generator names: `seqIntLLVM` is the type of `seq_int_t`
(64 bits, signed), `sizeT` is `IntegerType::getIntNTy(sizeof(size_t)*8)`, and
`struct` is a named struct type with a two-field body. -/
inductive LType
  | void
  | i1
  | i8
  | i32
  | seqInt
  | i8Ptr
  | sizeT
  | struct (name : String) (field0 : LType) (field1 : LType)
  deriving DecidableEq, Repr

/-- Labels of the basic blocks of the equality routine. -/
inductive Label
  | entry
  | exitEarly
  | compareSeqs
  | breakBlock
  | continueBlock
  | exit
  deriving DecidableEq, Repr

/-- An `llvm::Value *`: a function argument, the result of an instruction, or
a constant. -/
inductive Value
  | arg (n : Nat)
  | reg (n : Nat)
  | constInt (ty : LType) (v : Int)
  | nullPtr
  | undef (ty : LType)
  deriving DecidableEq, Repr

/-- The functions the generator calls.  `copyFunc`, `printFunc` and `allocFunc`
are the functions named by `copyFuncName()`, `printFuncName()` and
`allocFuncName()`, `ioWrite` and `ioRead` those named by `IO_WRITE_FUNC_NAME`
and `IO_READ_FUNC_NAME`, `baseSeqEq` the one named by `eqFuncName()`, `funcOf`
a function made by `makeFuncOf`; `intWrite` and `intRead` stand for the code
`IntType` emits to serialize and deserialize its integer. -/
inductive Callee
  | copyFunc
  | printFunc
  | allocFunc
  | ioWrite
  | ioRead
  | baseSeqEq
  | funcOf (name : String)
  | intWrite
  | intRead
  deriving DecidableEq, Repr

/-- The instructions the `IRBuilder` calls of `seqt.cpp` create. -/
inductive Instr
  | load (dst : Nat) (ptr : Value)
  | store (val : Value) (ptr : Value)
  | alloca (dst : Nat)
  | call (dst : Nat) (callee : Callee) (args : List Value)
  | insertValue (dst : Nat) (agg : Value) (val : Value) (idx : Nat)
  | extractValue (dst : Nat) (agg : Value) (idx : Nat)
  | gep (dst : Nat) (ptr : Value) (idxs : List Value)
  | icmpEq (dst : Nat) (a : Value) (b : Value)
  | icmpSlt (dst : Nat) (a : Value) (b : Value)
  | add (dst : Nat) (a : Value) (b : Value)
  | phi (dst : Nat) (incoming : List (Value × Label))
  | condBr (cond : Value) (ifTrue : Label) (ifFalse : Label)
  | ret (v : Value)
  deriving DecidableEq, Repr

/-- A function declaration of the module (`getOrInsertFunction`). -/
structure FuncDecl where
  callee : Callee
  ret : LType
  params : List LType
  deriving DecidableEq, Repr

/-- A function with a body: its declaration and its basic blocks. -/
structure Function where
  decl : FuncDecl
  blocks : List (Label × List Instr)
  deriving DecidableEq, Repr

/-- Modelled from the spec: the keys of a value map (`SeqData`, declared
outside the sources here); only the keys `seqt.cpp` names are listed. -/
inductive SeqData
  | SEQ
  | STR
  | LEN
  | INT
  deriving DecidableEq, Repr

/-- A `ValMap`: a shared `std::map<SeqData, Value *>`. -/
abbrev ValMap := List (SeqData × Value)

/-- The `std::map::insert` of a value map: an entry whose key is already
present is kept and the new one is dropped. -/
def ValMap.insert (m : ValMap) (k : SeqData) (v : Value) : ValMap :=
  match m.lookup k with
  | some _ => m
  | none => m ++ [(k, v)]

/-- What code generation can fail with: a `SeqException`, or a value map that
lacks a required key. -/
inductive CodegenError
  | seqException (msg : String)
  | missingValue (key : SeqData)
  deriving DecidableEq, Repr

/-- Modelled from the spec: `getSafe` (defined outside the sources here) reads
a required entry of a value map and fails when the key is absent. -/
def getSafe (m : ValMap) (k : SeqData) : Except CodegenError Value :=
  match m.lookup k with
  | some v => .ok v
  | none => .error (.missingValue k)

/-- The state code generation works on: the preamble block of the enclosing
function (`base->getPreamble()`), the block being filled, the function
declarations and the functions with a body of the module, the next unused
result number and the static counter of `makeFuncOf`. -/
structure Codegen where
  preamble : List Instr
  block : List Instr
  decls : List FuncDecl
  funcs : List Function
  next : Nat
  funcIdx : Nat
  deriving DecidableEq, Repr

/-- Which block an instruction is appended to. -/
inductive BlockRef
  | preamble
  | block
  deriving DecidableEq, Repr

namespace Codegen

/-- A generator state with empty blocks and an empty module. -/
def empty : Codegen := ⟨[], [], [], [], 0, 1⟩

/-- Append an instruction to a block. -/
def emit (g : Codegen) (b : BlockRef) (i : Instr) : Codegen :=
  match b with
  | .preamble => { g with preamble := g.preamble ++ [i] }
  | .block => { g with block := g.block ++ [i] }

/-- Append to the current block an instruction with a result and return the
result. -/
def emitValue (g : Codegen) (b : BlockRef) (mk : Nat → Instr) : Value × Codegen :=
  (.reg g.next, { g.emit b (mk g.next) with next := g.next + 1 })

/-- `builder.CreateLoad(ptr)`. -/
def createLoad (g : Codegen) (ptr : Value) : Value × Codegen :=
  g.emitValue .block (fun d => .load d ptr)

/-- `builder.CreateStore(val, ptr)`. -/
def createStore (g : Codegen) (val ptr : Value) : Codegen :=
  g.emit .block (.store val ptr)

/-- `builder.CreateCall(func, args)`. -/
def createCall (g : Codegen) (callee : Callee) (args : List Value) : Value × Codegen :=
  g.emitValue .block (fun d => .call d callee args)

/-- `builder.CreateInsertValue(agg, val, {idx})`. -/
def createInsertValue (g : Codegen) (agg val : Value) (idx : Nat) : Value × Codegen :=
  g.emitValue .block (fun d => .insertValue d agg val idx)

/-- `builder.CreateExtractValue(agg, {idx})`. -/
def createExtractValue (g : Codegen) (agg : Value) (idx : Nat) : Value × Codegen :=
  g.emitValue .block (fun d => .extractValue d agg idx)

/-- `builder.CreateGEP(ptr, idxs)`. -/
def createGEP (g : Codegen) (ptr : Value) (idxs : List Value) : Value × Codegen :=
  g.emitValue .block (fun d => .gep d ptr idxs)

/-- Modelled from the spec: `makeAlloca(value, block)` (defined outside the
sources here) allocates a stack slot in the given block, stores the value in
it and returns the slot. -/
def makeAlloca (g : Codegen) (value : Value) (b : BlockRef) : Value × Codegen :=
  let (slot, g1) := g.emitValue b .alloca
  (slot, g1.emit b (.store value slot))

/-- `module->getOrInsertFunction(name, ret, params...)`: the declaration is
added unless the module already declares the function. -/
def getOrInsertFunction (g : Codegen) (callee : Callee) (ret : LType) (params : List LType) :
    Codegen :=
  if g.decls.any (fun d => d.callee = callee) then g
  else { g with decls := g.decls ++ [⟨callee, ret, params⟩] }

end Codegen

/-- A step of code generation: it works on the generator state and either
yields a value or throws; the state lives on when it throws, as the blocks and
the module the C++ code mutates do. -/
def Gen (α : Type) : Type := Codegen → Except CodegenError α × Codegen

namespace Gen

/-- Yield a value and leave the state alone. -/
def pure {α : Type} (a : α) : Gen α := fun g => (.ok a, g)

/-- Run a step, then the next one on its value unless it threw. -/
def bind {α β : Type} (x : Gen α) (f : α → Gen β) : Gen β := fun g =>
  match x g with
  | (.ok a, g1) => f a g1
  | (.error e, g1) => (.error e, g1)

instance : Monad Gen where
  pure := Gen.pure
  bind := Gen.bind

/-- Throw an exception. -/
def throw {α : Type} (e : CodegenError) : Gen α := fun g => (.error e, g)

/-- A builder call that creates a value. -/
def lift {α : Type} (f : Codegen → α × Codegen) : Gen α := fun g => (.ok (f g).1, (f g).2)

/-- A builder call that creates no value. -/
def modify (f : Codegen → Codegen) : Gen Unit := fun g => (.ok (), f g)

/-- `getSafe(map, key)` as a step: it throws when the key is absent. -/
def getSafe (m : ValMap) (k : SeqData) : Gen Value := fun g => (Seq.getSafe m k, g)

end Gen

/-- Modelled from the spec: `zeroLLVM(context)`, the constant 0 of `seq_int_t`. -/
def zeroLLVM : Value := .constInt .seqInt 0

/-- Modelled from the spec: `oneLLVM(context)`, the constant 1 of `seq_int_t`. -/
def oneLLVM : Value := .constInt .seqInt 1

/-- Modelled from the spec: `nullPtrLLVM(context)`, the null byte pointer. -/
def nullPtrLLVM : Value := .nullPtr

/-! ## `seqt.cpp`: the code generator of the builtin sequence types -/

/-- The runtime routines `seqt.cpp` defines and stores in a vtable. -/
inductive RuntimeFn
  | copyBaseSeq
  | printBaseSeq
  deriving DecidableEq, Repr

/-- The vtable entries `seqt.cpp` touches; `none` is a null pointer. -/
structure VTable where
  copy : Option RuntimeFn
  print : Option RuntimeFn
  deriving DecidableEq, Repr

/-- A `types::BaseSeqType`: its name, its key in value maps (`getKey()`), its
vtable, and the struct type the derived class gives to `getLLVMType`. -/
structure BaseSeqType where
  name : String
  key : SeqData
  vtable : VTable
  llvmType : LType
  deriving DecidableEq, Repr

namespace BaseSeqType

/-- `BaseSeqType::BaseSeqType(name, key)`: the constructor sets the copy and
print entries of the vtable to `copyBaseSeq` and `printBaseSeq`. -/
def ctor (name : String) (key : SeqData) (llvmType : LType) : BaseSeqType :=
  { name := name, key := key, llvmType := llvmType,
    vtable := { copy := some .copyBaseSeq, print := some .printBaseSeq } }

/-- `getKey()`. -/
def getKey (self : BaseSeqType) : SeqData := self.key

/-- `BaseSeqType::makeFuncOf`. -/
def makeFuncOf (self : BaseSeqType) (outType : LType) : Gen Callee := do
  let callee ← Gen.lift (fun g =>
    (Callee.funcOf (self.name ++ "Func" ++ toString g.funcIdx),
      { g with funcIdx := g.funcIdx + 1 }))
  Gen.modify (fun g => g.getOrInsertFunction callee outType [.i8Ptr, .seqInt])
  pure callee

/-- `BaseSeqType::setFuncArgs`. -/
def setFuncArgs (self : BaseSeqType) (outs : ValMap) : Gen ValMap := do
  let seq := Value.arg 0
  let len := Value.arg 1
  let seqVar ← Gen.lift (fun g => g.makeAlloca seq .block)
  let lenVar ← Gen.lift (fun g => g.makeAlloca len .block)
  let outs := outs.insert self.getKey seqVar
  let outs := outs.insert SeqData.LEN lenVar
  pure outs

/-- `BaseSeqType::callFuncOf`. -/
def callFuncOf (self : BaseSeqType) (func : Callee) (outs : ValMap) : Gen Value := do
  let seqVar ← Gen.getSafe outs self.getKey
  let seq ← Gen.lift (fun g => g.createLoad seqVar)
  let lenVar ← Gen.getSafe outs SeqData.LEN
  let len ← Gen.lift (fun g => g.createLoad lenVar)
  let args := [seq, len]
  Gen.lift (fun g => g.createCall func args)

/-- `BaseSeqType::pack`. -/
def pack (self : BaseSeqType) (outs : ValMap) : Gen Value := do
  let seqVar ← Gen.getSafe outs self.getKey
  let seq ← Gen.lift (fun g => g.createLoad seqVar)
  let lenVar ← Gen.getSafe outs SeqData.LEN
  let len ← Gen.lift (fun g => g.createLoad lenVar)
  let packed ← Gen.lift (fun g => g.createInsertValue (.undef self.llvmType) len 0)
  Gen.lift (fun g => g.createInsertValue packed seq 1)

/-- `BaseSeqType::unpack`. -/
def unpack (self : BaseSeqType) (value : Value) (outs : ValMap) : Gen ValMap := do
  let seq ← Gen.lift (fun g => g.createExtractValue value 1)
  let len ← Gen.lift (fun g => g.createExtractValue value 0)
  let seqVar ← Gen.lift (fun g => g.makeAlloca nullPtrLLVM .preamble)
  let lenVar ← Gen.lift (fun g => g.makeAlloca zeroLLVM .preamble)
  Gen.modify (fun g => g.createStore seq seqVar)
  Gen.modify (fun g => g.createStore len lenVar)
  let outs := outs.insert self.getKey seqVar
  let outs := outs.insert SeqData.LEN lenVar
  pure outs

end BaseSeqType

/-- `eqFuncName()`: the equality routine is the function "BaseSeqEq". -/
def eqFuncName : Callee := .baseSeqEq

/-- `buildSeqEqFunc`: the function "BaseSeqEq" with its six basic blocks.  Its
arguments are `seq1`, `len1`, `seq2`, `len2`; results are numbered in the order
the builder creates them: 0 `lenEq`, 1 the phi `i`, 2 and 3 the two element
pointers, 4 and 5 the two characters, 6 `charEq`, 7 `next`, 8 `cond`. -/
def buildSeqEqFunc : Function :=
  let seq1 := Value.arg 0
  let len1 := Value.arg 1
  let seq2 := Value.arg 2
  let len2 := Value.arg 3
  { decl := ⟨eqFuncName, .i1, [.i8Ptr, .seqInt, .i8Ptr, .seqInt]⟩,
    blocks :=
      [ (.entry,
          [ .icmpEq 0 len1 len2,
            .condBr (.reg 0) .compareSeqs .exitEarly ]),
        (.exitEarly,
          [ .ret (.constInt .i1 0) ]),
        (.compareSeqs,
          [ .phi 1 [(.constInt .seqInt 0, .entry), (.reg 7, .continueBlock)],
            .gep 2 seq1 [.reg 1],
            .gep 3 seq2 [.reg 1],
            .load 4 (.reg 2),
            .load 5 (.reg 3),
            .icmpEq 6 (.reg 4) (.reg 5),
            .condBr (.reg 6) .continueBlock .breakBlock ]),
        (.breakBlock,
          [ .ret (.constInt .i1 0) ]),
        (.continueBlock,
          [ .add 7 (.reg 1) (.constInt .seqInt 1),
            .icmpSlt 8 (.reg 7) len1,
            .condBr (.reg 8) .compareSeqs .exit ]),
        (.exit,
          [ .ret (.constInt .i1 1) ]) ] }

/-- `module->getFunction(name)`, followed by `buildSeqEqFunc(module)` when the
module does not hold the function yet. -/
def Codegen.getOrBuildSeqEq (g : Codegen) : Codegen :=
  if g.funcs.any (fun f => f.decl.callee = eqFuncName) then g
  else { g with decls := g.decls ++ [buildSeqEqFunc.decl], funcs := g.funcs ++ [buildSeqEqFunc] }

namespace IntType

/-- Modelled from the spec: `IntType::unpack` (defined outside the sources
here) puts the integer in a fresh slot and records the slot under `INT`. -/
def unpack (value : Value) (outs : ValMap) : Gen ValMap := do
  let var ← Gen.lift (fun g => g.makeAlloca zeroLLVM .preamble)
  Gen.modify (fun g => g.createStore value var)
  pure (outs.insert SeqData.INT var)

/-- Modelled from the spec: `IntType::callSerialize` (defined outside the
sources here) emits the code that writes the integer of the `INT` slot to the
file; that code is the one call `intWrite(slot, fp)`. -/
def callSerialize (outs : ValMap) (fp : Value) : Gen Unit := do
  let var ← Gen.getSafe outs SeqData.INT
  let _ ← Gen.lift (fun g => g.createCall .intWrite [var, fp])
  pure ()

/-- Modelled from the spec: `IntType::callDeserialize` (defined outside the
sources here) emits the code that reads an integer from the file into a fresh
slot recorded under `INT`; that code is the one call `intRead(slot, fp)`. -/
def callDeserialize (outs : ValMap) (fp : Value) : Gen ValMap := do
  let var ← Gen.lift (fun g => g.makeAlloca zeroLLVM .preamble)
  let _ ← Gen.lift (fun g => g.createCall .intRead [var, fp])
  pure (outs.insert SeqData.INT var)

end IntType

namespace BaseSeqType

/-- `BaseSeqType::checkEq`. -/
def checkEq (self : BaseSeqType) (ins1 ins2 : ValMap) : Gen Value := do
  let seqVar1 ← Gen.getSafe ins1 self.getKey
  let seq1 ← Gen.lift (fun g => g.createLoad seqVar1)
  let lenVar1 ← Gen.getSafe ins1 SeqData.LEN
  let len1 ← Gen.lift (fun g => g.createLoad lenVar1)
  let seqVar2 ← Gen.getSafe ins2 self.getKey
  let seq2 ← Gen.lift (fun g => g.createLoad seqVar2)
  let lenVar2 ← Gen.getSafe ins2 SeqData.LEN
  let len2 ← Gen.lift (fun g => g.createLoad lenVar2)
  Gen.modify (fun g => g.getOrBuildSeqEq)
  let args := [seq1, len1, seq2, len2]
  Gen.lift (fun g => g.createCall eqFuncName args)

/-- `BaseSeqType::callCopy`. -/
def callCopy (self : BaseSeqType) (ins outs : ValMap) : Gen ValMap := do
  Gen.modify (fun g => g.getOrInsertFunction .copyFunc .i8Ptr [.i8Ptr, .seqInt])
  let seqVar0 ← Gen.getSafe ins self.getKey
  let seq ← Gen.lift (fun g => g.createLoad seqVar0)
  let lenVar0 ← Gen.getSafe ins SeqData.LEN
  let len ← Gen.lift (fun g => g.createLoad lenVar0)
  let args := [seq, len]
  let copy ← Gen.lift (fun g => g.createCall .copyFunc args)
  let seqVar ← Gen.lift (fun g => g.makeAlloca nullPtrLLVM .preamble)
  let lenVar ← Gen.lift (fun g => g.makeAlloca zeroLLVM .preamble)
  Gen.modify (fun g => g.createStore copy seqVar)
  Gen.modify (fun g => g.createStore len lenVar)
  let outs := outs.insert self.getKey seqVar
  let outs := outs.insert SeqData.LEN lenVar
  pure outs

/-- `BaseSeqType::callSerialize`. -/
def callSerialize (self : BaseSeqType) (outs : ValMap) (fp : Value) : Gen Unit := do
  Gen.modify (fun g =>
    g.getOrInsertFunction .ioWrite .void [.i8Ptr, .seqInt, .seqInt, .i8Ptr])
  let seqVar ← Gen.getSafe outs self.getKey
  let seq ← Gen.lift (fun g => g.createLoad seqVar)
  let lenVar ← Gen.getSafe outs SeqData.LEN
  let len ← Gen.lift (fun g => g.createLoad lenVar)
  let subOuts : ValMap := []
  let subOuts ← IntType.unpack len subOuts
  IntType.callSerialize subOuts fp
  let _ ← Gen.lift (fun g => g.createCall .ioWrite [seq, len, oneLLVM, fp])
  pure ()

/-- `BaseSeqType::callDeserialize`. -/
def callDeserialize (self : BaseSeqType) (outs : ValMap) (fp : Value) : Gen ValMap := do
  Gen.modify (fun g =>
    g.getOrInsertFunction .ioRead .void [.i8Ptr, .seqInt, .seqInt, .i8Ptr])
  Gen.modify (fun g => g.getOrInsertFunction .allocFunc .i8Ptr [.sizeT])
  let subOuts : ValMap := []
  let subOuts ← IntType.callDeserialize subOuts fp
  let intVar ← Gen.getSafe subOuts SeqData.INT
  let len ← Gen.lift (fun g => g.createLoad intVar)
  let seq ← Gen.lift (fun g => g.createCall .allocFunc [len])
  let _ ← Gen.lift (fun g => g.createCall .ioRead [seq, len, oneLLVM, fp])
  let seqVar ← Gen.lift (fun g => g.makeAlloca .nullPtr .preamble)
  let lenVar ← Gen.lift (fun g => g.makeAlloca zeroLLVM .preamble)
  Gen.modify (fun g => g.createStore seq seqVar)
  Gen.modify (fun g => g.createStore len lenVar)
  let outs := outs.insert self.getKey seqVar
  let outs := outs.insert SeqData.LEN lenVar
  pure outs

/-- `BaseSeqType::callPrint`. -/
def callPrint (self : BaseSeqType) (outs : ValMap) : Gen Unit := do
  if self.vtable.print = none then
    Gen.throw (.seqException "cannot print specified type")
  Gen.modify (fun g => g.getOrInsertFunction .printFunc .void [.i8Ptr, .seqInt])
  let seqVar ← Gen.getSafe outs self.getKey
  let seq ← Gen.lift (fun g => g.createLoad seqVar)
  let lenVar ← Gen.getSafe outs SeqData.LEN
  let len ← Gen.lift (fun g => g.createLoad lenVar)
  let args := [seq, len]
  let _ ← Gen.lift (fun g => g.createCall .printFunc args)
  pure ()

/-- `BaseSeqType::codegenLoad`. -/
def codegenLoad (self : BaseSeqType) (outs : ValMap) (ptr idx : Value) : Gen ValMap := do
  let zero := Value.constInt .i32 0
  let one := Value.constInt .i32 1
  let seqPtr ← Gen.lift (fun g => g.createGEP ptr [idx, one])
  let lenPtr ← Gen.lift (fun g => g.createGEP ptr [idx, zero])
  let seq ← Gen.lift (fun g => g.createLoad seqPtr)
  let len ← Gen.lift (fun g => g.createLoad lenPtr)
  let seqVar ← Gen.lift (fun g => g.makeAlloca nullPtrLLVM .preamble)
  let lenVar ← Gen.lift (fun g => g.makeAlloca zeroLLVM .preamble)
  Gen.modify (fun g => g.createStore seq seqVar)
  Gen.modify (fun g => g.createStore len lenVar)
  let outs := outs.insert self.getKey seqVar
  let outs := outs.insert SeqData.LEN lenVar
  pure outs

/-- `BaseSeqType::codegenStore`. -/
def codegenStore (self : BaseSeqType) (outs : ValMap) (ptr idx : Value) : Gen Unit := do
  let seqVar ← Gen.getSafe outs self.getKey
  let seq ← Gen.lift (fun g => g.createLoad seqVar)
  let lenVar ← Gen.getSafe outs SeqData.LEN
  let len ← Gen.lift (fun g => g.createLoad lenVar)
  let zero := Value.constInt .i32 0
  let one := Value.constInt .i32 1
  let seqPtr ← Gen.lift (fun g => g.createGEP ptr [idx, one])
  let lenPtr ← Gen.lift (fun g => g.createGEP ptr [idx, zero])
  Gen.modify (fun g => g.createStore seq seqPtr)
  Gen.modify (fun g => g.createStore len lenPtr)

end BaseSeqType

/-- `SeqType::getLLVMType`: the struct `seq_t` with body `{seq_int_t, i8*}`. -/
def SeqType.getLLVMType : LType := .struct "seq_t" .seqInt .i8Ptr

/-- `SeqType::SeqType()`. -/
def SeqType.get : BaseSeqType := BaseSeqType.ctor "Seq" .SEQ SeqType.getLLVMType

/-- `StrType::getLLVMType`: the struct `str_t` with body `{seq_int_t, i8*}`. -/
def StrType.getLLVMType : LType := .struct "str_t" .seqInt .i8Ptr

/-- `StrType::StrType()`. -/
def StrType.get : BaseSeqType := BaseSeqType.ctor "Str" .STR StrType.getLLVMType

/-! ## Meaning of the emitted instructions -/

/-- Values at run time: an integer, a pointer (a memory object and an offset
in it, counted in cells), the null pointer, an undefined value, and a value of a
two-field struct type. -/
inductive RVal
  | int (v : Int)
  | ptr (obj : Nat) (off : Int)
  | null
  | undef
  | struct (f0 : RVal) (f1 : RVal)
  deriving DecidableEq, Repr

/-- What stops an execution short of its result. -/
inductive Fault
  | badAddress
  | badValue
  | badCall
  | badLabel
  | endOfFile
  deriving DecidableEq, Repr

/-- The encoding `IntType` serializes an integer with. -/
structure Runtime where
  encodeInt : Int → List Int
  decodeInt : List Int → Option (Int × List Int)

/-- The machine the emitted code runs on: the memory objects (a byte buffer
holds one byte per cell, a stack slot is one cell, an array of sequence structs
holds two cells per element), the arguments of the running function, the
results of the instructions run so far, the bytes of the file behind the file
handle from the current position on, the bytes printed, and the log of the
addresses the load instructions read. -/
structure Machine where
  mem : List (List RVal)
  args : List RVal
  regs : List (Nat × RVal)
  file : List Int
  printed : List Int
  loads : List (Nat × Int)
  deriving DecidableEq, Repr

/-- Arithmetic of `seq_int_t`: wrap to 64 bits, signed. -/
def wrap64 (x : Int) : Int := (x + 2 ^ 63) % 2 ^ 64 - 2 ^ 63

/-- The cell at an address of a memory, when the address lies in an object. -/
def memCell (mem : List (List RVal)) (obj : Nat) (off : Int) : Option RVal :=
  if off < 0 then none
  else match mem[obj]? with
    | some cells => cells[off.toNat]?
    | none => none

/-- A memory with one cell overwritten. -/
def memSet (mem : List (List RVal)) (obj : Nat) (off : Int) (v : RVal) : List (List RVal) :=
  mem.modify (fun cells => cells.set off.toNat v) obj

/-- Read `n` consecutive cells of a memory. -/
def memRead (mem : List (List RVal)) (obj : Nat) (off : Int) : Nat → Except Fault (List RVal)
  | 0 => .ok []
  | n + 1 =>
    match memCell mem obj off with
    | none => .error .badAddress
    | some v =>
      match memRead mem obj (off + 1) n with
      | .error e => .error e
      | .ok vs => .ok (v :: vs)

/-- Write consecutive cells of a memory. -/
def memWrite (mem : List (List RVal)) (obj : Nat) (off : Int) :
    List RVal → Except Fault (List (List RVal))
  | [] => .ok mem
  | v :: vs =>
    match memCell mem obj off with
    | none => .error .badAddress
    | some _ => memWrite (memSet mem obj off v) obj (off + 1) vs

/-- A memory with one more object, a slot of one cell that holds `v`. -/
def newSlot (mem : List (List RVal)) (v : RVal) : List (List RVal) :=
  memSet (mem ++ [[.undef]]) mem.length 0 v

/-- The run-time value of an `llvm::Value`, given the arguments of the running
function and the results of the instructions run so far. -/
def evalValue (args : List RVal) (regs : List (Nat × RVal)) : Value → Except Fault RVal
  | .arg n => match args[n]? with
    | some v => .ok v
    | none => .error .badValue
  | .reg n => match regs.lookup n with
    | some v => .ok v
    | none => .error .badValue
  | .constInt _ v => .ok (.int v)
  | .nullPtr => .ok .null
  | .undef _ => .ok .undef

namespace Machine

/-- The run-time value of an `llvm::Value`. -/
def eval (m : Machine) (v : Value) : Except Fault RVal :=
  evalValue m.args m.regs v

/-- The content of the slot a value points to. -/
def deref (m : Machine) (v : Value) : Option RVal :=
  match m.eval v with
  | .ok (.ptr obj off) => memCell m.mem obj off
  | _ => none

/-- Bind the result of an instruction. -/
def setReg (m : Machine) (d : Nat) (v : RVal) : Machine :=
  { m with regs := (d, v) :: m.regs }

/-- The cell at an address, when the address lies in an object. -/
def cell (m : Machine) (obj : Nat) (off : Int) : Option RVal :=
  memCell m.mem obj off

/-- Read a cell. -/
def loadCell (m : Machine) (obj : Nat) (off : Int) : Except Fault RVal :=
  match m.cell obj off with
  | some v => .ok v
  | none => .error .badAddress

/-- Write a cell. -/
def storeCell (m : Machine) (obj : Nat) (off : Int) (v : RVal) : Except Fault Machine :=
  match m.cell obj off with
  | some _ => .ok { m with mem := memSet m.mem obj off v }
  | none => .error .badAddress

/-- Read `n` consecutive cells. -/
def readCells (m : Machine) (obj : Nat) (off : Int) (n : Nat) : Except Fault (List RVal) :=
  memRead m.mem obj off n

/-- Write consecutive cells. -/
def writeCells (m : Machine) (obj : Nat) (off : Int) (vs : List RVal) : Except Fault Machine :=
  match memWrite m.mem obj off vs with
  | .ok mem1 => .ok { m with mem := mem1 }
  | .error e => .error e

/-- A new memory object; its address is returned. -/
def allocate (m : Machine) (cells : List RVal) : RVal × Machine :=
  (.ptr m.mem.length 0, { m with mem := m.mem ++ [cells] })

end Machine

/-- The bytes held by cells, when every cell holds an integer. -/
def bytesOf : List RVal → Except Fault (List Int)
  | [] => .ok []
  | .int b :: vs => do
    let bs ← bytesOf vs
    pure (b :: bs)
  | _ :: _ => .error .badValue

/-- `copyBaseSeq(seq, len)`: a fresh buffer of `len` bytes holding a copy of
the first `len` bytes of `seq`. -/
def copyBaseSeq (m : Machine) (obj : Nat) (off : Int) (len : Int) : Except Fault (RVal × Machine) :=
  if len < 0 then .error .badValue
  else do
    let cells ← m.readCells obj off len.toNat
    pure (m.allocate cells)

/-- `printBaseSeq(seq, len)`: the characters `seq[0..len)` and an end of line. -/
def printBaseSeq (m : Machine) (obj : Nat) (off : Int) (len : Int) : Except Fault Machine := do
  let cells ← m.readCells obj off len.toNat
  let bytes ← bytesOf cells
  pure { m with printed := m.printed ++ bytes ++ [10] }

/-- The routines the emitted code calls.  The allocation routine returns a
fresh buffer of the requested size; the write and read routines transfer
`size * count` bytes between a buffer and the file; `intWrite` and `intRead`
transfer one integer in the encoding of the runtime. -/
def callRuntime (rt : Runtime) (callee : Callee) (args : List RVal) (m : Machine) :
    Except Fault (RVal × Machine) :=
  match callee, args with
  | .copyFunc, [.ptr obj off, .int len] => copyBaseSeq m obj off len
  | .printFunc, [.ptr obj off, .int len] => do
    let m1 ← printBaseSeq m obj off len
    pure (.undef, m1)
  | .allocFunc, [.int n] =>
    if n < 0 then .error .badValue
    else .ok (m.allocate (List.replicate n.toNat .undef))
  | .ioWrite, [.ptr obj off, .int size, .int count, _] =>
    if size * count < 0 then .error .badValue
    else do
      let cells ← m.readCells obj off (size * count).toNat
      let bytes ← bytesOf cells
      pure (.undef, { m with file := m.file ++ bytes })
  | .ioRead, [.ptr obj off, .int size, .int count, _] =>
    if size * count < 0 then .error .badValue
    else if m.file.length < (size * count).toNat then .error .endOfFile
    else do
      let m1 ← m.writeCells obj off ((m.file.take (size * count).toNat).map .int)
      pure (.undef, { m1 with file := m.file.drop (size * count).toNat })
  | .intWrite, [.ptr obj off, _] => do
    let v ← m.loadCell obj off
    match v with
    | .int n => pure (.undef, { m with file := m.file ++ rt.encodeInt n })
    | _ => .error .badValue
  | .intRead, [.ptr obj off, _] =>
    match rt.decodeInt m.file with
    | some (n, rest) => do
      let m1 ← m.storeCell obj off (.int n)
      pure (.undef, { m1 with file := rest })
    | none => .error .endOfFile
  | _, _ => .error .badCall

/-- Evaluate the arguments of a call, in order. -/
def evalArgs (m : Machine) : List Value → Except Fault (List RVal)
  | [] => .ok []
  | a :: rest => do
    let v ← m.eval a
    let vs ← evalArgs m rest
    pure (v :: vs)

/-- The aggregate `agg` with field `idx` replaced; an undefined aggregate has
undefined fields. -/
def insertField (agg : RVal) (idx : Nat) (x : RVal) : Except Fault RVal :=
  match agg, idx with
  | .undef, 0 => .ok (.struct x .undef)
  | .undef, 1 => .ok (.struct .undef x)
  | .struct _ f1, 0 => .ok (.struct x f1)
  | .struct f0 _, 1 => .ok (.struct f0 x)
  | _, _ => .error .badValue

/-- Field `idx` of an aggregate. -/
def extractField (agg : RVal) (idx : Nat) : Except Fault RVal :=
  match agg, idx with
  | .struct f0 _, 0 => .ok f0
  | .struct _ f1, 1 => .ok f1
  | _, _ => .error .badValue

/-- Run one instruction that is neither a phi nor a terminator. -/
def execInstr (rt : Runtime) (i : Instr) (m : Machine) : Except Fault Machine :=
  match i with
  | .load d p => do
    match ← m.eval p with
    | .ptr obj off =>
      let v ← m.loadCell obj off
      pure ({ m with loads := m.loads ++ [(obj, off)] }.setReg d v)
    | _ => .error .badAddress
  | .store v p => do
    let x ← m.eval v
    match ← m.eval p with
    | .ptr obj off => m.storeCell obj off x
    | _ => .error .badAddress
  | .alloca d =>
    let (p, m1) := m.allocate [.undef]
    pure (m1.setReg d p)
  | .call d callee args => do
    let vs ← evalArgs m args
    let (r, m1) ← callRuntime rt callee vs m
    pure (m1.setReg d r)
  | .insertValue d agg val idx => do
    let a ← m.eval agg
    let x ← m.eval val
    let r ← insertField a idx x
    pure (m.setReg d r)
  | .extractValue d agg idx => do
    let a ← m.eval agg
    let r ← extractField a idx
    pure (m.setReg d r)
  | .gep d p idxs => do
    match ← m.eval p, ← evalArgs m idxs with
    | .ptr obj off, [.int i] => pure (m.setReg d (.ptr obj (off + i)))
    | .ptr obj off, [.int i, .int f] => pure (m.setReg d (.ptr obj (off + 2 * i + f)))
    | _, _ => .error .badValue
  | .icmpEq d a b => do
    match ← m.eval a, ← m.eval b with
    | .int x, .int y => pure (m.setReg d (.int (if x = y then 1 else 0)))
    | _, _ => .error .badValue
  | .icmpSlt d a b => do
    match ← m.eval a, ← m.eval b with
    | .int x, .int y => pure (m.setReg d (.int (if x < y then 1 else 0)))
    | _, _ => .error .badValue
  | .add d a b => do
    match ← m.eval a, ← m.eval b with
    | .int x, .int y => pure (m.setReg d (.int (wrap64 (x + y))))
    | _, _ => .error .badValue
  | .phi _ _ => .error .badValue
  | .condBr _ _ _ => .error .badValue
  | .ret _ => .error .badValue

/-- Run straight-line code. -/
def execList (rt : Runtime) : List Instr → Machine → Except Fault Machine
  | [], m => .ok m
  | i :: rest, m => do
    let m1 ← execInstr rt i m
    execList rt rest m1

/-- Run the code generated into a function body: the preamble block, then the
block. -/
def Codegen.exec (rt : Runtime) (g : Codegen) (m : Machine) : Except Fault Machine :=
  execList rt (g.preamble ++ g.block) m

/-- How a basic block ends: a jump to a block, or the return of a value. -/
inductive Ctl
  | jump (l : Label) (m : Machine)
  | done (v : RVal) (m : Machine)
  deriving DecidableEq, Repr

/-- Run a basic block entered from the block `prev`. -/
def execBlock (rt : Runtime) (prev : Option Label) : List Instr → Machine → Except Fault Ctl
  | [], _ => .error .badLabel
  | .phi d incoming :: rest, m =>
    match prev with
    | none => .error .badLabel
    | some l =>
      match (incoming.map (fun p => (p.2, p.1))).lookup l with
      | none => .error .badLabel
      | some v => do
        let x ← m.eval v
        execBlock rt prev rest (m.setReg d x)
  | .condBr c t f :: _, m => do
    match ← m.eval c with
    | .int x => pure (.jump (if x = 0 then f else t) m)
    | _ => .error .badValue
  | .ret v :: _, m => do
    let x ← m.eval v
    pure (.done x m)
  | i :: rest, m => do
    let m1 ← execInstr rt i m
    execBlock rt prev rest m1

/-- Run a function from the block `cur` for at most `fuel` blocks; `none`
when the fuel runs out before the function returns. -/
def runBlocks (rt : Runtime) (f : Function) :
    Nat → Option Label → Label → Machine → Option (Except Fault (RVal × Machine))
  | 0, _, _, _ => none
  | fuel + 1, prev, cur, m =>
    match f.blocks.lookup cur with
    | none => some (.error .badLabel)
    | some instrs =>
      match execBlock rt prev instrs m with
      | .error e => some (.error e)
      | .ok (.done v m1) => some (.ok (v, m1))
      | .ok (.jump l m1) => runBlocks rt f fuel (some cur) l m1

/-- Call a function with a body on arguments in a memory. -/
def Function.run (rt : Runtime) (f : Function) (fuel : Nat) (args : List RVal)
    (mem : List (List RVal)) : Option (Except Fault (RVal × Machine)) :=
  runBlocks rt f fuel none .entry
    { mem := mem, args := args, regs := [], file := [], printed := [], loads := [] }

/-- A runtime that serializes an integer as one item of the file. -/
def unitRuntime : Runtime :=
  { encodeInt := fun n => [n],
    decodeInt := fun bytes => match bytes with
      | [] => none
      | n :: rest => some (n, rest) }

/-- The arguments of a call of the equality routine on `(seq1, len1)` and
`(seq2, len2)`, the two sequences given by object and offset. -/
def eqArgs (o1 : Nat) (f1 : Int) (len1 : Int) (o2 : Nat) (f2 : Int) (len2 : Int) : List RVal :=
  [.ptr o1 f1, .int len1, .ptr o2 f2, .int len2]

/-- The addresses the equality routine loads when it compares the items at the
positions `i, i + 1, ..., i + k - 1` of the two sequences. -/
def comparedLoads (o1 : Nat) (f1 : Int) (o2 : Nat) (f2 : Int) (i : Nat) : Nat → List (Nat × Int)
  | 0 => []
  | k + 1 => (o1, f1 + i) :: (o2, f2 + i) :: comparedLoads o1 f1 o2 f2 (i + 1) k

/-- The `n` cells from `(obj, off)` on exist and hold integers: the buffer of
a sequence of `n` bytes. -/
def Readable (mem : List (List RVal)) (obj : Nat) (off : Int) (n : Nat) : Prop :=
  ∀ j : Nat, j < n → ∃ b, memCell mem obj (off + j) = some (.int b)

/-- Two buffers hold the same item at every position below `n`. -/
def SameItems (mem : List (List RVal)) (o1 : Nat) (f1 : Int) (o2 : Nat) (f2 : Int) (n : Nat) :
    Prop :=
  ∀ j : Nat, j < n → memCell mem o1 (f1 + j) = memCell mem o2 (f2 + j)

/-- A memory of two buffers that hold the same two bytes. -/
def twoEqualBuffers : List (List RVal) := [[.int 7, .int 8], [.int 7, .int 8]]

/-- A memory of two one-byte buffers, "A" and "B"; a sequence of length 0 at
the start of either is an empty slice of it. -/
def bufferAB : List (List RVal) := [[.int 65], [.int 66]]

/-- The argument lists of the calls to a function in a block, in order. -/
def callsTo (callee : Callee) : List Instr → List (List Value)
  | [] => []
  | .call _ c args :: rest =>
    if c = callee then args :: callsTo callee rest else callsTo callee rest
  | _ :: rest => callsTo callee rest

/-- The declaration of a function in the module. -/
def Codegen.declOf (g : Codegen) (callee : Callee) : Option FuncDecl :=
  g.decls.find? (fun d => d.callee = callee)

/-- A generator state with a module that declares nothing yet. -/
def Codegen.fresh (preamble block : List Instr) (next funcIdx : Nat) : Codegen :=
  ⟨preamble, block, [], [], next, funcIdx⟩

/-- The value is not the result of an instruction numbered `n` or later. -/
def Value.below (n : Nat) : Value → Prop
  | .reg j => j < n
  | _ => True

/-- A machine whose two slots hold a pointer to a two-byte buffer and the
length 2: object 0 is the buffer, objects 1 and 2 are the slots, and the
arguments are the two slots and a file handle. -/
def slotMachine : Machine :=
  { mem := [[.int 7, .int 8], [.ptr 0 0], [.int 2]],
    args := [.ptr 1 0, .ptr 2 0, .null],
    regs := [], file := [], printed := [], loads := [] }

/-- Whether a run-time value is a value of an LLVM type: an integer for
`seq_int_t`, a pointer for `i8*`, and for a struct type a struct value whose
fields are values of the field types, in order. -/
def LType.admits : LType → RVal → Bool
  | .seqInt, .int _ => true
  | .i8Ptr, .ptr _ _ => true
  | .i8Ptr, .null => true
  | .struct _ t0 t1, .struct f0 f1 => t0.admits f0 && t1.admits f1
  | _, _ => false

/-- Element `i` of the array of sequence structs at the address `(obj, off)`,
read as a struct value: field 0 is the first of its two cells, field 1 the
second. -/
def elementAt (mem : List (List RVal)) (obj : Nat) (off i : Int) : Option RVal :=
  match memCell mem obj (off + 2 * i), memCell mem obj (off + 2 * i + 1) with
  | some c0, some c1 => some (.struct c0 c1)
  | _, _ => none

/-- The machine `slotMachine` with an array of two sequence structs as object
3; the arguments are the two slots, the array and the index 1. -/
def arrayMachine : Machine :=
  { mem := [[.int 7, .int 8], [.ptr 0 0], [.int 2], [.int 5, .ptr 0 1, .int 0, .null]],
    args := [.ptr 1 0, .ptr 2 0, .ptr 3 0, .int 1],
    regs := [], file := [], printed := [], loads := [] }

/-! # Theorems -/

/-! ## Realization cache -/

theorem TypeContext.cached_declare (ctx : TypeContext) (n : Name) (t : TypePtr)
    (key : RealizationKey) : (ctx.declare n t).cached key = ctx.cached key := by
  unfold TypeContext.declare TypeContext.cached
  cases ctx.scopes <;> rfl

theorem cached_bindGenerics (ns : List Name) (ts : List TypePtr) (ctx : TypeContext)
    (key : RealizationKey) : (bindGenerics ctx ns ts).cached key = ctx.cached key := by
  induction ns generalizing ctx ts with
  | nil => simp [bindGenerics]
  | cons n ns ih =>
    cases ts with
    | nil => simp [bindGenerics]
    | cons t ts => simp [bindGenerics, ih, TypeContext.cached_declare]

theorem TypeContext.cached_cacheStore_self (ctx : TypeContext) (key : RealizationKey)
    (t : TypePtr) : (ctx.cacheStore key t).cached key = some t := by
  simp [TypeContext.cacheStore, TypeContext.cached, List.lookup]

theorem realizeEntry_cached (type : FuncType) (ctx : TypeContext) :
    (realizeEntry type ctx).2.2.cached type.key = some (realizeEntry type ctx).2.1 := by
  unfold realizeEntry
  simp only
  rw [cached_bindGenerics]
  exact TypeContext.cached_cacheStore_self _ _ _

/-- C1. Realization caching: when `realize` returns a type for an
instantiation, a second call on the same instantiation returns the identical
cached handle and leaves the realizer state, the state of the tree transform
included, untouched.  When the instantiation was not cached before the first
call, the tree transform ran over the body of the generic exactly once across
the two calls: the measure that counts the transformations the transform has
made went up by exactly one, by the one transformation of the body in the
entry context, in which the returned handle was in the cache already; the state
that transformation left is the state the realizer is left with, and the
unifier accepted the declared return type against the inferred one.  When the
instantiation was cached, the first call returned the cached handle too and
nothing was transformed. -/
theorem realize_twice_cached {σ : Type} (T : TreeTransform σ) (runs : σ → Nat)
    (hT : T.KeepsCache) (hruns : T.CountedBy runs) (type : FuncType) (r r1 : Realizer σ)
    (p : TypePtr) (h1 : realize T type r = .ok (p, r1)) :
    realize T type r1 = .ok (p, r1) ∧
    (r.ctx.cached type.key = none →
      runs r1.visitor = runs r.visitor + 1 ∧
      p = (realizeEntry type r.ctx).2.1 ∧
      (realizeEntry type r.ctx).2.2.cached type.key = some p ∧
      ∃ inferred post,
        T.transformBody type.body (realizeEntry type r.ctx).2.2 r.visitor
          = .ok (inferred, post, r1.visitor) ∧
        r1.ctx.cache = post.cache ∧ r1.ctx.scopes = post.scopes.tail ∧
        ∃ cells6, unifyDeclared T type.declaredRet inferred post.cells = .ok cells6 ∧
          T.unify (realizeEntry type r.ctx).1 inferred cells6 = .ok r1.ctx.cells) ∧
    (∀ t, r.ctx.cached type.key = some t → p = t ∧ r1 = r) := by
  unfold realize at h1
  split at h1
  · next t ht =>
    simp only [Except.ok.injEq, Prod.mk.injEq] at h1
    obtain ⟨rfl, rfl⟩ := h1
    refine ⟨?_, fun hn => ?_, fun t1 ht1 => ?_⟩
    · unfold realize; rw [ht]
    · rw [ht] at hn; cases hn
    · rw [ht] at ht1; cases ht1; exact ⟨rfl, rfl⟩
  · next hmiss =>
    simp only at h1
    split at h1
    · cases h1
    · next inferred c5 s5 hbody =>
      split at h1
      · cases h1
      · next cells6 h6 =>
        split at h1
        · cases h1
        · next cells7 h7 =>
          simp only [Except.ok.injEq, Prod.mk.injEq] at h1
          obtain ⟨rfl, rfl⟩ := h1
          have hc5 := hT _ _ _ _ _ _ hbody type.key _ (realizeEntry_cached type r.ctx)
          refine ⟨?_, fun _ => ⟨hruns _ _ _ _ _ _ hbody, rfl, realizeEntry_cached type r.ctx,
            inferred, c5, hbody, rfl, rfl, cells6, h6, h7⟩, fun t ht => ?_⟩
          · unfold realize
            have : (TypeContext.exitScope { c5 with cells := cells7 }).cached type.key
                = some (realizeEntry type r.ctx).2.1 := hc5
            simp only [this]
          · rw [hmiss] at ht; cases ht

theorem countingTransform_keepsCache : countingTransform.KeepsCache := by
  intro body ctx s t ctx' s' h key v hv
  simp only [countingTransform, Except.ok.injEq, Prod.mk.injEq] at h
  obtain ⟨-, rfl, -⟩ := h
  exact hv

theorem countingTransform_counted : countingTransform.CountedBy id := by
  intro body ctx s t ctx' s' h
  simp only [countingTransform, Except.ok.injEq, Prod.mk.injEq] at h
  obtain ⟨-, -, rfl⟩ := h
  rfl

theorem realize_twice_cached_witness :
    realize countingTransform identityFunc startRealizer = .ok (realizedOnce.1, realizedOnce.2) ∧
    (realize countingTransform identityFunc realizedOnce.2
        = .ok (realizedOnce.1, realizedOnce.2) ∧
      (startRealizer.ctx.cached identityFunc.key = none →
        id realizedOnce.2.visitor = id startRealizer.visitor + 1 ∧
        realizedOnce.1 = (realizeEntry identityFunc startRealizer.ctx).2.1 ∧
        (realizeEntry identityFunc startRealizer.ctx).2.2.cached identityFunc.key
          = some realizedOnce.1 ∧
        ∃ inferred post,
          countingTransform.transformBody identityFunc.body
              (realizeEntry identityFunc startRealizer.ctx).2.2 startRealizer.visitor
            = .ok (inferred, post, realizedOnce.2.visitor) ∧
          realizedOnce.2.ctx.cache = post.cache ∧ realizedOnce.2.ctx.scopes = post.scopes.tail ∧
          ∃ cells6, unifyDeclared countingTransform identityFunc.declaredRet inferred post.cells
              = .ok cells6 ∧
            countingTransform.unify (realizeEntry identityFunc startRealizer.ctx).1 inferred
              cells6 = .ok realizedOnce.2.ctx.cells) ∧
      (∀ t, startRealizer.ctx.cached identityFunc.key = some t →
        realizedOnce.1 = t ∧ realizedOnce.2 = startRealizer)) :=
  ⟨rfl, realize_twice_cached countingTransform id countingTransform_keepsCache
    countingTransform_counted identityFunc startRealizer realizedOnce.2 realizedOnce.1 rfl⟩

/-! ## Assignment decomposition -/

theorem processAssignment_tuple (items : ExprList) (rhs : Expr) (stmts : List Stmt)
    (force : Bool) (v : TransformVisitor) :
    processAssignment (.tuple items) rhs stmts force v =
      processTargets items (.id (.temp v.tempCounter)) 0 items.length false stmts force
        { prependStmts := v.prependStmts ++ [.assign (.id (.temp v.tempCounter)) rhs .none force],
          tempCounter := v.tempCounter + 1 } := rfl

theorem processAssignment_simple (lhs rhs : Expr) (stmts : List Stmt) (force : Bool)
    (v : TransformVisitor) (h : ∀ items, lhs ≠ .tuple items) :
    processAssignment lhs rhs stmts force v = .ok (stmts ++ [.assign lhs rhs .none force], v) := by
  cases lhs <;> first | rfl | exact absurd rfl (h _)

theorem processTargets_unpack (what : Expr) (rest : ExprList) (tmp : Expr) (pos n : Nat)
    (seenStar : Bool) (stmts : List Stmt) (force : Bool) (v : TransformVisitor) :
    processTargets (.cons (.unpack what) rest) tmp pos n seenStar stmts force v =
      if seenStar then .error .InvalidPattern
      else
        match processAssignment what (.index tmp (starKey pos n rest.isNil)) stmts force v with
        | .error e => .error e
        | .ok (stmts1, v1) => processTargets rest tmp (pos + 1) n true stmts1 force v1 := rfl

theorem processTargets_item (t : Expr) (rest : ExprList) (tmp : Expr) (pos n : Nat)
    (seenStar : Bool) (stmts : List Stmt) (force : Bool) (v : TransformVisitor)
    (h : t.isUnpack = false) :
    processTargets (.cons t rest) tmp pos n seenStar stmts force v =
      match processAssignment t (.index tmp (itemKey pos n seenStar)) stmts force v with
      | .error e => .error e
      | .ok (stmts1, v1) => processTargets rest tmp (pos + 1) n seenStar stmts1 force v1 := by
  cases t <;> first | rfl | simp [Expr.isUnpack] at h

theorem allStarsOk_unpack (what : Expr) (rest : ExprList) :
    (ExprList.cons (.unpack what) rest).allStarsOk = (what.starsOk && rest.allStarsOk) := rfl

theorem allStarsOk_item (t : Expr) (rest : ExprList) (h : t.isUnpack = false) :
    (ExprList.cons t rest).allStarsOk = (t.starsOk && rest.allStarsOk) := by
  cases t <;> first | rfl | simp [Expr.isUnpack] at h

mutual
theorem agrees_processAssignment (lhs rhs : Expr) (stmts : List Stmt) (force : Bool)
    (v : TransformVisitor) : Agrees (processAssignment lhs rhs stmts force v) lhs.starsOk := by
  cases lhs with
  | tuple items =>
    rw [processAssignment_tuple]
    have h := agrees_processTargets items (.id (.temp v.tempCounter)) 0 items.length false stmts
      force { prependStmts := v.prependStmts ++ [.assign (.id (.temp v.tempCounter)) rhs .none force],
              tempCounter := v.tempCounter + 1 }
    simpa [Expr.starsOk] using h
  | _ => simp [processAssignment, Agrees, Expr.starsOk]
theorem agrees_processTargets (items : ExprList) (tmp : Expr) (pos n : Nat) (seenStar : Bool)
    (stmts : List Stmt) (force : Bool) (v : TransformVisitor) :
    Agrees (processTargets items tmp pos n seenStar stmts force v)
      (decide (items.starCount + (if seenStar then 1 else 0) ≤ 1) && items.allStarsOk) := by
  cases items with
  | nil => cases seenStar <;> simp [processTargets, Agrees, ExprList.starCount, ExprList.allStarsOk]
  | cons t rest =>
    by_cases ht : t.isUnpack = true
    · cases t <;> simp [Expr.isUnpack] at ht
      next what =>
      rw [processTargets_unpack, allStarsOk_unpack]
      cases seenStar with
      | true => simp [Agrees, ExprList.starCount, Expr.isUnpack]
      | false =>
        have h1 := agrees_processAssignment what (.index tmp (starKey pos n rest.isNil)) stmts force v
        simp only [Bool.false_eq_true, if_false]
        cases hr : processAssignment what (.index tmp (starKey pos n rest.isNil)) stmts force v with
        | error e =>
          rw [hr] at h1
          simp only [Agrees] at h1 ⊢
          simp [h1.1, h1.2]
        | ok p =>
          rw [hr] at h1
          obtain ⟨stmts1, v1⟩ := p
          have h2 := agrees_processTargets rest tmp (pos + 1) n true stmts1 force v1
          simp only [Agrees] at h1
          simp only [h1, ExprList.starCount, Expr.isUnpack, if_true, Bool.true_and] at h2 ⊢
          have e : (1 + rest.starCount + 0 ≤ 1) ↔ (rest.starCount + 1 ≤ 1) := by omega
          simpa [e] using h2
    · have ht : t.isUnpack = false := by simpa using ht
      rw [processTargets_item _ _ _ _ _ _ _ _ _ ht, allStarsOk_item _ _ ht]
      have h1 := agrees_processAssignment t (.index tmp (itemKey pos n seenStar)) stmts force v
      cases hr : processAssignment t (.index tmp (itemKey pos n seenStar)) stmts force v with
      | error e =>
        rw [hr] at h1
        simp only [Agrees] at h1 ⊢
        simp [h1.1, h1.2]
      | ok p =>
        rw [hr] at h1
        obtain ⟨stmts1, v1⟩ := p
        have h2 := agrees_processTargets rest tmp (pos + 1) n seenStar stmts1 force v1
        simp only [Agrees] at h1
        simp only [h1, ExprList.starCount, ht, Bool.false_eq_true, if_false, Bool.true_and,
          Nat.zero_add] at h2 ⊢
        exact h2
end

theorem Grows.refl (c : Nat) (stmts : List Stmt) (v : TransformVisitor) :
    Grows c stmts v (stmts, v) :=
  ⟨[], [], by simp, by simp, Nat.le_refl _, by simp⟩

theorem Stmt.readsTemp_mono {c c' : Nat} (h : c ≤ c') (s : Stmt)
    (hs : s.readsTemp c' = true) : s.readsTemp c = true := by
  unfold Stmt.readsTemp at hs ⊢
  split at hs <;> simp_all
  omega

theorem Grows.mono {c c' : Nat} (h : c ≤ c') {stmts : List Stmt} {v : TransformVisitor}
    {r : List Stmt × TransformVisitor} (hg : Grows c' stmts v r) : Grows c stmts v r := by
  obtain ⟨gen, hoist, h1, h2, h3, h4⟩ := hg
  exact ⟨gen, hoist, h1, h2, h3, fun s hs => Stmt.readsTemp_mono h s (h4 s hs)⟩

theorem Grows.trans {c : Nat} {stmts : List Stmt} {v : TransformVisitor}
    {r1 r2 : List Stmt × TransformVisitor} (h1 : Grows c stmts v r1)
    (h2 : Grows c r1.1 r1.2 r2) : Grows c stmts v r2 := by
  obtain ⟨g1, p1, a1, b1, c1, d1⟩ := h1
  obtain ⟨g2, p2, a2, b2, c2, d2⟩ := h2
  refine ⟨g1 ++ g2, p1 ++ p2, ?_, ?_, Nat.le_trans c1 c2, ?_⟩
  · rw [a2, a1, List.append_assoc]
  · rw [b2, b1, List.append_assoc]
  · intro s hs
    simp only [List.mem_append] at hs
    rcases hs with (hs | hs) | hs | hs
    · exact d1 s (by simp [hs])
    · exact d2 s (by simp [hs])
    · exact d1 s (by simp [hs])
    · exact d2 s (by simp [hs])

mutual
theorem grows_processAssignment (lhs : Expr) (t0 : Nat) (key : Expr) (stmts : List Stmt)
    (force : Bool) (v : TransformVisitor) (r : List Stmt × TransformVisitor)
    (ht : t0 < v.tempCounter)
    (h : processAssignment lhs (.index (.id (.temp t0)) key) stmts force v = .ok r) :
    Grows t0 stmts v r := by
  cases lhs with
  | tuple items =>
    rw [processAssignment_tuple] at h
    have hg := grows_processTargets items v.tempCounter 0 items.length false stmts force
      { prependStmts := v.prependStmts ++
          [.assign (.id (.temp v.tempCounter)) (.index (.id (.temp t0)) key) .none force],
        tempCounter := v.tempCounter + 1 } r (Nat.lt_succ_self _) h
    obtain ⟨gen, hoist, a, b, c, d⟩ := Grows.mono (Nat.le_of_lt ht) hg
    refine ⟨gen, .assign (.id (.temp v.tempCounter)) (.index (.id (.temp t0)) key) .none force
      :: hoist, a, ?_, ?_, ?_⟩
    · simpa using b
    · simp only at c; omega
    · intro s hs
      simp only [List.cons_append, List.mem_cons] at hs
      rcases hs with rfl | hs
      · simp [Stmt.readsTemp]
      · exact d s hs
  | id _ | int _ | unpack _ | index _ _ | slice _ _ _ | dot _ _ | call _ _ =>
    simp only [processAssignment, Except.ok.injEq] at h
    subst h
    exact ⟨[_], [], rfl, by simp, Nat.le_refl _, by simp [addAssignment, Stmt.readsTemp]⟩
theorem grows_processTargets (items : ExprList) (t0 pos n : Nat) (seenStar : Bool)
    (stmts : List Stmt) (force : Bool) (v : TransformVisitor)
    (r : List Stmt × TransformVisitor) (ht : t0 < v.tempCounter)
    (h : processTargets items (.id (.temp t0)) pos n seenStar stmts force v = .ok r) :
    Grows t0 stmts v r := by
  cases items with
  | nil =>
    simp only [processTargets, Except.ok.injEq] at h
    subst h
    exact Grows.refl _ _ _
  | cons t rest =>
    by_cases hu : t.isUnpack = true
    · cases t <;> simp [Expr.isUnpack] at hu
      next what =>
      rw [processTargets_unpack] at h
      split at h
      · cases h
      · split at h
        · cases h
        · next stmts1 v1 hstep =>
          have g1 := grows_processAssignment what t0 _ stmts force v _ ht hstep
          have hlt : t0 < v1.tempCounter := Nat.lt_of_lt_of_le ht g1.choose_spec.choose_spec.2.2.1
          exact g1.trans (grows_processTargets rest t0 _ n true stmts1 force v1 r hlt h)
    · have hu : t.isUnpack = false := by simpa using hu
      rw [processTargets_item _ _ _ _ _ _ _ _ _ hu] at h
      split at h
      · cases h
      · next stmts1 v1 hstep =>
        have g1 := grows_processAssignment t t0 _ stmts force v _ ht hstep
        have hlt : t0 < v1.tempCounter := Nat.lt_of_lt_of_le ht g1.choose_spec.choose_spec.2.2.1
        exact g1.trans (grows_processTargets rest t0 _ n seenStar stmts1 force v1 r hlt h)
end

theorem ExprList.isNil_eq (items : ExprList) : items.isNil = decide (items.length = 0) := by
  cases items <;> simp [ExprList.isNil, ExprList.length]

theorem ExprList.length_toList (items : ExprList) : items.toList.length = items.length := by
  cases items with
  | nil => rfl
  | cons t rest =>
    have := ExprList.length_toList rest
    simp [ExprList.toList, ExprList.length, this]

theorem starred_target_assigned (items : ExprList) (t0 pos n : Nat) (seenStar : Bool)
    (stmts : List Stmt) (force : Bool) (v : TransformVisitor)
    (r : List Stmt × TransformVisitor) (i : Nat) (what : Expr)
    (ht : t0 < v.tempCounter)
    (h : processTargets items (.id (.temp t0)) pos n seenStar stmts force v = .ok r)
    (hi : items.toList[i]? = some (.unpack what)) (hw : ∀ its, what ≠ .tuple its) :
    Stmt.assign what (.index (.id (.temp t0)) (starKey (pos + i) n (decide (i + 1 = items.length))))
      .none force ∈ r.1 := by
  cases items with
  | nil => simp [ExprList.toList] at hi
  | cons t rest =>
    cases i with
    | zero =>
      simp only [ExprList.toList, List.getElem?_cons_zero, Option.some.injEq] at hi
      subst hi
      rw [processTargets_unpack] at h
      split at h
      · cases h
      · rw [processAssignment_simple _ _ _ _ _ hw] at h
        simp only at h
        obtain ⟨gen, _, a, _⟩ := grows_processTargets rest t0 _ n true _ force v r ht h
        rw [a]
        have e : decide (0 + 1 = (ExprList.cons (Expr.unpack what) rest).length) = rest.isNil := by
          rw [ExprList.isNil_eq]; simp [ExprList.length]
        simp [e]
    | succ i =>
      simp only [ExprList.toList, List.getElem?_cons_succ] at hi
      have e : decide (i + 1 + 1 = (ExprList.cons t rest).length) = decide (i + 1 = rest.length) := by
        simp [ExprList.length]
      rw [e, show pos + (i + 1) = pos + 1 + i by omega]
      by_cases hu : t.isUnpack = true
      · cases t <;> simp [Expr.isUnpack] at hu
        next w =>
        rw [processTargets_unpack] at h
        split at h
        · cases h
        · split at h
          · cases h
          · next stmts1 v1 hstep =>
            have g1 := grows_processAssignment w t0 _ stmts force v _ ht hstep
            have hlt : t0 < v1.tempCounter :=
              Nat.lt_of_lt_of_le ht g1.choose_spec.choose_spec.2.2.1
            exact starred_target_assigned rest t0 _ n true stmts1 force v1 r i what hlt h hi hw
      · have hu : t.isUnpack = false := by simpa using hu
        rw [processTargets_item _ _ _ _ _ _ _ _ _ hu] at h
        split at h
        · cases h
        · next stmts1 v1 hstep =>
          have g1 := grows_processAssignment t t0 _ stmts force v _ ht hstep
          have hlt : t0 < v1.tempCounter :=
            Nat.lt_of_lt_of_le ht g1.choose_spec.choose_spec.2.2.1
          exact starred_target_assigned rest t0 _ n seenStar stmts1 force v1 r i what hlt h hi hw

theorem sliceOf_starKey {α : Type} (xs : List α) (i n : Nat) (hi : i < n)
    (hn : n - 1 ≤ xs.length) :
    Expr.sliceOf xs (starKey i n (decide (i + 1 = n))) =
      some ((xs.drop i).take (xs.length - (n - 1))) := by
  by_cases hl : i + 1 = n
  · have h1 : ¬ ((i : Int) < 0) := by omega
    have h2 : min (i : Int) (xs.length : Int) = i := by omega
    simp only [starKey, hl, decide_True, if_true, Expr.sliceOf, pySlice, h1, if_false, h2,
      Int.toNat_ofNat]
    congr 2
    omega
  · have h1 : ¬ ((i : Int) < 0) := by omega
    have h2 : min (i : Int) (xs.length : Int) = i := by omega
    have h3 : -((n : Int) - i - 1) < 0 := by omega
    have h4 : max (-((n : Int) - i - 1) + xs.length) 0 = -((n : Int) - i - 1) + xs.length := by
      omega
    simp only [starKey, hl, decide_False, Bool.false_eq_true, if_false, Expr.sliceOf, pySlice, h1,
      h2, h3, if_true, h4, Int.toNat_ofNat]
    congr 2
    omega

/-- C3. Star exclusivity of assignment patterns: the decomposition fails with
`InvalidPattern` when some tuple level of the pattern holds two or more starred
targets and succeeds when every level holds at most one; on success a starred
target at position `i` of an `n`-target tuple is assigned the slice of the
temporary that reads, from any sequence of at least `n - 1` items, the items
left once the `i` before it and the `n - 1 - i` after it are taken away. -/
theorem processAssignment_star_exclusive (lhs rhs : Expr) (stmts : List Stmt) (force : Bool)
    (v : TransformVisitor) :
    (lhs.starsOk = false → processAssignment lhs rhs stmts force v = .error .InvalidPattern) ∧
    (∀ items, lhs = .tuple items → 2 ≤ items.starCount →
      processAssignment lhs rhs stmts force v = .error .InvalidPattern) ∧
    (lhs.starsOk = true → ∃ r, processAssignment lhs rhs stmts force v = .ok r) ∧
    (∀ items i what r, lhs = .tuple items → items.toList[i]? = some (.unpack what) →
      (∀ its, what ≠ .tuple its) → processAssignment lhs rhs stmts force v = .ok r →
      Stmt.assign what (.index (.id (.temp v.tempCounter))
          (starKey i items.length (decide (i + 1 = items.length)))) .none force ∈ r.1 ∧
      ∀ xs : List Nat, items.length - 1 ≤ xs.length →
        Expr.sliceOf xs (starKey i items.length (decide (i + 1 = items.length))) =
          some ((xs.drop i).take (xs.length - (items.length - 1)))) := by
  have hag := agrees_processAssignment lhs rhs stmts force v
  have hbad : lhs.starsOk = false →
      processAssignment lhs rhs stmts force v = .error .InvalidPattern := by
    intro hf
    cases hr : processAssignment lhs rhs stmts force v with
    | error err =>
      rw [hr] at hag
      simp only [Agrees] at hag
      rw [hag.1]
    | ok r =>
      rw [hr] at hag
      simp only [Agrees] at hag
      rw [hf] at hag
      cases hag
  refine ⟨hbad, ?_, ?_, ?_⟩
  · rintro items rfl h2
    apply hbad
    have : ¬ items.starCount ≤ 1 := by omega
    simp [Expr.starsOk, this]
  · intro ht
    cases hr : processAssignment lhs rhs stmts force v with
    | error err =>
      rw [hr] at hag
      simp only [Agrees] at hag
      rw [ht] at hag
      exact absurd hag.2 (by simp)
    | ok r => exact ⟨r, rfl⟩
  · rintro items i what r rfl hi hw hr
    rw [processAssignment_tuple] at hr
    have hmem := starred_target_assigned items v.tempCounter 0 items.length false stmts force _ r
      i what (Nat.lt_succ_self _) hr hi hw
    rw [Nat.zero_add] at hmem
    refine ⟨hmem, fun xs hxs => sliceOf_starKey xs i items.length ?_ hxs⟩
    have hlt : i < items.toList.length := by
      by_contra hge
      rw [List.getElem?_eq_none (by omega)] at hi
      cases hi
    rwa [ExprList.length_toList] at hlt

theorem processAssignment_star_exclusive_witness :
    (patStarNested.starsOk = true ∧
      ∃ r, processAssignment patStarNested assignTwice.2 [] false ⟨[], 0⟩ = .ok r) ∧
    ((Expr.tuple (.cons (.unpack (.id (.user "a"))) (.cons (.unpack (.id (.user "b"))) .nil))).starsOk
        = false ∧
      processAssignment
        (.tuple (.cons (.unpack (.id (.user "a"))) (.cons (.unpack (.id (.user "b"))) .nil)))
        assignTwice.2 [] false ⟨[], 0⟩ = .error .InvalidPattern) :=
  ⟨⟨by decide,
    (processAssignment_star_exclusive patStarNested assignTwice.2 [] false ⟨[], 0⟩).2.2.1
      (by decide)⟩,
   ⟨by decide,
    (processAssignment_star_exclusive
      (.tuple (.cons (.unpack (.id (.user "a"))) (.cons (.unpack (.id (.user "b"))) .nil)))
      assignTwice.2 [] false ⟨[], 0⟩).1 (by decide)⟩⟩

/-! ## The equality routine `BaseSeqEq` -/

theorem runBlocks_succ (rt : Runtime) (f : Function) (fuel : Nat) (prev : Option Label)
    (cur : Label) (m : Machine) :
    runBlocks rt f (fuel + 1) prev cur m =
      match f.blocks.lookup cur with
      | none => some (.error .badLabel)
      | some instrs =>
        match execBlock rt prev instrs m with
        | .error e => some (.error e)
        | .ok (.done v m1) => some (.ok (v, m1))
        | .ok (.jump l m1) => runBlocks rt f fuel (some cur) l m1 := rfl

theorem run_exitEarly (rt : Runtime) (fuel : Nat) (prev : Option Label) (m : Machine) :
    runBlocks rt buildSeqEqFunc (fuel + 1) prev .exitEarly m = some (.ok (.int 0, m)) := by
  rw [runBlocks_succ]
  rw [show buildSeqEqFunc.blocks.lookup .exitEarly = some [.ret (.constInt .i1 0)] from rfl]
  rfl

theorem run_breakBlock (rt : Runtime) (fuel : Nat) (prev : Option Label) (m : Machine) :
    runBlocks rt buildSeqEqFunc (fuel + 1) prev .breakBlock m = some (.ok (.int 0, m)) := by
  rw [runBlocks_succ]
  rw [show buildSeqEqFunc.blocks.lookup .breakBlock = some [.ret (.constInt .i1 0)] from rfl]
  rfl

theorem run_exit (rt : Runtime) (fuel : Nat) (prev : Option Label) (m : Machine) :
    runBlocks rt buildSeqEqFunc (fuel + 1) prev .exit m = some (.ok (.int 1, m)) := by
  rw [runBlocks_succ]
  rw [show buildSeqEqFunc.blocks.lookup .exit = some [.ret (.constInt .i1 1)] from rfl]
  rfl

theorem run_entry (rt : Runtime) (fuel : Nat) (mem : List (List RVal)) (o1 : Nat) (f1 len1 : Int)
    (o2 : Nat) (f2 len2 : Int) (regs : List (Nat × RVal)) (file printed : List Int)
    (loads : List (Nat × Int)) :
    runBlocks rt buildSeqEqFunc (fuel + 1) none .entry
        ⟨mem, eqArgs o1 f1 len1 o2 f2 len2, regs, file, printed, loads⟩ =
      runBlocks rt buildSeqEqFunc fuel (some .entry)
        (if len1 = len2 then .compareSeqs else .exitEarly)
        ⟨mem, eqArgs o1 f1 len1 o2 f2 len2, (0, .int (if len1 = len2 then 1 else 0)) :: regs,
          file, printed, loads⟩ := by
  rw [runBlocks_succ]
  rw [show buildSeqEqFunc.blocks.lookup .entry = some [.icmpEq 0 (.arg 1) (.arg 3),
    .condBr (.reg 0) .compareSeqs .exitEarly] from rfl]
  by_cases h : len1 = len2 <;>
    simp [execBlock, execInstr, Machine.eval, evalValue, Machine.setReg, eqArgs, bind, Except.bind, pure,
      Except.pure, List.lookup, h]

theorem exec_compareSeqs (rt : Runtime) (prev : Label) (mem : List (List RVal)) (o1 : Nat)
    (f1 len1 : Int) (o2 : Nat) (f2 len2 : Int) (regs : List (Nat × RVal))
    (file printed : List Int) (loads : List (Nat × Int)) (i b1 b2 : Int)
    (hphi : (prev = .entry ∧ i = 0) ∨ (prev = .continueBlock ∧ regs.lookup 7 = some (.int i)))
    (h1 : memCell mem o1 (f1 + i) = some (.int b1))
    (h2 : memCell mem o2 (f2 + i) = some (.int b2)) :
    execBlock rt (some prev)
        [ .phi 1 [(.constInt .seqInt 0, .entry), (.reg 7, .continueBlock)],
          .gep 2 (.arg 0) [.reg 1],
          .gep 3 (.arg 2) [.reg 1],
          .load 4 (.reg 2),
          .load 5 (.reg 3),
          .icmpEq 6 (.reg 4) (.reg 5),
          .condBr (.reg 6) .continueBlock .breakBlock ]
        ⟨mem, eqArgs o1 f1 len1 o2 f2 len2, regs, file, printed, loads⟩ =
      .ok (.jump (if b1 = b2 then .continueBlock else .breakBlock)
        ⟨mem, eqArgs o1 f1 len1 o2 f2 len2,
          (6, .int (if b1 = b2 then 1 else 0)) :: (5, .int b2) :: (4, .int b1) ::
            (3, .ptr o2 (f2 + i)) :: (2, .ptr o1 (f1 + i)) :: (1, .int i) :: regs,
          file, printed, loads ++ [(o1, f1 + i)] ++ [(o2, f2 + i)]⟩) := by
  rcases hphi with ⟨rfl, rfl⟩ | ⟨rfl, h7⟩
  · simp only [add_zero] at h1 h2
    by_cases h : b1 = b2 <;>
      simp [execBlock, execInstr, evalArgs, Machine.eval, evalValue, Machine.setReg, Machine.loadCell,
        Machine.cell, eqArgs, bind, Except.bind, pure, Except.pure, List.lookup, h, h1, h2]
  · by_cases h : b1 = b2 <;>
      simp [execBlock, execInstr, evalArgs, Machine.eval, evalValue, Machine.setReg, Machine.loadCell,
        Machine.cell, eqArgs, bind, Except.bind, pure, Except.pure, List.lookup, h, h1, h2, h7,
        show (Label.continueBlock == Label.entry) = false from rfl]

theorem exec_continueBlock (rt : Runtime) (prev : Option Label) (mem : List (List RVal))
    (o1 : Nat) (f1 len1 : Int) (o2 : Nat) (f2 len2 : Int) (regs : List (Nat × RVal))
    (file printed : List Int) (loads : List (Nat × Int)) (i : Int)
    (h1 : regs.lookup 1 = some (.int i)) :
    execBlock rt prev
        [ .add 7 (.reg 1) (.constInt .seqInt 1),
          .icmpSlt 8 (.reg 7) (.arg 1),
          .condBr (.reg 8) .compareSeqs .exit ]
        ⟨mem, eqArgs o1 f1 len1 o2 f2 len2, regs, file, printed, loads⟩ =
      .ok (.jump (if wrap64 (i + 1) < len1 then .compareSeqs else .exit)
        ⟨mem, eqArgs o1 f1 len1 o2 f2 len2,
          (8, .int (if wrap64 (i + 1) < len1 then 1 else 0)) :: (7, .int (wrap64 (i + 1))) :: regs,
          file, printed, loads⟩) := by
  by_cases h : wrap64 (i + 1) < len1 <;>
    simp [execBlock, execInstr, evalArgs, Machine.eval, evalValue, Machine.setReg, eqArgs, bind,
      Except.bind, pure, Except.pure, List.lookup, h, h1]

theorem wrap64_of_small (x : Int) (h0 : -(2 ^ 63) ≤ x) (h1 : x < 2 ^ 63) : wrap64 x = x := by
  unfold wrap64
  rw [Int.emod_eq_of_lt (by omega) (by omega)]
  omega

theorem lookup_compareSeqs :
    buildSeqEqFunc.blocks.lookup .compareSeqs = some
      [ .phi 1 [(.constInt .seqInt 0, .entry), (.reg 7, .continueBlock)],
        .gep 2 (.arg 0) [.reg 1],
        .gep 3 (.arg 2) [.reg 1],
        .load 4 (.reg 2),
        .load 5 (.reg 3),
        .icmpEq 6 (.reg 4) (.reg 5),
        .condBr (.reg 6) .continueBlock .breakBlock ] := rfl

theorem lookup_continueBlock :
    buildSeqEqFunc.blocks.lookup .continueBlock = some
      [ .add 7 (.reg 1) (.constInt .seqInt 1),
        .icmpSlt 8 (.reg 7) (.arg 1),
        .condBr (.reg 8) .compareSeqs .exit ] := rfl

/-- The comparison loop on readable sequences of `n` items, entered at item
`i` with `k` items left: it compares `c` items, all before the last of them
equal, and returns 0 at a difference or 1 after the last item. -/
theorem run_compareSeqs (rt : Runtime) (mem : List (List RVal)) (o1 : Nat) (f1 : Int) (o2 : Nat)
    (f2 : Int) (n : Nat) (hn : (n : Int) < 2 ^ 63)
    (hr1 : ∀ j : Nat, j < n → ∃ b, memCell mem o1 (f1 + j) = some (.int b))
    (hr2 : ∀ j : Nat, j < n → ∃ b, memCell mem o2 (f2 + j) = some (.int b)) :
    ∀ (k i : Nat), i + k = n → 0 < k → ∀ (prev : Label) (regs : List (Nat × RVal))
      (file printed : List Int) (loads : List (Nat × Int)),
      ((prev = .entry ∧ i = 0) ∨ (prev = .continueBlock ∧ regs.lookup 7 = some (.int i))) →
      ∃ (c : Nat) (r : Int) (m1 : Machine), 0 < c ∧ c ≤ k ∧
        (∀ fuel, 2 * k + 1 ≤ fuel →
          runBlocks rt buildSeqEqFunc fuel (some prev) .compareSeqs
            ⟨mem, eqArgs o1 f1 n o2 f2 n, regs, file, printed, loads⟩ =
              some (.ok (.int r, m1))) ∧
        m1.loads = loads ++ comparedLoads o1 f1 o2 f2 i c ∧
        (∀ j : Nat, i ≤ j → j + 1 < i + c →
          memCell mem o1 (f1 + j) = memCell mem o2 (f2 + j)) ∧
        ((r = 0 ∧ memCell mem o1 (f1 + (i + c - 1 : Nat)) ≠ memCell mem o2 (f2 + (i + c - 1 : Nat))) ∨
         (r = 1 ∧ c = k ∧
          memCell mem o1 (f1 + (i + c - 1 : Nat)) = memCell mem o2 (f2 + (i + c - 1 : Nat)))) := by
  intro k
  induction k with
  | zero => intro i _ h; omega
  | succ k ih =>
    intro i hik _ prev regs file printed loads hphi
    obtain ⟨b1, hb1⟩ := hr1 i (by omega)
    obtain ⟨b2, hb2⟩ := hr2 i (by omega)
    have hphi' : (prev = .entry ∧ (i : Int) = 0) ∨
        (prev = .continueBlock ∧ regs.lookup 7 = some (.int i)) := by
      rcases hphi with ⟨a, b⟩ | h
      · exact Or.inl ⟨a, by simp [b]⟩
      · exact Or.inr h
    have hstep := exec_compareSeqs rt prev mem o1 f1 n o2 f2 n regs file printed loads i b1 b2
      hphi' hb1 hb2
    by_cases hb : b1 = b2
    · subst hb
      simp only [if_true] at hstep
      have hcont := exec_continueBlock rt (some .compareSeqs) mem o1 f1 n o2 f2 n
        ((6, .int 1) :: (5, .int b1) :: (4, .int b1) :: (3, .ptr o2 (f2 + i)) ::
          (2, .ptr o1 (f1 + i)) :: (1, .int i) :: regs) file printed
        (loads ++ [(o1, f1 + i)] ++ [(o2, f2 + i)]) i (by simp [List.lookup])
      rw [wrap64_of_small _ (by omega) (by omega)] at hcont
      by_cases hlast : k = 0
      · subst hlast
        have hnl : ¬ ((i : Int) + 1 < n) := by omega
        simp only [hnl, if_false] at hcont
        refine ⟨1, 1, ⟨mem, eqArgs o1 f1 n o2 f2 n,
          (8, .int 0) :: (7, .int ((i : Int) + 1)) :: (6, .int 1) :: (5, .int b1) ::
            (4, .int b1) :: (3, .ptr o2 (f2 + i)) :: (2, .ptr o1 (f1 + i)) :: (1, .int i) :: regs,
          file, printed, loads ++ [(o1, f1 + i)] ++ [(o2, f2 + i)]⟩,
          by omega, by omega, fun fuel hfuel => ?_, ?_, ?_, ?_⟩
        · obtain ⟨fuel3, rfl⟩ : ∃ f, fuel = f + 1 + 1 + 1 := ⟨fuel - 3, by omega⟩
          rw [runBlocks_succ, lookup_compareSeqs]
          simp only [hstep]
          rw [runBlocks_succ, lookup_continueBlock]
          simp only [hcont]
          rw [run_exit]
        · simp [comparedLoads]
        · intro j h1 h2; omega
        · right
          refine ⟨rfl, rfl, ?_⟩
          simp only [Nat.add_sub_cancel]
          rw [hb1, hb2]
      · have hl : ((i : Int) + 1 < n) := by omega
        simp only [hl, if_true] at hcont
        obtain ⟨c, r, m1, hc0, hck, hrun, hloads, heq, hres⟩ :=
          ih (i + 1) (by omega) (by omega) .continueBlock
            ((8, .int 1) :: (7, .int ((i : Int) + 1)) ::
              (6, .int 1) :: (5, .int b1) :: (4, .int b1) ::
              (3, .ptr o2 (f2 + i)) :: (2, .ptr o1 (f1 + i)) :: (1, .int i) :: regs)
            file printed (loads ++ [(o1, f1 + i)] ++ [(o2, f2 + i)])
            (Or.inr ⟨rfl, by simp [List.lookup]⟩)
        refine ⟨c + 1, r, m1, by omega, by omega, fun fuel hfuel => ?_, ?_, ?_, ?_⟩
        · obtain ⟨fuel2, rfl⟩ : ∃ f, fuel = f + 1 + 1 := ⟨fuel - 2, by omega⟩
          rw [runBlocks_succ, lookup_compareSeqs]
          simp only [hstep]
          rw [runBlocks_succ, lookup_continueBlock]
          simp only [hcont]
          exact hrun fuel2 (by omega)
        · rw [hloads]
          simp [comparedLoads]
        · intro j h1 h2
          by_cases hj : j = i
          · subst hj; rw [hb1, hb2]
          · exact heq j (by omega) (by omega)
        · have e : i + (c + 1) - 1 = i + 1 + c - 1 := by omega
          rw [e]
          rcases hres with ⟨a, b⟩ | ⟨a, b, d⟩
          · exact Or.inl ⟨a, b⟩
          · exact Or.inr ⟨a, by omega, d⟩
    · simp only [hb, if_false] at hstep
      refine ⟨1, 0, ⟨mem, eqArgs o1 f1 n o2 f2 n,
        (6, .int 0) :: (5, .int b2) :: (4, .int b1) :: (3, .ptr o2 (f2 + i)) ::
          (2, .ptr o1 (f1 + i)) :: (1, .int i) :: regs,
        file, printed, loads ++ [(o1, f1 + i)] ++ [(o2, f2 + i)]⟩,
        by omega, by omega, fun fuel hfuel => ?_, ?_, ?_, ?_⟩
      · obtain ⟨fuel2, rfl⟩ : ∃ f, fuel = f + 1 + 1 := ⟨fuel - 2, by omega⟩
        rw [runBlocks_succ, lookup_compareSeqs]
        simp only [hstep]
        rw [run_breakBlock]
      · simp [comparedLoads]
      · intro j h1 h2; omega
      · left
        refine ⟨rfl, ?_⟩
        simp only [Nat.add_sub_cancel]
        rw [hb1, hb2]
        simpa using hb

theorem exec_compareSeqs_jump (rt : Runtime) (prev : Label) (mem : List (List RVal)) (o1 : Nat)
    (f1 len1 : Int) (o2 : Nat) (f2 len2 : Int) (regs : List (Nat × RVal))
    (file printed : List Int) (loads : List (Nat × Int)) (i : Int) (l : Label) (m1 : Machine)
    (hphi : (prev = .entry ∧ i = 0) ∨ (prev = .continueBlock ∧ regs.lookup 7 = some (.int i)))
    (h : execBlock rt (some prev)
        [ .phi 1 [(.constInt .seqInt 0, .entry), (.reg 7, .continueBlock)],
          .gep 2 (.arg 0) [.reg 1],
          .gep 3 (.arg 2) [.reg 1],
          .load 4 (.reg 2),
          .load 5 (.reg 3),
          .icmpEq 6 (.reg 4) (.reg 5),
          .condBr (.reg 6) .continueBlock .breakBlock ]
        ⟨mem, eqArgs o1 f1 len1 o2 f2 len2, regs, file, printed, loads⟩ = .ok (.jump l m1)) :
    ∃ b1 b2, memCell mem o1 (f1 + i) = some (.int b1) ∧ memCell mem o2 (f2 + i) = some (.int b2) := by
  have hne : (Label.continueBlock == Label.entry) = false := rfl
  rcases h1 : memCell mem o1 (f1 + i) with _ | v1
  · exfalso
    rcases hphi with ⟨rfl, rfl⟩ | ⟨rfl, h7⟩
    · simp only [add_zero] at h1
      simp [execBlock, execInstr, evalArgs, Machine.eval, evalValue, Machine.setReg, Machine.loadCell,
        Machine.cell, eqArgs, bind, Except.bind, pure, Except.pure, List.lookup, h1] at h
    · simp [execBlock, execInstr, evalArgs, Machine.eval, evalValue, Machine.setReg, Machine.loadCell,
        Machine.cell, eqArgs, bind, Except.bind, pure, Except.pure, List.lookup, h1, h7, hne] at h
  · rcases h2 : memCell mem o2 (f2 + i) with _ | v2
    · exfalso
      rcases hphi with ⟨rfl, rfl⟩ | ⟨rfl, h7⟩
      · simp only [add_zero] at h1 h2
        simp [execBlock, execInstr, evalArgs, Machine.eval, evalValue, Machine.setReg, Machine.loadCell,
          Machine.cell, eqArgs, bind, Except.bind, pure, Except.pure, List.lookup, h1, h2] at h
      · simp [execBlock, execInstr, evalArgs, Machine.eval, evalValue, Machine.setReg, Machine.loadCell,
          Machine.cell, eqArgs, bind, Except.bind, pure, Except.pure, List.lookup, h1, h2, h7,
          hne] at h
    · cases v1 <;> cases v2 <;>
        first
        | exact ⟨_, _, rfl, rfl⟩
        | (exfalso
           rcases hphi with ⟨rfl, rfl⟩ | ⟨rfl, h7⟩
           · simp only [add_zero] at h1 h2
             simp [execBlock, execInstr, evalArgs, Machine.eval, evalValue, Machine.setReg,
               Machine.loadCell, Machine.cell, eqArgs, bind, Except.bind, pure, Except.pure,
               List.lookup, h1, h2] at h
           · simp [execBlock, execInstr, evalArgs, Machine.eval, evalValue, Machine.setReg,
               Machine.loadCell, Machine.cell, eqArgs, bind, Except.bind, pure, Except.pure,
               List.lookup, h1, h2, h7, hne] at h)

/-- The comparison loop returns or faults from every state: the position it
compares only moves up, and it stops moving once it reaches the length. -/
theorem run_compareSeqs_terminates (rt : Runtime) (mem : List (List RVal)) (o1 : Nat) (f1 : Int)
    (o2 : Nat) (f2 : Int) (len1 len2 : Int) (hlen : len1 < 2 ^ 63) :
    ∀ (k : Nat) (i : Int), 0 ≤ i → i < 2 ^ 63 - 1 → (len1 - (i + 1)).toNat ≤ k →
      ∀ (prev : Label) (regs : List (Nat × RVal)) (file printed : List Int)
        (loads : List (Nat × Int)),
      ((prev = .entry ∧ i = 0) ∨ (prev = .continueBlock ∧ regs.lookup 7 = some (.int i))) →
      ∃ fuel out, runBlocks rt buildSeqEqFunc fuel (some prev) .compareSeqs
        ⟨mem, eqArgs o1 f1 len1 o2 f2 len2, regs, file, printed, loads⟩ = some out := by
  intro k
  induction k with
  | zero =>
    intro i hi0 hi1 hk prev regs file printed loads hphi
    refine ⟨3, ?_⟩
    rw [runBlocks_succ, lookup_compareSeqs]
    simp only
    cases hx : execBlock rt (some prev) _
      ⟨mem, eqArgs o1 f1 len1 o2 f2 len2, regs, file, printed, loads⟩ with
    | error e => exact ⟨_, rfl⟩
    | ok ctl =>
      cases ctl with
      | done v m1 => exact ⟨_, rfl⟩
      | jump l m1 =>
        obtain ⟨b1, b2, hb1, hb2⟩ := exec_compareSeqs_jump rt prev mem o1 f1 len1 o2 f2 len2 regs
          file printed loads i l m1 hphi hx
        rw [exec_compareSeqs rt prev mem o1 f1 len1 o2 f2 len2 regs file printed loads i b1 b2
          hphi hb1 hb2] at hx
        simp only [Except.ok.injEq, Ctl.jump.injEq] at hx
        obtain ⟨rfl, rfl⟩ := hx
        by_cases hb : b1 = b2
        · simp only [hb, if_true]
          rw [runBlocks_succ, lookup_continueBlock]
          simp only [exec_continueBlock rt (some .compareSeqs) mem o1 f1 len1 o2 f2 len2
            ((6, .int 1) :: (5, .int b2) :: (4, .int b2) :: (3, .ptr o2 (f2 + i)) ::
              (2, .ptr o1 (f1 + i)) :: (1, .int i) :: regs) file printed
            (loads ++ [(o1, f1 + i)] ++ [(o2, f2 + i)]) i (by simp [List.lookup])]
          rw [wrap64_of_small _ (by omega) (by omega)]
          have hnl : ¬ (i + 1 < len1) := by omega
          simp only [hnl, if_false]
          rw [run_exit]
          exact ⟨_, rfl⟩
        · simp only [hb, if_false]
          rw [run_breakBlock]
          exact ⟨_, rfl⟩
  | succ k ih =>
    intro i hi0 hi1 hk prev regs file printed loads hphi
    by_cases hlt : i + 1 < len1
    · have hi0' : 0 ≤ i + 1 := by omega
      have hi1' : i + 1 < 2 ^ 63 - 1 := by omega
      have hk' : (len1 - (i + 1 + 1)).toNat ≤ k := by omega
      suffices h : ∀ b : Int, ∃ fuel out, runBlocks rt buildSeqEqFunc fuel (some .continueBlock)
          .compareSeqs ⟨mem, eqArgs o1 f1 len1 o2 f2 len2,
            (8, .int 1) :: (7, .int (i + 1)) :: (6, .int 1) ::
              (5, .int b) :: (4, .int b) :: (3, .ptr o2 (f2 + i)) :: (2, .ptr o1 (f1 + i)) ::
              (1, .int i) :: regs, file, printed,
            loads ++ [(o1, f1 + i)] ++ [(o2, f2 + i)]⟩ = some out by
        cases hx : execBlock rt (some prev)
          [ .phi 1 [(.constInt .seqInt 0, .entry), (.reg 7, .continueBlock)],
            .gep 2 (.arg 0) [.reg 1], .gep 3 (.arg 2) [.reg 1], .load 4 (.reg 2),
            .load 5 (.reg 3), .icmpEq 6 (.reg 4) (.reg 5),
            .condBr (.reg 6) .continueBlock .breakBlock ]
          ⟨mem, eqArgs o1 f1 len1 o2 f2 len2, regs, file, printed, loads⟩ with
        | error e =>
          refine ⟨1, ?_⟩
          rw [runBlocks_succ, lookup_compareSeqs]
          simp only [hx]
          exact ⟨_, rfl⟩
        | ok ctl =>
          cases ctl with
          | done v m1 =>
            refine ⟨1, ?_⟩
            rw [runBlocks_succ, lookup_compareSeqs]
            simp only [hx]
            exact ⟨_, rfl⟩
          | jump l m1 =>
            obtain ⟨b1, b2, hb1, hb2⟩ := exec_compareSeqs_jump rt prev mem o1 f1 len1 o2 f2 len2
              regs file printed loads i l m1 hphi hx
            by_cases hb : b1 = b2
            · subst hb
              obtain ⟨fuel, out, hrun⟩ := h b1
              refine ⟨fuel + 2, out, ?_⟩
              rw [runBlocks_succ, lookup_compareSeqs]
              simp only [exec_compareSeqs rt prev mem o1 f1 len1 o2 f2 len2 regs file printed
                loads i b1 b1 hphi hb1 hb2, if_true]
              rw [runBlocks_succ, lookup_continueBlock]
              simp only [exec_continueBlock rt (some .compareSeqs) mem o1 f1 len1 o2 f2 len2
                ((6, .int 1) :: (5, .int b1) :: (4, .int b1) :: (3, .ptr o2 (f2 + i)) ::
                  (2, .ptr o1 (f1 + i)) :: (1, .int i) :: regs) file printed
                (loads ++ [(o1, f1 + i)] ++ [(o2, f2 + i)]) i (by simp [List.lookup])]
              rw [wrap64_of_small _ (by omega) (by omega)]
              simp only [hlt, if_true]
              exact hrun
            · refine ⟨2, ?_⟩
              rw [runBlocks_succ, lookup_compareSeqs]
              simp only [exec_compareSeqs rt prev mem o1 f1 len1 o2 f2 len2 regs file printed
                loads i b1 b2 hphi hb1 hb2, hb, if_false]
              rw [run_breakBlock]
              exact ⟨_, rfl⟩
      intro b
      exact ih (i + 1) hi0' hi1' hk' .continueBlock _ file printed _
        (Or.inr ⟨rfl, by simp [List.lookup]⟩)
    · exact ih i hi0 hi1 (by omega) prev regs file printed loads hphi

/-- The equality routine on two readable sequences of the same length `n ≥ 1`:
it returns `r`, 0 or 1, after comparing the items at positions `0 .. c - 1`. -/
theorem baseSeqEq_readable (rt : Runtime) (mem : List (List RVal)) (o1 : Nat) (f1 : Int)
    (o2 : Nat) (f2 : Int) (n : Nat) (hn1 : 1 ≤ n) (hn : (n : Int) < 2 ^ 63)
    (hr1 : ∀ j : Nat, j < n → ∃ b, memCell mem o1 (f1 + j) = some (.int b))
    (hr2 : ∀ j : Nat, j < n → ∃ b, memCell mem o2 (f2 + j) = some (.int b)) :
    ∃ (c : Nat) (r : Int) (m1 : Machine), 1 ≤ c ∧ c ≤ n ∧
      (∀ fuel, 2 * n + 2 ≤ fuel →
        buildSeqEqFunc.run rt fuel (eqArgs o1 f1 n o2 f2 n) mem = some (.ok (.int r, m1))) ∧
      m1.loads = comparedLoads o1 f1 o2 f2 0 c ∧
      (∀ j : Nat, j + 1 < c → memCell mem o1 (f1 + j) = memCell mem o2 (f2 + j)) ∧
      (r = 0 ∨ r = 1) ∧
      (r = 0 → memCell mem o1 (f1 + (c - 1 : Nat)) ≠ memCell mem o2 (f2 + (c - 1 : Nat))) ∧
      (r = 1 ↔ ∀ j : Nat, j < n → memCell mem o1 (f1 + j) = memCell mem o2 (f2 + j)) := by
  obtain ⟨c, r, m1, hc0, hcn, hrun, hloads, heq, hres⟩ :=
    run_compareSeqs rt mem o1 f1 o2 f2 n hn hr1 hr2 n 0 (by omega) (by omega)
      .entry [(0, .int 1)] [] [] [] (Or.inl ⟨rfl, rfl⟩)
  simp only [Nat.zero_add] at heq hres
  refine ⟨c, r, m1, hc0, hcn, fun fuel hfuel => ?_, by simpa using hloads,
    fun j hj => heq j (Nat.zero_le _) hj, ?_, ?_, ?_⟩
  · obtain ⟨fuel1, rfl⟩ : ∃ f, fuel = f + 1 := ⟨fuel - 1, by omega⟩
    unfold Function.run
    rw [run_entry]
    simp only [if_true]
    exact hrun fuel1 (by omega)
  · rcases hres with ⟨a, _⟩ | ⟨a, _⟩
    · exact Or.inl a
    · exact Or.inr a
  · intro h0
    rcases hres with ⟨_, b⟩ | ⟨a, _⟩
    · exact b
    · omega
  · constructor
    · intro h1 j hj
      rcases hres with ⟨a, _⟩ | ⟨_, b, d⟩
      · omega
      · subst b
        by_cases hj' : j + 1 < c
        · exact heq j (Nat.zero_le _) hj'
        · have : j = c - 1 := by omega
          subst this
          exact d
    · intro hall
      rcases hres with ⟨_, b⟩ | ⟨a, _⟩
      · exact absurd (hall (c - 1) (by omega)) b
      · exact a

theorem readable_twoEqualBuffers (o : Nat) (ho : o < 2) : Readable twoEqualBuffers o 0 2 := by
  intro j hj
  interval_cases o <;> interval_cases j <;> exact ⟨_, rfl⟩

/-- C4. The equality routine `BaseSeqEq` on `(seq1, len1)` and `(seq2, len2)`,
`len1` a `seq_int_t`: it always returns or faults within finitely many blocks;
it returns 0 when the lengths differ; on two readable sequences of the same
length `n ≥ 1` it returns 0 or 1 after comparing the positions `0 .. c - 1` and
no other, the items before position `c - 1` being equal, it returns 0 only at a
position where the items differ, and it returns 1 exactly when the items are
equal at every position below `n`; so it is reflexive and symmetric there. -/
theorem baseSeqEq_spec (rt : Runtime) (mem : List (List RVal)) (o1 : Nat) (f1 : Int) (o2 : Nat)
    (f2 : Int) (len1 len2 : Int) (hlen : len1 < 2 ^ 63) :
    (∃ fuel out, buildSeqEqFunc.run rt fuel (eqArgs o1 f1 len1 o2 f2 len2) mem = some out) ∧
    (len1 ≠ len2 → ∃ m1, ∀ fuel, 2 ≤ fuel →
      buildSeqEqFunc.run rt fuel (eqArgs o1 f1 len1 o2 f2 len2) mem = some (.ok (.int 0, m1))) ∧
    (∀ n : Nat, 1 ≤ n → len1 = n → len2 = n → Readable mem o1 f1 n → Readable mem o2 f2 n →
      ∃ (c : Nat) (r : Int) (m1 : Machine), 1 ≤ c ∧ c ≤ n ∧
        (∀ fuel, 2 * n + 2 ≤ fuel →
          buildSeqEqFunc.run rt fuel (eqArgs o1 f1 len1 o2 f2 len2) mem =
            some (.ok (.int r, m1))) ∧
        m1.loads = comparedLoads o1 f1 o2 f2 0 c ∧
        SameItems mem o1 f1 o2 f2 (c - 1) ∧
        (r = 0 ∨ r = 1) ∧
        (r = 0 → memCell mem o1 (f1 + (c - 1 : Nat)) ≠ memCell mem o2 (f2 + (c - 1 : Nat))) ∧
        (r = 1 ↔ SameItems mem o1 f1 o2 f2 n)) ∧
    (∀ n : Nat, 1 ≤ n → len1 = n → Readable mem o1 f1 n →
      ∃ m1, ∀ fuel, 2 * n + 2 ≤ fuel →
        buildSeqEqFunc.run rt fuel (eqArgs o1 f1 len1 o1 f1 len1) mem = some (.ok (.int 1, m1))) ∧
    (∀ n : Nat, 1 ≤ n → len1 = n → len2 = n → Readable mem o1 f1 n → Readable mem o2 f2 n →
      ∃ (r : Int) (m1 m2 : Machine), ∀ fuel, 2 * n + 2 ≤ fuel →
        buildSeqEqFunc.run rt fuel (eqArgs o1 f1 len1 o2 f2 len2) mem = some (.ok (.int r, m1)) ∧
        buildSeqEqFunc.run rt fuel (eqArgs o2 f2 len2 o1 f1 len1) mem =
          some (.ok (.int r, m2))) := by
  refine ⟨?_, ?_, ?_, ?_, ?_⟩
  · by_cases h : len1 = len2
    · obtain ⟨fuel, out, hrun⟩ := run_compareSeqs_terminates rt mem o1 f1 o2 f2 len1 len2 hlen
        (len1 - 1).toNat 0 (by omega) (by omega) (by simp) .entry
        [(0, .int 1)] [] [] [] (Or.inl ⟨rfl, rfl⟩)
      refine ⟨fuel + 1, out, ?_⟩
      unfold Function.run
      rw [run_entry]
      simpa only [h, if_true] using hrun
    · refine ⟨2, ?_⟩
      unfold Function.run
      rw [run_entry]
      simp only [h, if_false]
      rw [run_exitEarly]
      exact ⟨_, rfl⟩
  · intro h
    refine ⟨⟨mem, eqArgs o1 f1 len1 o2 f2 len2, [(0, .int 0)], [], [], []⟩, fun fuel hfuel => ?_⟩
    obtain ⟨fuel2, rfl⟩ : ∃ f, fuel = f + 1 + 1 := ⟨fuel - 2, by omega⟩
    unfold Function.run
    rw [run_entry]
    simp only [h, if_false]
    rw [run_exitEarly]
  · rintro n hn1 rfl rfl hr1 hr2
    obtain ⟨c, r, m1, a1, a2, a3, a4, a5, a6, a7, a8⟩ :=
      baseSeqEq_readable rt mem o1 f1 o2 f2 n hn1 hlen hr1 hr2
    exact ⟨c, r, m1, a1, a2, a3, a4, fun j hj => a5 j (by omega), a6, a7, a8⟩
  · rintro n hn1 rfl hr1
    obtain ⟨c, r, m1, _, _, a3, _, _, _, _, a8⟩ :=
      baseSeqEq_readable rt mem o1 f1 o1 f1 n hn1 hlen hr1 hr1
    have hr : r = 1 := a8.2 (fun _ _ => rfl)
    subst hr
    exact ⟨m1, a3⟩
  · rintro n hn1 rfl rfl hr1 hr2
    obtain ⟨_, r, m1, _, _, a3, _, _, a6, _, a8⟩ :=
      baseSeqEq_readable rt mem o1 f1 o2 f2 n hn1 hlen hr1 hr2
    obtain ⟨_, r', m2, _, _, b3, _, _, b6, _, b8⟩ :=
      baseSeqEq_readable rt mem o2 f2 o1 f1 n hn1 hlen hr2 hr1
    have hrr : r' = r := by
      have hiff : r = 1 ↔ r' = 1 :=
        a8.trans ⟨fun h => b8.2 (fun j hj => (h j hj).symm),
          fun h => fun j hj => ((b8.1 h) j hj).symm⟩
      rcases a6 with rfl | rfl <;> rcases b6 with rfl | rfl <;> simp_all
    subst hrr
    exact ⟨r', m1, m2, fun fuel hfuel => ⟨a3 fuel hfuel, b3 fuel hfuel⟩⟩

theorem baseSeqEq_spec_witness :
    (2 : Int) < 2 ^ 63 ∧ Readable twoEqualBuffers 0 0 2 ∧ Readable twoEqualBuffers 1 0 2 ∧
    ∃ (r : Int) (m1 m2 : Machine), ∀ fuel, 2 * 2 + 2 ≤ fuel →
      buildSeqEqFunc.run unitRuntime fuel (eqArgs 0 0 2 1 0 2) twoEqualBuffers =
        some (.ok (.int r, m1)) ∧
      buildSeqEqFunc.run unitRuntime fuel (eqArgs 1 0 2 0 0 2) twoEqualBuffers =
        some (.ok (.int r, m2)) :=
  ⟨by norm_num, readable_twoEqualBuffers 0 (by omega), readable_twoEqualBuffers 1 (by omega),
    (baseSeqEq_spec unitRuntime twoEqualBuffers 0 0 1 0 2 2 (by norm_num)).2.2.2.2 2 (by omega)
      rfl rfl (readable_twoEqualBuffers 0 (by omega)) (readable_twoEqualBuffers 1 (by omega))⟩

/-- C7, at the failing input: on two empty sequences, the empty slices of the
buffers "A" and "B", the loop of `BaseSeqEq` is entered before its bound is
tested; it loads the byte at index 0 of either buffer, outside `[0, 0)`, and
returns 0 because the two bytes differ. -/
theorem baseSeqEq_empty_loads_index_zero :
    (buildSeqEqFunc.run unitRuntime 4 (eqArgs 0 0 0 1 0 0) bufferAB).map
      (fun out => out.toOption.map (fun p => (p.1, p.2.loads)))
      = some (some (.int 0, [(0, 0), (1, 0)])) := by
  decide

/-! ## The calls `BaseSeqType` emits -/

/-- C5, the claim as written fails: the call of the write routine that
`callSerialize` emits has four arguments, the pointer, the length, the constant
1 and the file handle, not the pointer and length pair plus the file handle
alone. -/
theorem callSerialize_write_takes_four_arguments :
    callsTo .ioWrite
        (SeqType.get.callSerialize [(.SEQ, .arg 0), (.LEN, .arg 1)] (.arg 2) Codegen.empty).2.block
      = [[.reg 0, .reg 1, oneLLVM, .arg 2]] ∧
    callsTo .ioWrite
        (SeqType.get.callSerialize [(.SEQ, .arg 0), (.LEN, .arg 1)] (.arg 2) Codegen.empty).2.block
      ≠ [[.reg 0, .reg 1, .arg 2]] := by
  decide

/-- C5, amended: in a module that declares nothing yet, with the value maps
holding the sequence slot under `getKey()` and the length slot under `LEN`, the
code generation of `BaseSeqType` declares the copy and print routines on
(pointer, length) and calls them on the loaded pointer and length in that
order; it declares and calls the equality routine on two such pairs; it declares
the write and read routines on (pointer, length, length, pointer) and calls
them on the pointer, the length, the constant 1 and the file handle; and
`callDeserialize` also declares the allocation routine on a size and calls it
on the length alone. -/
theorem baseSeqType_runtime_calls (self : BaseSeqType) (ins ins2 outs : ValMap)
    (seqVar lenVar seqVar2 lenVar2 fp : Value) (pre blk : List Instr) (n k : Nat)
    (h1 : ins.lookup self.getKey = some seqVar) (h2 : ins.lookup .LEN = some lenVar)
    (h3 : ins2.lookup self.getKey = some seqVar2) (h4 : ins2.lookup .LEN = some lenVar2)
    (hp : self.vtable.print ≠ none) :
    (∃ outs1 g1, self.callCopy ins outs (Codegen.fresh pre blk n k) = (.ok outs1, g1) ∧
      g1.declOf .copyFunc = some ⟨.copyFunc, .i8Ptr, [.i8Ptr, .seqInt]⟩ ∧
      g1.block = blk ++ [.load n seqVar, .load (n + 1) lenVar,
        .call (n + 2) .copyFunc [.reg n, .reg (n + 1)],
        .store (.reg (n + 2)) (.reg (n + 3)), .store (.reg (n + 1)) (.reg (n + 4))]) ∧
    (∃ g1, self.callPrint ins (Codegen.fresh pre blk n k) = (.ok (), g1) ∧
      g1.declOf .printFunc = some ⟨.printFunc, .void, [.i8Ptr, .seqInt]⟩ ∧
      g1.block = blk ++ [.load n seqVar, .load (n + 1) lenVar,
        .call (n + 2) .printFunc [.reg n, .reg (n + 1)]]) ∧
    (∃ v g1, self.checkEq ins ins2 (Codegen.fresh pre blk n k) = (.ok v, g1) ∧
      g1.declOf .baseSeqEq = some ⟨.baseSeqEq, .i1, [.i8Ptr, .seqInt, .i8Ptr, .seqInt]⟩ ∧
      g1.block = blk ++ [.load n seqVar, .load (n + 1) lenVar, .load (n + 2) seqVar2,
        .load (n + 3) lenVar2,
        .call (n + 4) .baseSeqEq [.reg n, .reg (n + 1), .reg (n + 2), .reg (n + 3)]]) ∧
    (∃ g1, self.callSerialize ins fp (Codegen.fresh pre blk n k) = (.ok (), g1) ∧
      g1.declOf .ioWrite = some ⟨.ioWrite, .void, [.i8Ptr, .seqInt, .seqInt, .i8Ptr]⟩ ∧
      g1.block = blk ++ [.load n seqVar, .load (n + 1) lenVar,
        .store (.reg (n + 1)) (.reg (n + 2)), .call (n + 3) .intWrite [.reg (n + 2), fp],
        .call (n + 4) .ioWrite [.reg n, .reg (n + 1), oneLLVM, fp]]) ∧
    (∃ outs1 g1, self.callDeserialize outs fp (Codegen.fresh pre blk n k) = (.ok outs1, g1) ∧
      g1.declOf .ioRead = some ⟨.ioRead, .void, [.i8Ptr, .seqInt, .seqInt, .i8Ptr]⟩ ∧
      g1.declOf .allocFunc = some ⟨.allocFunc, .i8Ptr, [.sizeT]⟩ ∧
      g1.block = blk ++ [.call (n + 1) .intRead [.reg n, fp], .load (n + 2) (.reg n),
        .call (n + 3) .allocFunc [.reg (n + 2)],
        .call (n + 4) .ioRead [.reg (n + 3), .reg (n + 2), oneLLVM, fp],
        .store (.reg (n + 3)) (.reg (n + 5)), .store (.reg (n + 2)) (.reg (n + 6))]) := by
  refine ⟨?_, ?_, ?_, ?_, ?_⟩
  · simp [BaseSeqType.callCopy, bind, Gen.bind, Gen.modify, Gen.lift, Gen.getSafe, h1, h2, pure,
      Gen.pure, Codegen.fresh, Codegen.getOrInsertFunction, Codegen.createLoad,
      Codegen.createCall, Codegen.createStore, Codegen.makeAlloca, Codegen.emitValue,
      Codegen.emit, Codegen.declOf, Seq.getSafe]
    exact ⟨_, _, ⟨rfl, rfl⟩, rfl, rfl⟩
  · simp [BaseSeqType.callPrint, bind, Gen.bind, Gen.modify, Gen.lift, Gen.getSafe, h1, h2, pure,
      Gen.pure, hp, Codegen.fresh, Codegen.getOrInsertFunction, Codegen.createLoad,
      Codegen.createCall, Codegen.emitValue, Codegen.emit, Codegen.declOf, Seq.getSafe]
  · simp [BaseSeqType.checkEq, bind, Gen.bind, Gen.modify, Gen.lift, Gen.getSafe, h1, h2,
      h3, h4, pure, Gen.pure, Codegen.fresh, Codegen.getOrBuildSeqEq, Codegen.createLoad,
      Codegen.createCall, Codegen.emitValue, Codegen.emit, Codegen.declOf, eqFuncName,
      buildSeqEqFunc, Seq.getSafe]
    exact ⟨_, _, ⟨rfl, rfl⟩, rfl, rfl⟩
  · simp [BaseSeqType.callSerialize, IntType.unpack, IntType.callSerialize, bind, Gen.bind,
      Gen.modify, Gen.lift, Gen.getSafe, h1, h2, pure, Gen.pure, Codegen.fresh,
      Codegen.getOrInsertFunction, Codegen.createLoad, Codegen.createCall, Codegen.createStore,
      Codegen.makeAlloca, Codegen.emitValue, Codegen.emit, Codegen.declOf, ValMap.insert,
      Seq.getSafe, List.lookup]
  · simp [BaseSeqType.callDeserialize, IntType.callDeserialize, bind, Gen.bind,
      Gen.modify, Gen.lift, Gen.getSafe, pure, Gen.pure, Codegen.fresh,
      Codegen.getOrInsertFunction, Codegen.createLoad, Codegen.createCall, Codegen.createStore,
      Codegen.makeAlloca, Codegen.emitValue, Codegen.emit, Codegen.declOf, ValMap.insert,
      Seq.getSafe, List.lookup]
    exact ⟨_, _, ⟨rfl, rfl⟩, rfl, rfl, rfl⟩

theorem baseSeqType_runtime_calls_witness :
    (([(.SEQ, .arg 0), (.LEN, .arg 1)] : ValMap).lookup SeqType.get.getKey = some (.arg 0) ∧
      ([(.SEQ, .arg 0), (.LEN, .arg 1)] : ValMap).lookup .LEN = some (.arg 1) ∧
      SeqType.get.vtable.print ≠ none) ∧
    ∃ g1, SeqType.get.callSerialize [(.SEQ, .arg 0), (.LEN, .arg 1)] (.arg 2)
        (Codegen.fresh [] [] 0 1) = (.ok (), g1) ∧
      g1.declOf .ioWrite = some ⟨.ioWrite, .void, [.i8Ptr, .seqInt, .seqInt, .i8Ptr]⟩ ∧
      g1.block = [] ++ [.load 0 (.arg 0), .load (0 + 1) (.arg 1),
        .store (.reg (0 + 1)) (.reg (0 + 2)), .call (0 + 3) .intWrite [.reg (0 + 2), .arg 2],
        .call (0 + 4) .ioWrite [.reg 0, .reg (0 + 1), oneLLVM, .arg 2]] :=
  ⟨⟨by decide, by decide, by decide⟩,
    (baseSeqType_runtime_calls SeqType.get [(.SEQ, .arg 0), (.LEN, .arg 1)]
      [(.SEQ, .arg 0), (.LEN, .arg 1)] [] (.arg 0) (.arg 1) (.arg 0) (.arg 1) (.arg 2) [] [] 0 1
      (by decide) (by decide) (by decide) (by decide) (by decide)).2.2.2.1⟩

/-! ## Printing -/

theorem Codegen.getOrInsertFunction_block (g : Codegen) (c : Callee) (r : LType)
    (ps : List LType) : (g.getOrInsertFunction c r ps).block = g.block := by
  unfold Codegen.getOrInsertFunction; split <;> rfl

theorem Codegen.getOrInsertFunction_preamble (g : Codegen) (c : Callee) (r : LType)
    (ps : List LType) : (g.getOrInsertFunction c r ps).preamble = g.preamble := by
  unfold Codegen.getOrInsertFunction; split <;> rfl

theorem Codegen.getOrInsertFunction_next (g : Codegen) (c : Callee) (r : LType)
    (ps : List LType) : (g.getOrInsertFunction c r ps).next = g.next := by
  unfold Codegen.getOrInsertFunction; split <;> rfl

theorem callsTo_append (c : Callee) (a b : List Instr) :
    callsTo c (a ++ b) = callsTo c a ++ callsTo c b := by
  induction a with
  | nil => rfl
  | cons i rest ih =>
    cases i with
    | call d c1 args =>
      simp only [List.cons_append, callsTo]
      split <;> simp [ih]
    | _ => simpa only [List.cons_append, callsTo] using ih

theorem callPrint_ok (self : BaseSeqType) (outs : ValMap) (g : Codegen) (seqVar lenVar : Value)
    (hp : self.vtable.print ≠ none) (h1 : outs.lookup self.getKey = some seqVar)
    (h2 : outs.lookup .LEN = some lenVar) :
    ∃ g1, self.callPrint outs g = (.ok (), g1) ∧
      g1.block = g.block ++ [.load g.next seqVar, .load (g.next + 1) lenVar,
        .call (g.next + 2) .printFunc [.reg g.next, .reg (g.next + 1)]] ∧
      g1.preamble = g.preamble ∧
      callsTo .printFunc g1.block =
        callsTo .printFunc g.block ++ [[.reg g.next, .reg (g.next + 1)]] := by
  have hrun : self.callPrint outs g = (.ok (),
      (((g.getOrInsertFunction .printFunc .void [.i8Ptr, .seqInt]).createLoad seqVar).2.createLoad
        lenVar).2.createCall .printFunc
          [((g.getOrInsertFunction .printFunc .void [.i8Ptr, .seqInt]).createLoad seqVar).1,
           (((g.getOrInsertFunction .printFunc .void [.i8Ptr, .seqInt]).createLoad
              seqVar).2.createLoad lenVar).1] |>.2) := by
    simp only [BaseSeqType.callPrint, bind, Gen.bind, Gen.modify, Gen.lift, Gen.getSafe, h1, h2,
      pure, Gen.pure, hp, if_false, Seq.getSafe]
  refine ⟨_, hrun, ?_, ?_, ?_⟩
  · simp [Codegen.createLoad, Codegen.createCall, Codegen.emitValue, Codegen.emit,
      Codegen.getOrInsertFunction_block, Codegen.getOrInsertFunction_next]
  · simp [Codegen.createLoad, Codegen.createCall, Codegen.emitValue, Codegen.emit,
      Codegen.getOrInsertFunction_preamble]
  · simp [Codegen.createLoad, Codegen.createCall, Codegen.emitValue, Codegen.emit,
      Codegen.getOrInsertFunction_block, Codegen.getOrInsertFunction_next, callsTo_append,
      callsTo]

/-- C9. `callPrint` throws the exception "cannot print specified type" exactly
when the print entry of the vtable is null, and then it has emitted nothing and
declared nothing; the constructor of `BaseSeqType` sets the print and copy
entries, so `SeqType` and `StrType` have them set; and on a type whose print
entry is set, with the sequence and length slots in the value map, `callPrint`
succeeds and adds to the block two loads and exactly one call of the print
routine, on the loaded pointer and length. -/
theorem callPrint_spec (self : BaseSeqType) (outs : ValMap) (g : Codegen) :
    ((self.callPrint outs g).1 = .error (.seqException "cannot print specified type") ↔
      self.vtable.print = none) ∧
    (self.vtable.print = none → (self.callPrint outs g).2 = g) ∧
    (∀ name key ty, (BaseSeqType.ctor name key ty).vtable.print ≠ none ∧
      (BaseSeqType.ctor name key ty).vtable.copy ≠ none) ∧
    (SeqType.get.vtable.print ≠ none ∧ SeqType.get.vtable.copy ≠ none ∧
      StrType.get.vtable.print ≠ none ∧ StrType.get.vtable.copy ≠ none) ∧
    (∀ seqVar lenVar, self.vtable.print ≠ none → outs.lookup self.getKey = some seqVar →
      outs.lookup .LEN = some lenVar →
      ∃ g1, self.callPrint outs g = (.ok (), g1) ∧
        g1.block = g.block ++ [.load g.next seqVar, .load (g.next + 1) lenVar,
          .call (g.next + 2) .printFunc [.reg g.next, .reg (g.next + 1)]] ∧
        g1.preamble = g.preamble ∧
        callsTo .printFunc g1.block =
          callsTo .printFunc g.block ++ [[.reg g.next, .reg (g.next + 1)]]) := by
  refine ⟨⟨fun h => ?_, fun h => ?_⟩, fun h => ?_, fun _ _ _ => ⟨by simp [BaseSeqType.ctor],
    by simp [BaseSeqType.ctor]⟩, by decide, fun seqVar lenVar hp h1 h2 =>
      callPrint_ok self outs g seqVar lenVar hp h1 h2⟩
  · by_contra hp
    rcases h1 : outs.lookup self.getKey with _ | seqVar
    · simp [BaseSeqType.callPrint, bind, Gen.bind, Gen.modify, Gen.lift, Gen.getSafe, h1, pure,
        Gen.pure, hp, Seq.getSafe] at h
    · rcases h2 : outs.lookup .LEN with _ | lenVar
      · simp [BaseSeqType.callPrint, bind, Gen.bind, Gen.modify, Gen.lift, Gen.getSafe, h1, h2,
          pure, Gen.pure, hp, Seq.getSafe] at h
      · obtain ⟨g1, hg, _⟩ := callPrint_ok self outs g seqVar lenVar hp h1 h2
        rw [hg] at h
        cases h
  · simp [BaseSeqType.callPrint, bind, Gen.bind, Gen.throw, h]
  · simp [BaseSeqType.callPrint, bind, Gen.bind, Gen.throw, h]

theorem callPrint_spec_witness :
    (SeqType.get.vtable.print ≠ none ∧
      ([(.SEQ, .arg 0), (.LEN, .arg 1)] : ValMap).lookup SeqType.get.getKey = some (.arg 0) ∧
      ([(.SEQ, .arg 0), (.LEN, .arg 1)] : ValMap).lookup .LEN = some (.arg 1)) ∧
    ∃ g1, SeqType.get.callPrint [(.SEQ, .arg 0), (.LEN, .arg 1)] Codegen.empty = (.ok (), g1) ∧
      g1.block = Codegen.empty.block ++ [.load Codegen.empty.next (.arg 0),
        .load (Codegen.empty.next + 1) (.arg 1),
        .call (Codegen.empty.next + 2) .printFunc
          [.reg Codegen.empty.next, .reg (Codegen.empty.next + 1)]] ∧
      g1.preamble = Codegen.empty.preamble ∧
      callsTo .printFunc g1.block =
        callsTo .printFunc Codegen.empty.block ++
          [[.reg Codegen.empty.next, .reg (Codegen.empty.next + 1)]] :=
  ⟨⟨by decide, by decide, by decide⟩,
    (callPrint_spec SeqType.get [(.SEQ, .arg 0), (.LEN, .arg 1)] Codegen.empty).2.2.2.2
      (.arg 0) (.arg 1) (by decide) (by decide) (by decide)⟩

/-! ## Memory lemmas -/

theorem memCell_some_lt {mem : List (List RVal)} {o : Nat} {off : Int} {x : RVal}
    (h : memCell mem o off = some x) : o < mem.length := by
  unfold memCell at h
  split at h
  · cases h
  · by_contra hge
    rw [List.getElem?_eq_none (by omega)] at h
    cases h

theorem memCell_append_left {mem : List (List RVal)} {o : Nat} (e : List (List RVal)) (off : Int)
    (h : o < mem.length) : memCell (mem ++ e) o off = memCell mem o off := by
  unfold memCell
  rw [List.getElem?_append_left h]

theorem memCell_append_new (mem : List (List RVal)) (cells : List RVal) (off : Int)
    (h : 0 ≤ off) : memCell (mem ++ [cells]) mem.length off = cells[off.toNat]? := by
  unfold memCell
  have : ¬ off < 0 := by omega
  simp [this]

theorem length_memSet (mem : List (List RVal)) (o : Nat) (off : Int) (v : RVal) :
    (memSet mem o off v).length = mem.length := by
  unfold memSet
  exact List.length_modify _ _ _

theorem memCell_memSet_ne {mem : List (List RVal)} {o o1 : Nat} (off off1 : Int) (v : RVal)
    (h : o1 ≠ o) : memCell (memSet mem o off v) o1 off1 = memCell mem o1 off1 := by
  unfold memCell memSet
  rw [List.getElem?_modify_ne _ _ (Ne.symm h)]

theorem memCell_memSet_same {mem : List (List RVal)} {o : Nat} {off : Int} {x : RVal} (v : RVal)
    (h : memCell mem o off = some x) : memCell (memSet mem o off v) o off = some v := by
  unfold memCell memSet at *
  split at h
  · cases h
  · next hoff =>
    simp only [hoff, if_false, List.getElem?_modify_eq]
    cases hm : mem[o]? with
    | none => rw [hm] at h; cases h
    | some cells =>
      rw [hm] at h
      simp only at h
      have hlt : off.toNat < cells.length := by
        by_contra hge
        rw [List.getElem?_eq_none (by omega)] at h
        cases h
      simp [List.getElem?_set, hlt]

theorem evalValue_cons_below (args : List RVal) (regs : List (Nat × RVal)) (d n : Nat) (x : RVal)
    (v : Value) (hv : v.below n) (hd : n ≤ d) :
    evalValue args ((d, x) :: regs) v = evalValue args regs v := by
  cases v with
  | reg j =>
    have hne : (j == d) = false := by
      simp only [Value.below] at hv
      simp only [beq_eq_false_iff_ne, ne_eq]
      omega
    simp [evalValue, List.lookup, hne]
  | _ => rfl

theorem Machine.deref_eq_some {m : Machine} {v : Value} {x : RVal} (h : m.deref v = some x) :
    ∃ o off, evalValue m.args m.regs v = .ok (.ptr o off) ∧ memCell m.mem o off = some x := by
  unfold Machine.deref Machine.eval at h
  split at h
  · next o off he => exact ⟨o, off, he, h⟩
  · cases h

theorem lookup_insert_self (m : ValMap) (k : SeqData) (v : Value) (h : m.lookup k = none) :
    (m.insert k v).lookup k = some v := by
  simp [ValMap.insert, h, List.lookup_append, List.lookup]

theorem lookup_insert_ne (m : ValMap) (k k1 : SeqData) (v : Value) (h : k1 ≠ k) :
    (m.insert k v).lookup k1 = m.lookup k1 := by
  unfold ValMap.insert
  split
  · rfl
  · have : (k1 == k) = false := by simpa using h
    simp [List.lookup_append, List.lookup, this]

/-! ## Running straight-line code, one instruction at a time -/

theorem execList_cons_ok (rt : Runtime) (i : Instr) (rest : List Instr) (m m1 : Machine)
    (h : execInstr rt i m = .ok m1) : execList rt (i :: rest) m = execList rt rest m1 := by
  simp [execList, h, bind, Except.bind]

theorem exec_alloca (rt : Runtime) (d : Nat) (mem : List (List RVal)) (args : List RVal)
    (regs : List (Nat × RVal)) (file printed : List Int) (loads : List (Nat × Int)) :
    execInstr rt (.alloca d) ⟨mem, args, regs, file, printed, loads⟩ =
      .ok ⟨mem ++ [[.undef]], args, (d, .ptr mem.length 0) :: regs, file, printed, loads⟩ := rfl

theorem exec_store (rt : Runtime) (v p : Value) (mem : List (List RVal)) (args : List RVal)
    (regs : List (Nat × RVal)) (file printed : List Int) (loads : List (Nat × Int))
    (x y : RVal) (o : Nat) (off : Int) (hv : evalValue args regs v = .ok x)
    (hp : evalValue args regs p = .ok (.ptr o off)) (hc : memCell mem o off = some y) :
    execInstr rt (.store v p) ⟨mem, args, regs, file, printed, loads⟩ =
      .ok ⟨memSet mem o off x, args, regs, file, printed, loads⟩ := by
  simp [execInstr, Machine.eval, hv, hp, Machine.storeCell, Machine.cell, hc, bind, Except.bind]

theorem exec_load (rt : Runtime) (d : Nat) (p : Value) (mem : List (List RVal))
    (args : List RVal) (regs : List (Nat × RVal)) (file printed : List Int)
    (loads : List (Nat × Int)) (x : RVal) (o : Nat) (off : Int)
    (hp : evalValue args regs p = .ok (.ptr o off)) (hc : memCell mem o off = some x) :
    execInstr rt (.load d p) ⟨mem, args, regs, file, printed, loads⟩ =
      .ok ⟨mem, args, (d, x) :: regs, file, printed, loads ++ [(o, off)]⟩ := by
  simp [execInstr, Machine.eval, hp, Machine.loadCell, Machine.cell, hc, bind, Except.bind,
    pure, Except.pure, Machine.setReg]

theorem exec_insertValue (rt : Runtime) (d : Nat) (agg val : Value) (idx : Nat)
    (mem : List (List RVal)) (args : List RVal) (regs : List (Nat × RVal))
    (file printed : List Int) (loads : List (Nat × Int)) (a x r : RVal)
    (ha : evalValue args regs agg = .ok a) (hx : evalValue args regs val = .ok x)
    (hr : insertField a idx x = .ok r) :
    execInstr rt (.insertValue d agg val idx) ⟨mem, args, regs, file, printed, loads⟩ =
      .ok ⟨mem, args, (d, r) :: regs, file, printed, loads⟩ := by
  simp [execInstr, Machine.eval, ha, hx, hr, bind, Except.bind, pure, Except.pure,
    Machine.setReg]

theorem exec_extractValue (rt : Runtime) (d : Nat) (agg : Value) (idx : Nat)
    (mem : List (List RVal)) (args : List RVal) (regs : List (Nat × RVal))
    (file printed : List Int) (loads : List (Nat × Int)) (a r : RVal)
    (ha : evalValue args regs agg = .ok a) (hr : extractField a idx = .ok r) :
    execInstr rt (.extractValue d agg idx) ⟨mem, args, regs, file, printed, loads⟩ =
      .ok ⟨mem, args, (d, r) :: regs, file, printed, loads⟩ := by
  simp [execInstr, Machine.eval, ha, hr, bind, Except.bind, pure, Except.pure, Machine.setReg]

theorem beq_self_add (n k : Nat) (h : 0 < k) : (n == n + k) = false := by
  simp only [beq_eq_false_iff_ne, ne_eq]
  omega

theorem beq_add_self (n k : Nat) (h : 0 < k) : (n + k == n) = false := by
  simp only [beq_eq_false_iff_ne, ne_eq]
  omega

theorem evalValue_reg_head (args : List RVal) (regs : List (Nat × RVal)) (d : Nat) (x : RVal) :
    evalValue args ((d, x) :: regs) (.reg d) = .ok x := by
  simp [evalValue, List.lookup]

theorem evalValue_reg_tail (args : List RVal) (regs : List (Nat × RVal)) (d j : Nat) (x : RVal)
    (h : j ≠ d) : evalValue args ((d, x) :: regs) (.reg j) = evalValue args regs (.reg j) := by
  have hne : (j == d) = false := by simpa using h
  simp [evalValue, List.lookup, hne]

theorem length_newSlot (mem : List (List RVal)) (v : RVal) :
    (newSlot mem v).length = mem.length + 1 := by
  simp [newSlot, length_memSet]

theorem memCell_newSlot_old {mem : List (List RVal)} {o : Nat} (v : RVal) (off : Int)
    (h : o < mem.length) : memCell (newSlot mem v) o off = memCell mem o off := by
  unfold newSlot
  rw [memCell_memSet_ne _ _ _ (by omega), memCell_append_left _ _ h]

theorem memCell_newSlot_new (mem : List (List RVal)) (v : RVal) :
    memCell (newSlot mem v) mem.length 0 = some v := by
  unfold newSlot
  exact memCell_memSet_same v (by rw [memCell_append_new _ _ _ (le_refl _)]; rfl)

theorem exec_makeAlloca (rt : Runtime) (d : Nat) (v : Value) (x : RVal) (rest : List Instr)
    (mem : List (List RVal)) (args : List RVal) (regs : List (Nat × RVal))
    (file printed : List Int) (loads : List (Nat × Int))
    (hv : evalValue args ((d, .ptr mem.length 0) :: regs) v = .ok x) :
    execList rt (.alloca d :: .store v (.reg d) :: rest) ⟨mem, args, regs, file, printed, loads⟩ =
      execList rt rest
        ⟨newSlot mem x, args, (d, .ptr mem.length 0) :: regs, file, printed, loads⟩ := by
  rw [execList_cons_ok rt _ _ _ _ (exec_alloca rt _ _ _ _ _ _ _)]
  rw [execList_cons_ok rt _ _ _ _ (exec_store rt v (.reg d) _ _ _ _ _ _ x .undef mem.length 0 hv
    (evalValue_reg_head _ _ _ _) (by rw [memCell_append_new _ _ _ (le_refl _)]; rfl))]
  rfl

/-! ## Fresh slots -/

theorem modify_append_new {α : Type} (f : α → α) (l : List α) (c : α) :
    List.modify f l.length (l ++ [c]) = l ++ [f c] := by
  induction l with
  | nil => rfl
  | cons a l ih =>
    have : List.modify f (a :: l).length ((a :: l) ++ [c]) =
        a :: List.modify f l.length (l ++ [c]) := rfl
    rw [this, ih]
    rfl

theorem memSet_append_new (mem : List (List RVal)) (cells : List RVal) (off : Int) (v : RVal) :
    memSet (mem ++ [cells]) mem.length off v = mem ++ [cells.set off.toNat v] := by
  unfold memSet
  exact modify_append_new _ _ _

theorem modify_append_cons {α : Type} (f : α → α) (l : List α) (c : α) (rest : List α) :
    List.modify f l.length (l ++ c :: rest) = l ++ f c :: rest := by
  induction l with
  | nil => rfl
  | cons a l ih =>
    have : List.modify f (a :: l).length ((a :: l) ++ c :: rest) =
        a :: List.modify f l.length (l ++ c :: rest) := rfl
    rw [this, ih]
    rfl

theorem modify_append_left {α : Type} (f : α → α) (l e : List α) (k : Nat) (h : k < l.length) :
    List.modify f k (l ++ e) = List.modify f k l ++ e := by
  induction l generalizing k with
  | nil => simp at h
  | cons a l ih =>
    cases k with
    | zero => rfl
    | succ k =>
      have h1 : List.modify f (k + 1) ((a :: l) ++ e) = a :: List.modify f k (l ++ e) := rfl
      have h2 : List.modify f (k + 1) (a :: l) = a :: List.modify f k l := rfl
      rw [h1, h2, ih k (by simpa using h)]
      rfl

theorem memSet_append_left (mem e : List (List RVal)) (o : Nat) (off : Int) (v : RVal)
    (h : o < mem.length) : memSet (mem ++ e) o off v = memSet mem o off v ++ e := by
  unfold memSet
  exact modify_append_left _ _ _ _ h

theorem newSlot_eq (mem : List (List RVal)) (v : RVal) : newSlot mem v = mem ++ [[v]] := by
  unfold newSlot
  rw [memSet_append_new]
  rfl

theorem slots_set (X : List (List RVal)) (a b x y : RVal) :
    memSet (memSet (X ++ [[a], [b]]) X.length 0 x) (X.length + 1) 0 y = X ++ [[x], [y]] := by
  have h1 : memSet (X ++ [[a], [b]]) X.length 0 x = X ++ [[x], [b]] := by
    unfold memSet
    rw [modify_append_cons]
    rfl
  have h2 : X ++ [[x], [b]] = (X ++ [[x]]) ++ [[b]] := by simp
  have h3 : X.length + 1 = (X ++ [[x]]).length := by simp
  rw [h1, h2, h3, memSet_append_new]
  simp

theorem slots_filled (mem : List (List RVal)) (a b x y : RVal) :
    memSet (memSet (newSlot (newSlot mem a) b) mem.length 0 x) (newSlot mem a).length 0 y
      = mem ++ [[x], [y]] := by
  rw [length_newSlot, newSlot_eq, newSlot_eq]
  have h : mem ++ [[a]] ++ [[b]] = mem ++ [[a], [b]] := by simp
  rw [h]
  exact slots_set mem a b x y

theorem memCell_slots (mem : List (List RVal)) (x y : RVal) :
    memCell (mem ++ [[x], [y]]) mem.length 0 = some x ∧
    memCell (mem ++ [[x], [y]]) (mem.length + 1) 0 = some y := by
  have h0 : (mem ++ [[x], [y]])[mem.length]? = some [x] := by
    rw [List.getElem?_append_right (le_refl _)]
    simp
  have h1 : (mem ++ [[x], [y]])[mem.length + 1]? = some [y] := by
    rw [List.getElem?_append_right (by omega)]
    simp
  unfold memCell
  rw [h0, h1]
  exact ⟨rfl, rfl⟩

theorem Machine.deref_of_eval {m : Machine} {v : Value} {o : Nat} {off : Int}
    (h : m.eval v = .ok (.ptr o off)) : m.deref v = memCell m.mem o off := by
  simp [Machine.deref, h]

theorem deref_slots {m : Machine} {mem : List (List RVal)} {x y : RVal} {sv lv : Value}
    (hm : m.mem = mem ++ [[x], [y]]) (hsv : m.eval sv = .ok (.ptr mem.length 0))
    (hlv : m.eval lv = .ok (.ptr (mem.length + 1) 0)) :
    m.deref sv = some x ∧ m.deref lv = some y := by
  rw [Machine.deref_of_eval hsv, Machine.deref_of_eval hlv, hm]
  exact memCell_slots mem x y

/-! ## Pack and unpack -/

theorem pack_runs (rt : Runtime) (self : BaseSeqType) (ins : ValMap) (seqVar lenVar : Value)
    (mem : List (List RVal)) (args : List RVal) (regs : List (Nat × RVal))
    (file printed : List Int) (loads : List (Nat × Int)) (s l : RVal) (n k : Nat)
    (h1 : ins.lookup self.getKey = some seqVar) (h2 : ins.lookup .LEN = some lenVar)
    (hb2 : lenVar.below n)
    (hs : Machine.deref ⟨mem, args, regs, file, printed, loads⟩ seqVar = some s)
    (hl : Machine.deref ⟨mem, args, regs, file, printed, loads⟩ lenVar = some l) :
    self.pack ins (Codegen.fresh [] [] n k) = (.ok (.reg (n + 3)),
      ⟨[], [.load n seqVar, .load (n + 1) lenVar,
        .insertValue (n + 2) (.undef self.llvmType) (.reg (n + 1)) 0,
        .insertValue (n + 3) (.reg (n + 2)) (.reg n) 1], [], [], n + 4, k⟩) ∧
    ∃ mp, Codegen.exec rt ⟨[], [.load n seqVar, .load (n + 1) lenVar,
        .insertValue (n + 2) (.undef self.llvmType) (.reg (n + 1)) 0,
        .insertValue (n + 3) (.reg (n + 2)) (.reg n) 1], [], [], n + 4, k⟩
        ⟨mem, args, regs, file, printed, loads⟩ = .ok mp ∧
      mp.eval (.reg (n + 3)) = .ok (.struct l s) ∧ mp.mem = mem := by
  obtain ⟨o1, f1, he1, hc1⟩ := Machine.deref_eq_some hs
  obtain ⟨o2, f2, he2, hc2⟩ := Machine.deref_eq_some hl
  simp only at he1 hc1 he2 hc2
  refine ⟨?_, ⟨mem, args,
    (n + 3, .struct l s) :: (n + 2, .struct l .undef) :: (n + 1, l) :: (n, s) :: regs, file,
    printed, loads ++ [(o1, f1)] ++ [(o2, f2)]⟩, ?_, ?_, rfl⟩
  · simp [BaseSeqType.pack, bind, Gen.bind, Gen.lift, Gen.getSafe, h1, h2, Seq.getSafe,
      Codegen.fresh, Codegen.createLoad, Codegen.createInsertValue, Codegen.emitValue,
      Codegen.emit]
  · unfold Codegen.exec
    simp only [List.nil_append]
    rw [execList_cons_ok rt _ _ _ _ (exec_load rt n seqVar _ _ _ _ _ _ s o1 f1 he1 hc1)]
    rw [execList_cons_ok rt _ _ _ _ (exec_load rt (n + 1) lenVar _ _ _ _ _ _ l o2 f2
      (by rw [evalValue_cons_below args regs n n s lenVar hb2 (le_refl _), he2]) hc2)]
    rw [execList_cons_ok rt _ _ _ _ (exec_insertValue rt (n + 2)
      (.undef self.llvmType) (.reg (n + 1)) 0 _ _ _ _ _ _ .undef l
      (.struct l .undef) rfl (by simp [evalValue, List.lookup, beq_self_add, beq_add_self])
      rfl)]
    rw [execList_cons_ok rt _ _ _ _ (exec_insertValue rt (n + 3) (.reg (n + 2))
      (.reg n) 1 _ _ _ _ _ _ (.struct l .undef) s (.struct l s)
      (by simp [evalValue, List.lookup, beq_self_add, beq_add_self])
      (by simp [evalValue, List.lookup, beq_self_add, beq_add_self]) rfl)]
    rfl
  · simp only [Machine.eval, evalValue_reg_head]

theorem unpack_runs (rt : Runtime) (self : BaseSeqType) (hkey : self.getKey ≠ .LEN)
    (outs : ValMap) (h3 : outs.lookup self.getKey = none) (h4 : outs.lookup .LEN = none)
    (value : Value) (mem : List (List RVal)) (args : List RVal) (regs : List (Nat × RVal))
    (file printed : List Int) (loads : List (Nat × Int)) (f0 f1 : RVal) (n k : Nat)
    (hb : value.below n) (hv : evalValue args regs value = .ok (.struct f0 f1)) :
    ∃ outs2 g3, self.unpack value outs (Codegen.fresh [] [] n k) = (.ok outs2, g3) ∧
      ∃ m3, g3.exec rt ⟨mem, args, regs, file, printed, loads⟩ = .ok m3 ∧
        m3.mem = mem ++ [[f1], [f0]] ∧ m3.loads = loads ∧
        ∃ sv lv, outs2.lookup self.getKey = some sv ∧ outs2.lookup .LEN = some lv ∧
          m3.eval sv = .ok (.ptr mem.length 0) ∧ m3.eval lv = .ok (.ptr (mem.length + 1) 0) := by
  have ev : ∀ (d : Nat) (x : RVal) (r : List (Nat × RVal)), n ≤ d →
      evalValue args r value = .ok (.struct f0 f1) →
      evalValue args ((d, x) :: r) value = .ok (.struct f0 f1) := fun d x r hd h => by
    rw [evalValue_cons_below args r d n x value hb hd, h]
  have hL := length_newSlot mem .null
  have hq1 : memCell (newSlot (newSlot mem .null) (.int 0)) mem.length 0 = some .null := by
    rw [memCell_newSlot_old _ _ (by omega), memCell_newSlot_new]
  have hq2 : memCell (memSet (newSlot (newSlot mem .null) (.int 0)) mem.length 0 f1)
      (newSlot mem .null).length 0 = some (.int 0) := by
    rw [memCell_memSet_ne _ _ _ (by omega), memCell_newSlot_new]
  refine ⟨(outs.insert self.getKey (.reg (n + 2))).insert .LEN (.reg (n + 3)),
    ⟨[.alloca (n + 2), .store nullPtrLLVM (.reg (n + 2)), .alloca (n + 3),
        .store zeroLLVM (.reg (n + 3))],
      [.extractValue n value 1, .extractValue (n + 1) value 0,
        .store (.reg n) (.reg (n + 2)), .store (.reg (n + 1)) (.reg (n + 3))],
      [], [], n + 4, k⟩, ?_,
    ⟨memSet (memSet (newSlot (newSlot mem .null) (.int 0)) mem.length 0 f1)
        (newSlot mem .null).length 0 f0, args,
      (n + 1, f0) :: (n, f1) :: (n + 3, .ptr (newSlot mem .null).length 0) ::
        (n + 2, .ptr mem.length 0) :: regs, file, printed, loads⟩,
    ?_, slots_filled mem .null (.int 0) f1 f0, rfl, .reg (n + 2), .reg (n + 3), ?_, ?_, ?_, ?_⟩
  · simp [BaseSeqType.unpack, bind, Gen.bind, Gen.lift, Gen.modify, pure, Gen.pure,
      Codegen.fresh, Codegen.createExtractValue, Codegen.createStore, Codegen.makeAlloca,
      Codegen.emitValue, Codegen.emit]
  · unfold Codegen.exec
    simp only [List.cons_append, List.nil_append]
    rw [exec_makeAlloca rt (n + 2) nullPtrLLVM .null _ _ _ _ _ _ _ rfl]
    rw [exec_makeAlloca rt (n + 3) zeroLLVM (.int 0) _ _ _ _ _ _ _ rfl]
    rw [execList_cons_ok rt _ _ _ _ (exec_extractValue rt n value 1 _ _ _ _ _ _
      (.struct f0 f1) f1 (ev _ _ _ (by omega) (ev _ _ _ (by omega) hv)) rfl)]
    rw [execList_cons_ok rt _ _ _ _ (exec_extractValue rt (n + 1) value 0 _ _ _ _ _ _
      (.struct f0 f1) f0 (ev _ _ _ (by omega) (ev _ _ _ (by omega) (ev _ _ _ (by omega) hv)))
      rfl)]
    rw [execList_cons_ok rt _ _ _ _ (exec_store rt (.reg n) (.reg (n + 2)) _ _ _ _ _ _ f1
      .null mem.length 0 (by simp [evalValue, List.lookup, beq_self_add, beq_add_self])
      (by simp [evalValue, List.lookup, beq_self_add, beq_add_self]) hq1)]
    rw [execList_cons_ok rt _ _ _ _ (exec_store rt (.reg (n + 1)) (.reg (n + 3)) _ _ _ _ _ _ f0
      (.int 0) (newSlot mem .null).length 0
      (by simp [evalValue, List.lookup, beq_self_add, beq_add_self])
      (by simp [evalValue, List.lookup, beq_self_add, beq_add_self]) hq2)]
    rfl
  · rw [lookup_insert_ne _ _ _ _ hkey, lookup_insert_self _ _ _ h3]
  · rw [lookup_insert_self]
    rw [lookup_insert_ne _ _ _ _ (Ne.symm hkey), h4]
  · simp [Machine.eval, evalValue, List.lookup, beq_self_add, beq_add_self]
  · simp [Machine.eval, evalValue, List.lookup, beq_self_add, beq_add_self, hL]

/-- C10. Pack and unpack round trip.  For a value map that holds the slot of
the sequence pointer `s` under `getKey()` and the slot of the length `l` under
`LEN`, and an output map that has neither entry yet: the code of `pack` runs,
allocates nothing and yields the aggregate with `l` in field 0 and `s` in
field 1; the code of `pack` followed by the code of `unpack` on that aggregate
runs, adds to the memory exactly two slots, and the output map names these two
slots under `getKey()` and `LEN`, holding `s` and `l`.  The code of `unpack`
on its own reads the pointer from field 1 and the length from field 0 of any
aggregate: run on any machine where its operand is the aggregate with the
fields `f0` and `f1`, it adds to the memory exactly two slots, the first
holding `f1` and named under `getKey()`, the second holding `f0` and named
under `LEN`. -/
theorem pack_unpack_roundtrip (rt : Runtime) (self : BaseSeqType) (ins outs : ValMap)
    (seqVar lenVar : Value) (m : Machine) (s l : RVal) (n k : Nat)
    (hkey : self.getKey ≠ .LEN)
    (h1 : ins.lookup self.getKey = some seqVar) (h2 : ins.lookup .LEN = some lenVar)
    (h3 : outs.lookup self.getKey = none) (h4 : outs.lookup .LEN = none)
    (hb1 : seqVar.below n) (hb2 : lenVar.below n)
    (hs : m.deref seqVar = some s) (hl : m.deref lenVar = some l) :
    ∃ packed g1 outs1 g2,
      self.pack ins (Codegen.fresh [] [] n k) = (.ok packed, g1) ∧
      self.unpack packed outs g1 = (.ok outs1, g2) ∧
      (∃ mp, g1.exec rt m = .ok mp ∧ mp.eval packed = .ok (.struct l s) ∧ mp.mem = m.mem) ∧
      (∃ m1, g2.exec rt m = .ok m1 ∧
        m1.eval packed = .ok (.struct l s) ∧ m1.mem = m.mem ++ [[s], [l]] ∧
        ∃ seqVar1 lenVar1,
          outs1.lookup self.getKey = some seqVar1 ∧ outs1.lookup .LEN = some lenVar1 ∧
          m1.eval seqVar1 = .ok (.ptr m.mem.length 0) ∧
          m1.eval lenVar1 = .ok (.ptr (m.mem.length + 1) 0) ∧
          m1.deref seqVar1 = some s ∧ m1.deref lenVar1 = some l) ∧
      ∀ (value : Value) (mr : Machine) (f0 f1 : RVal) (n2 k2 : Nat), value.below n2 →
        mr.eval value = .ok (.struct f0 f1) →
        ∃ outs2 g3, self.unpack value outs (Codegen.fresh [] [] n2 k2) = (.ok outs2, g3) ∧
          ∃ m3, g3.exec rt mr = .ok m3 ∧ m3.mem = mr.mem ++ [[f1], [f0]] ∧
            m3.loads = mr.loads ∧
            ∃ sv lv, outs2.lookup self.getKey = some sv ∧ outs2.lookup .LEN = some lv ∧
              m3.eval sv = .ok (.ptr mr.mem.length 0) ∧
              m3.eval lv = .ok (.ptr (mr.mem.length + 1) 0) ∧
              m3.deref sv = some f1 ∧ m3.deref lv = some f0 := by
  obtain ⟨mem, args, regs, file, printed, loads⟩ := m
  obtain ⟨hpack, mp, hmp, hpv, hpm⟩ := pack_runs rt self ins seqVar lenVar mem args regs file
    printed loads s l n k h1 h2 hb2 hs hl
  obtain ⟨o1, f1, he1, hc1⟩ := Machine.deref_eq_some hs
  obtain ⟨o2, f2, he2, hc2⟩ := Machine.deref_eq_some hl
  simp only at he1 hc1 he2 hc2
  have ho1 := memCell_some_lt hc1
  have ho2 := memCell_some_lt hc2
  have hunpack : self.unpack (.reg (n + 3)) outs
      ⟨[], [.load n seqVar, .load (n + 1) lenVar,
        .insertValue (n + 2) (.undef self.llvmType) (.reg (n + 1)) 0,
        .insertValue (n + 3) (.reg (n + 2)) (.reg n) 1], [], [], n + 4, k⟩ =
      (.ok ((outs.insert self.getKey (.reg (n + 6))).insert .LEN (.reg (n + 7))),
        ⟨[.alloca (n + 6), .store nullPtrLLVM (.reg (n + 6)), .alloca (n + 7),
          .store zeroLLVM (.reg (n + 7))],
        [.load n seqVar, .load (n + 1) lenVar,
          .insertValue (n + 2) (.undef self.llvmType) (.reg (n + 1)) 0,
          .insertValue (n + 3) (.reg (n + 2)) (.reg n) 1,
          .extractValue (n + 4) (.reg (n + 3)) 1, .extractValue (n + 5) (.reg (n + 3)) 0,
          .store (.reg (n + 4)) (.reg (n + 6)), .store (.reg (n + 5)) (.reg (n + 7))],
        [], [], n + 8, k⟩) := by
    simp [BaseSeqType.unpack, bind, Gen.bind, Gen.lift, Gen.modify, pure, Gen.pure,
      Codegen.createExtractValue, Codegen.createStore, Codegen.makeAlloca, Codegen.emitValue,
      Codegen.emit]
  refine ⟨_, _, _, _, hpack, hunpack, ⟨mp, hmp, hpv, hpm⟩, ?_, ?_⟩
  · have e1 : ∀ (d : Nat) (x : RVal) (r : List (Nat × RVal)), n ≤ d →
        evalValue args r seqVar = .ok (.ptr o1 f1) →
        evalValue args ((d, x) :: r) seqVar = .ok (.ptr o1 f1) := fun d x r hd h => by
      rw [evalValue_cons_below args r d n x seqVar hb1 hd, h]
    have e2 : ∀ (d : Nat) (x : RVal) (r : List (Nat × RVal)), n ≤ d →
        evalValue args r lenVar = .ok (.ptr o2 f2) →
        evalValue args ((d, x) :: r) lenVar = .ok (.ptr o2 f2) := fun d x r hd h => by
      rw [evalValue_cons_below args r d n x lenVar hb2 hd, h]
    have hL := length_newSlot mem .null
    have hm1 : memCell (newSlot (newSlot mem .null) (.int 0)) o1 f1 = some s := by
      rw [memCell_newSlot_old _ _ (by omega), memCell_newSlot_old _ _ ho1, hc1]
    have hm2 : memCell (newSlot (newSlot mem .null) (.int 0)) o2 f2 = some l := by
      rw [memCell_newSlot_old _ _ (by omega), memCell_newSlot_old _ _ ho2, hc2]
    have hq1 : memCell (newSlot (newSlot mem .null) (.int 0)) mem.length 0 = some .null := by
      rw [memCell_newSlot_old _ _ (by omega), memCell_newSlot_new]
    have hq2 : memCell (memSet (newSlot (newSlot mem .null) (.int 0)) mem.length 0 s)
        (newSlot mem .null).length 0 = some (.int 0) := by
      rw [memCell_memSet_ne _ _ _ (by omega), memCell_newSlot_new]
    have hrun : Codegen.exec rt
        ⟨[.alloca (n + 6), .store nullPtrLLVM (.reg (n + 6)), .alloca (n + 7),
          .store zeroLLVM (.reg (n + 7))],
        [.load n seqVar, .load (n + 1) lenVar,
          .insertValue (n + 2) (.undef self.llvmType) (.reg (n + 1)) 0,
          .insertValue (n + 3) (.reg (n + 2)) (.reg n) 1,
          .extractValue (n + 4) (.reg (n + 3)) 1, .extractValue (n + 5) (.reg (n + 3)) 0,
          .store (.reg (n + 4)) (.reg (n + 6)), .store (.reg (n + 5)) (.reg (n + 7))],
        [], [], n + 8, k⟩ ⟨mem, args, regs, file, printed, loads⟩ =
        .ok ⟨memSet (memSet (newSlot (newSlot mem .null) (.int 0)) mem.length 0 s)
            (newSlot mem .null).length 0 l, args,
          (n + 5, l) :: (n + 4, s) :: (n + 3, .struct l s) :: (n + 2, .struct l .undef) ::
            (n + 1, l) :: (n, s) :: (n + 7, .ptr (newSlot mem .null).length 0) ::
            (n + 6, .ptr mem.length 0) :: regs,
          file, printed, loads ++ [(o1, f1)] ++ [(o2, f2)]⟩ := by
      unfold Codegen.exec
      simp only [List.cons_append, List.nil_append]
      rw [exec_makeAlloca rt (n + 6) nullPtrLLVM .null _ _ _ _ _ _ _ rfl]
      rw [exec_makeAlloca rt (n + 7) zeroLLVM (.int 0) _ _ _ _ _ _ _ rfl]
      rw [execList_cons_ok rt _ _ _ _ (exec_load rt n seqVar _ _ _ _ _ _ s o1 f1
        (e1 _ _ _ (by omega) (e1 _ _ _ (by omega) he1)) hm1)]
      rw [execList_cons_ok rt _ _ _ _ (exec_load rt (n + 1) lenVar _ _ _ _ _ _ l o2 f2
        (e2 _ _ _ (by omega) (e2 _ _ _ (by omega) (e2 _ _ _ (by omega) he2))) hm2)]
      rw [execList_cons_ok rt _ _ _ _ (exec_insertValue rt (n + 2)
        (.undef self.llvmType) (.reg (n + 1)) 0 _ _ _ _ _ _ .undef l
        (.struct l .undef) rfl (by simp [evalValue, List.lookup, beq_self_add, beq_add_self])
        rfl)]
      rw [execList_cons_ok rt _ _ _ _ (exec_insertValue rt (n + 3) (.reg (n + 2))
        (.reg n) 1 _ _ _ _ _ _ (.struct l .undef) s (.struct l s)
        (by simp [evalValue, List.lookup, beq_self_add, beq_add_self])
        (by simp [evalValue, List.lookup, beq_self_add, beq_add_self]) rfl)]
      rw [execList_cons_ok rt _ _ _ _ (exec_extractValue rt (n + 4) (.reg (n + 3)) 1
        _ _ _ _ _ _ (.struct l s) s
        (by simp [evalValue, List.lookup, beq_self_add, beq_add_self]) rfl)]
      rw [execList_cons_ok rt _ _ _ _ (exec_extractValue rt (n + 5) (.reg (n + 3)) 0
        _ _ _ _ _ _ (.struct l s) l
        (by simp [evalValue, List.lookup, beq_self_add, beq_add_self]) rfl)]
      rw [execList_cons_ok rt _ _ _ _ (exec_store rt (.reg (n + 4)) (.reg (n + 6)) _ _ _ _ _ _ s
        .null mem.length 0 (by simp [evalValue, List.lookup, beq_self_add, beq_add_self])
        (by simp [evalValue, List.lookup, beq_self_add, beq_add_self]) hq1)]
      rw [execList_cons_ok rt _ _ _ _ (exec_store rt (.reg (n + 5)) (.reg (n + 7)) _ _ _ _ _ _ l
        (.int 0) (newSlot mem .null).length 0
        (by simp [evalValue, List.lookup, beq_self_add, beq_add_self])
        (by simp [evalValue, List.lookup, beq_self_add, beq_add_self]) hq2)]
      rfl
    have hmem := slots_filled mem .null (.int 0) s l
    have hsv : Machine.eval ⟨memSet (memSet (newSlot (newSlot mem .null) (.int 0)) mem.length 0 s)
            (newSlot mem .null).length 0 l, args,
          (n + 5, l) :: (n + 4, s) :: (n + 3, .struct l s) :: (n + 2, .struct l .undef) ::
            (n + 1, l) :: (n, s) :: (n + 7, .ptr (newSlot mem .null).length 0) ::
            (n + 6, .ptr mem.length 0) :: regs,
          file, printed, loads ++ [(o1, f1)] ++ [(o2, f2)]⟩ (.reg (n + 6))
        = .ok (.ptr mem.length 0) := by
      simp [Machine.eval, evalValue, List.lookup, beq_self_add, beq_add_self]
    have hlv : Machine.eval ⟨memSet (memSet (newSlot (newSlot mem .null) (.int 0)) mem.length 0 s)
            (newSlot mem .null).length 0 l, args,
          (n + 5, l) :: (n + 4, s) :: (n + 3, .struct l s) :: (n + 2, .struct l .undef) ::
            (n + 1, l) :: (n, s) :: (n + 7, .ptr (newSlot mem .null).length 0) ::
            (n + 6, .ptr mem.length 0) :: regs,
          file, printed, loads ++ [(o1, f1)] ++ [(o2, f2)]⟩ (.reg (n + 7))
        = .ok (.ptr (mem.length + 1) 0) := by
      simp [Machine.eval, evalValue, List.lookup, beq_self_add, beq_add_self, hL]
    obtain ⟨hd1, hd2⟩ := deref_slots hmem hsv hlv
    refine ⟨_, hrun, by simp [Machine.eval, evalValue, List.lookup, beq_self_add, beq_add_self],
      hmem, .reg (n + 6), .reg (n + 7), ?_, ?_, hsv, hlv, hd1, hd2⟩
    · rw [lookup_insert_ne _ _ _ _ hkey, lookup_insert_self _ _ _ h3]
    · rw [lookup_insert_self]
      rw [lookup_insert_ne _ _ _ _ (Ne.symm hkey), h4]
  · intro value mr f0 f1 n2 k2 hb hv
    obtain ⟨mem2, args2, regs2, file2, printed2, loads2⟩ := mr
    obtain ⟨outs2, g3, hg3, m3, hm3, hmem3, hloads3, sv, lv, hk1, hk2, hsv, hlv⟩ :=
      unpack_runs rt self hkey outs h3 h4 value mem2 args2 regs2 file2 printed2 loads2 f0 f1
        n2 k2 hb hv
    obtain ⟨hd1, hd2⟩ := deref_slots hmem3 hsv hlv
    exact ⟨outs2, g3, hg3, m3, hm3, hmem3, hloads3, sv, lv, hk1, hk2, hsv, hlv, hd1, hd2⟩

theorem pack_unpack_roundtrip_witness :
    (SeqType.get.getKey ≠ .LEN ∧
      ([(.SEQ, .arg 0), (.LEN, .arg 1)] : ValMap).lookup SeqType.get.getKey = some (.arg 0) ∧
      ([(.SEQ, .arg 0), (.LEN, .arg 1)] : ValMap).lookup .LEN = some (.arg 1) ∧
      slotMachine.deref (.arg 0) = some (.ptr 0 0) ∧ slotMachine.deref (.arg 1) = some (.int 2)) ∧
    ∃ packed g1 outs1 g2,
      SeqType.get.pack [(.SEQ, .arg 0), (.LEN, .arg 1)] (Codegen.fresh [] [] 0 1)
        = (.ok packed, g1) ∧
      SeqType.get.unpack packed [] g1 = (.ok outs1, g2) ∧
      (∃ mp, g1.exec unitRuntime slotMachine = .ok mp ∧
        mp.eval packed = .ok (.struct (.int 2) (.ptr 0 0)) ∧ mp.mem = slotMachine.mem) ∧
      (∃ m1, g2.exec unitRuntime slotMachine = .ok m1 ∧
        m1.eval packed = .ok (.struct (.int 2) (.ptr 0 0)) ∧
        m1.mem = slotMachine.mem ++ [[.ptr 0 0], [.int 2]] ∧
        ∃ seqVar1 lenVar1,
          outs1.lookup SeqType.get.getKey = some seqVar1 ∧ outs1.lookup .LEN = some lenVar1 ∧
          m1.eval seqVar1 = .ok (.ptr slotMachine.mem.length 0) ∧
          m1.eval lenVar1 = .ok (.ptr (slotMachine.mem.length + 1) 0) ∧
          m1.deref seqVar1 = some (.ptr 0 0) ∧ m1.deref lenVar1 = some (.int 2)) ∧
      ∀ (value : Value) (mr : Machine) (f0 f1 : RVal) (n2 k2 : Nat), value.below n2 →
        mr.eval value = .ok (.struct f0 f1) →
        ∃ outs2 g3, SeqType.get.unpack value [] (Codegen.fresh [] [] n2 k2) = (.ok outs2, g3) ∧
          ∃ m3, g3.exec unitRuntime mr = .ok m3 ∧ m3.mem = mr.mem ++ [[f1], [f0]] ∧
            m3.loads = mr.loads ∧
            ∃ sv lv, outs2.lookup SeqType.get.getKey = some sv ∧ outs2.lookup .LEN = some lv ∧
              m3.eval sv = .ok (.ptr mr.mem.length 0) ∧
              m3.eval lv = .ok (.ptr (mr.mem.length + 1) 0) ∧
              m3.deref sv = some f1 ∧ m3.deref lv = some f0 :=
  ⟨⟨by decide, by decide, by decide, by decide, by decide⟩,
    pack_unpack_roundtrip unitRuntime SeqType.get [(.SEQ, .arg 0), (.LEN, .arg 1)] []
      (.arg 0) (.arg 1) slotMachine (.ptr 0 0) (.int 2) 0 1 (by decide) (by decide) (by decide)
      (by decide) (by decide) trivial trivial (by decide) (by decide)⟩

/-! ## Serialization -/

theorem memRead_congr {mem mem1 : List (List RVal)} {o : Nat}
    (h : ∀ off, memCell mem1 o off = memCell mem o off) (off : Int) (n : Nat) :
    memRead mem1 o off n = memRead mem o off n := by
  induction n generalizing off with
  | zero => rfl
  | succ n ih => simp only [memRead, h, ih]

theorem bytesOf_map_int (bs : List Int) : bytesOf (bs.map .int) = .ok bs := by
  induction bs with
  | nil => rfl
  | cons b bs ih => simp [bytesOf, ih, bind, Except.bind, pure, Except.pure]

theorem memWrite_fresh (mem : List (List RVal)) (vs : List RVal) :
    ∀ pre : List RVal,
      memWrite (mem ++ [pre ++ List.replicate vs.length .undef]) mem.length pre.length vs =
        .ok (mem ++ [pre ++ vs]) := by
  induction vs with
  | nil => intro pre; simp [memWrite]
  | cons v vs ih =>
    intro pre
    have hcell : memCell (mem ++ [pre ++ List.replicate (v :: vs).length .undef]) mem.length
        pre.length = some .undef := by
      rw [memCell_append_new _ _ _ (by omega)]
      simp only [Int.toNat_ofNat, List.length_cons, List.replicate_succ]
      rw [List.getElem?_append_right (le_refl _)]
      simp
    simp only [memWrite, hcell]
    rw [memSet_append_new]
    have hset : (pre ++ List.replicate (v :: vs).length RVal.undef).set (pre.length : Int).toNat v
        = (pre ++ [v]) ++ List.replicate vs.length .undef := by
      simp [List.replicate_succ]
    rw [hset]
    have := ih (pre ++ [v])
    simp only [List.length_append, List.length_singleton, Nat.cast_add, Nat.cast_one] at this
    rw [this]
    simp

theorem getElem?_memSet_ne (mem : List (List RVal)) (o o1 : Nat) (off : Int) (v : RVal)
    (h : o ≠ o1) : (memSet mem o off v)[o1]? = mem[o1]? := by
  unfold memSet
  exact List.getElem?_modify_ne _ _ h

theorem evalArgs_nil (m : Machine) : evalArgs m [] = .ok [] := rfl

theorem evalArgs_cons (m : Machine) (a : Value) (rest : List Value) (x : RVal) (xs : List RVal)
    (h : evalValue m.args m.regs a = .ok x) (hr : evalArgs m rest = .ok xs) :
    evalArgs m (a :: rest) = .ok (x :: xs) := by
  simp [evalArgs, Machine.eval, h, hr, bind, Except.bind, pure, Except.pure]

theorem exec_call (rt : Runtime) (d : Nat) (callee : Callee) (args : List Value)
    (vs : List RVal) (r : RVal) (m m1 : Machine) (hargs : evalArgs m args = .ok vs)
    (hcall : callRuntime rt callee vs m = .ok (r, m1)) :
    execInstr rt (.call d callee args) m = .ok (m1.setReg d r) := by
  simp [execInstr, hargs, hcall, bind, Except.bind, pure, Except.pure]

theorem call_intWrite (rt : Runtime) (mem : List (List RVal)) (args : List RVal)
    (regs : List (Nat × RVal)) (file printed : List Int) (loads : List (Nat × Int)) (o : Nat)
    (off v : Int) (fpv : RVal) (hc : memCell mem o off = some (.int v)) :
    callRuntime rt .intWrite [.ptr o off, fpv] ⟨mem, args, regs, file, printed, loads⟩ =
      .ok (.undef, ⟨mem, args, regs, file ++ rt.encodeInt v, printed, loads⟩) := by
  simp [callRuntime, Machine.loadCell, Machine.cell, hc, bind, Except.bind, pure, Except.pure]

theorem call_ioWrite (rt : Runtime) (mem : List (List RVal)) (args : List RVal)
    (regs : List (Nat × RVal)) (file printed : List Int) (loads : List (Nat × Int)) (o : Nat)
    (off : Int) (bs : List Int) (fpv : RVal)
    (hr : memRead mem o off bs.length = .ok (bs.map .int)) :
    callRuntime rt .ioWrite [.ptr o off, .int bs.length, .int 1, fpv]
        ⟨mem, args, regs, file, printed, loads⟩ =
      .ok (.undef, ⟨mem, args, regs, file ++ bs, printed, loads⟩) := by
  have h0 : ¬ ((bs.length : Int) * 1 < 0) := by omega
  simp [callRuntime, h0, Machine.readCells, hr, bytesOf_map_int, bind, Except.bind, pure,
    Except.pure]

theorem call_intRead (rt : Runtime) (mem : List (List RVal)) (args : List RVal)
    (regs : List (Nat × RVal)) (file rest printed : List Int) (loads : List (Nat × Int))
    (o : Nat) (off v : Int) (fpv y : RVal) (hd : rt.decodeInt file = some (v, rest))
    (hc : memCell mem o off = some y) :
    callRuntime rt .intRead [.ptr o off, fpv] ⟨mem, args, regs, file, printed, loads⟩ =
      .ok (.undef, ⟨memSet mem o off (.int v), args, regs, rest, printed, loads⟩) := by
  simp [callRuntime, hd, Machine.storeCell, Machine.cell, hc, bind, Except.bind, pure,
    Except.pure]

theorem call_allocFunc (rt : Runtime) (mem : List (List RVal)) (args : List RVal)
    (regs : List (Nat × RVal)) (file printed : List Int) (loads : List (Nat × Int)) (k : Nat) :
    callRuntime rt .allocFunc [.int k] ⟨mem, args, regs, file, printed, loads⟩ =
      .ok (.ptr mem.length 0,
        ⟨mem ++ [List.replicate k .undef], args, regs, file, printed, loads⟩) := by
  have h0 : ¬ ((k : Int) < 0) := by omega
  simp [callRuntime, h0, Machine.allocate]

theorem call_ioRead (rt : Runtime) (mem mem1 : List (List RVal)) (args : List RVal)
    (regs : List (Nat × RVal)) (bs rest printed : List Int) (loads : List (Nat × Int))
    (o : Nat) (off : Int) (fpv : RVal)
    (hw : memWrite mem o off (bs.map .int) = .ok mem1) :
    callRuntime rt .ioRead [.ptr o off, .int bs.length, .int 1, fpv]
        ⟨mem, args, regs, bs ++ rest, printed, loads⟩ =
      .ok (.undef, ⟨mem1, args, regs, rest, printed, loads⟩) := by
  have h0 : ¬ ((bs.length : Int) * 1 < 0) := by omega
  simp [callRuntime, h0, Machine.writeCells, hw, bind, Except.bind, pure, Except.pure]

theorem callSerialize_runs (rt : Runtime) (self : BaseSeqType) (ins : ValMap)
    (seqVar lenVar fp : Value) (mem : List (List RVal)) (args : List RVal)
    (regs : List (Nat × RVal)) (file printed : List Int) (loads : List (Nat × Int))
    (bs : List Int) (o : Nat) (off : Int) (fpv : RVal) (n k : Nat)
    (h1 : ins.lookup self.getKey = some seqVar) (h2 : ins.lookup .LEN = some lenVar)
    (hb1 : seqVar.below n) (hb2 : lenVar.below n) (hb3 : fp.below n)
    (hs : Machine.deref ⟨mem, args, regs, file, printed, loads⟩ seqVar = some (.ptr o off))
    (hl : Machine.deref ⟨mem, args, regs, file, printed, loads⟩ lenVar = some (.int bs.length))
    (ho : o < mem.length) (hbuf : memRead mem o off bs.length = .ok (bs.map .int))
    (hfp : evalValue args regs fp = .ok fpv) :
    ∃ g1, self.callSerialize ins fp (Codegen.fresh [] [] n k) = (.ok (), g1) ∧
      ∃ m1, g1.exec rt ⟨mem, args, regs, file, printed, loads⟩ = .ok m1 ∧
        m1.file = file ++ rt.encodeInt bs.length ++ bs := by
  obtain ⟨o1, f1, he1, hc1⟩ := Machine.deref_eq_some hs
  obtain ⟨o2, f2, he2, hc2⟩ := Machine.deref_eq_some hl
  simp only at he1 hc1 he2 hc2
  have ho1 := memCell_some_lt hc1
  have ho2 := memCell_some_lt hc2
  have hgen : self.callSerialize ins fp (Codegen.fresh [] [] n k) = (.ok (),
      ⟨[.alloca (n + 2), .store zeroLLVM (.reg (n + 2))],
        [.load n seqVar, .load (n + 1) lenVar, .store (.reg (n + 1)) (.reg (n + 2)),
          .call (n + 3) .intWrite [.reg (n + 2), fp],
          .call (n + 4) .ioWrite [.reg n, .reg (n + 1), oneLLVM, fp]],
        [⟨.ioWrite, .void, [.i8Ptr, .seqInt, .seqInt, .i8Ptr]⟩], [], n + 5, k⟩) := by
    simp [BaseSeqType.callSerialize, IntType.unpack, IntType.callSerialize, bind, Gen.bind,
      Gen.modify, Gen.lift, Gen.getSafe, h1, h2, pure, Gen.pure, Codegen.fresh,
      Codegen.getOrInsertFunction, Codegen.createLoad, Codegen.createCall, Codegen.createStore,
      Codegen.makeAlloca, Codegen.emitValue, Codegen.emit, ValMap.insert, Seq.getSafe,
      List.lookup]
  have e1 : ∀ (d : Nat) (x : RVal) (r : List (Nat × RVal)), n ≤ d →
      evalValue args r seqVar = .ok (.ptr o1 f1) →
      evalValue args ((d, x) :: r) seqVar = .ok (.ptr o1 f1) := fun d x r hd h => by
    rw [evalValue_cons_below args r d n x seqVar hb1 hd, h]
  have e2 : ∀ (d : Nat) (x : RVal) (r : List (Nat × RVal)), n ≤ d →
      evalValue args r lenVar = .ok (.ptr o2 f2) →
      evalValue args ((d, x) :: r) lenVar = .ok (.ptr o2 f2) := fun d x r hd h => by
    rw [evalValue_cons_below args r d n x lenVar hb2 hd, h]
  have e3 : ∀ (d : Nat) (x : RVal) (r : List (Nat × RVal)), n ≤ d →
      evalValue args r fp = .ok fpv →
      evalValue args ((d, x) :: r) fp = .ok fpv := fun d x r hd h => by
    rw [evalValue_cons_below args r d n x fp hb3 hd, h]
  have hm1 : memCell (newSlot mem (.int 0)) o1 f1 = some (.ptr o off) := by
    rw [memCell_newSlot_old _ _ ho1, hc1]
  have hm2 : memCell (newSlot mem (.int 0)) o2 f2 = some (.int bs.length) := by
    rw [memCell_newSlot_old _ _ ho2, hc2]
  have hq : memCell (newSlot mem (.int 0)) mem.length 0 = some (.int 0) :=
    memCell_newSlot_new _ _
  have hq1 : memCell (memSet (newSlot mem (.int 0)) mem.length 0 (.int bs.length)) mem.length 0
      = some (.int bs.length) := memCell_memSet_same _ hq
  have hread : memRead (memSet (newSlot mem (.int 0)) mem.length 0 (.int bs.length)) o off
      bs.length = .ok (bs.map .int) := by
    rw [memRead_congr (fun off1 => ?_), hbuf]
    rw [memCell_memSet_ne _ _ _ (by omega), memCell_newSlot_old _ _ ho]
  refine ⟨_, hgen, ?_⟩
  · unfold Codegen.exec
    simp only [List.cons_append, List.nil_append]
    rw [exec_makeAlloca rt (n + 2) zeroLLVM (.int 0) _ _ _ _ _ _ _ rfl]
    rw [execList_cons_ok rt _ _ _ _ (exec_load rt n seqVar _ _ _ _ _ _ (.ptr o off) o1 f1
      (e1 _ _ _ (by omega) he1) hm1)]
    rw [execList_cons_ok rt _ _ _ _ (exec_load rt (n + 1) lenVar _ _ _ _ _ _ (.int bs.length)
      o2 f2 (e2 _ _ _ (by omega) (e2 _ _ _ (by omega) he2)) hm2)]
    rw [execList_cons_ok rt _ _ _ _ (exec_store rt (.reg (n + 1)) (.reg (n + 2)) _ _ _ _ _ _
      (.int bs.length) (.int 0) mem.length 0
      (by simp [evalValue, List.lookup, beq_self_add, beq_add_self])
      (by simp [evalValue, List.lookup, beq_self_add, beq_add_self]) hq)]
    rw [execList_cons_ok rt _ _ _ _ (exec_call rt (n + 3) .intWrite [.reg (n + 2), fp]
      [.ptr mem.length 0, fpv] .undef _ _
      (evalArgs_cons _ _ _ _ _ (by simp [evalValue, List.lookup, beq_self_add, beq_add_self])
        (evalArgs_cons _ _ _ _ _
          (e3 _ _ _ (by omega) (e3 _ _ _ (by omega) (e3 _ _ _ (by omega) hfp)))
          (evalArgs_nil _)))
      (call_intWrite rt _ _ _ _ _ _ mem.length 0 bs.length fpv hq1))]
    simp only [Machine.setReg]
    rw [execList_cons_ok rt _ _ _ _ (exec_call rt (n + 4) .ioWrite
      [.reg n, .reg (n + 1), oneLLVM, fp]
      [.ptr o off, .int bs.length, .int 1, fpv] .undef _ _
      (evalArgs_cons _ _ _ _ _ (by simp [evalValue, List.lookup, beq_self_add, beq_add_self])
        (evalArgs_cons _ _ _ _ _ (by simp [evalValue, List.lookup, beq_self_add, beq_add_self])
          (evalArgs_cons _ _ _ _ _ rfl
            (evalArgs_cons _ _ _ _ _
              (e3 _ _ _ (by omega) (e3 _ _ _ (by omega) (e3 _ _ _ (by omega)
                (e3 _ _ _ (by omega) hfp))))
              (evalArgs_nil _)))))
      (call_ioWrite rt _ _ _ _ _ _ o off bs fpv hread))]
    exact ⟨_, rfl, by simp [Machine.setReg]⟩

theorem callDeserialize_runs (rt : Runtime)
    (hrt : ∀ v rest, rt.decodeInt (rt.encodeInt v ++ rest) = some (v, rest))
    (self : BaseSeqType) (hkey : self.getKey ≠ .LEN) (outs : ValMap) (fp : Value)
    (mem : List (List RVal)) (args : List RVal) (regs : List (Nat × RVal))
    (rest printed : List Int) (loads : List (Nat × Int)) (bs : List Int) (fpv : RVal)
    (n k : Nat) (h3 : outs.lookup self.getKey = none) (h4 : outs.lookup .LEN = none)
    (hb : fp.below n) (hfp : evalValue args regs fp = .ok fpv) :
    ∃ outs1 g2, self.callDeserialize outs fp (Codegen.fresh [] [] n k) = (.ok outs1, g2) ∧
      ∃ m3, g2.exec rt ⟨mem, args, regs, rt.encodeInt bs.length ++ bs ++ rest, printed, loads⟩
          = .ok m3 ∧
        m3.file = rest ∧
        ∃ seqVar1 lenVar1 p,
          outs1.lookup self.getKey = some seqVar1 ∧ outs1.lookup .LEN = some lenVar1 ∧
          m3.deref lenVar1 = some (.int bs.length) ∧ m3.deref seqVar1 = some (.ptr p 0) ∧
          mem.length ≤ p ∧ m3.mem[p]? = some (bs.map .int) := by
  have hgen : self.callDeserialize outs fp (Codegen.fresh [] [] n k) =
      (.ok ((outs.insert self.getKey (.reg (n + 5))).insert .LEN (.reg (n + 6))),
        ⟨[.alloca n, .store zeroLLVM (.reg n), .alloca (n + 5), .store .nullPtr (.reg (n + 5)),
          .alloca (n + 6), .store zeroLLVM (.reg (n + 6))],
        [.call (n + 1) .intRead [.reg n, fp], .load (n + 2) (.reg n),
          .call (n + 3) .allocFunc [.reg (n + 2)],
          .call (n + 4) .ioRead [.reg (n + 3), .reg (n + 2), oneLLVM, fp],
          .store (.reg (n + 3)) (.reg (n + 5)), .store (.reg (n + 2)) (.reg (n + 6))],
        [⟨.ioRead, .void, [.i8Ptr, .seqInt, .seqInt, .i8Ptr]⟩, ⟨.allocFunc, .i8Ptr, [.sizeT]⟩],
        [], n + 7, k⟩) := by
    simp [BaseSeqType.callDeserialize, IntType.callDeserialize, bind, Gen.bind,
      Gen.modify, Gen.lift, Gen.getSafe, pure, Gen.pure, Codegen.fresh,
      Codegen.getOrInsertFunction, Codegen.createLoad, Codegen.createCall, Codegen.createStore,
      Codegen.makeAlloca, Codegen.emitValue, Codegen.emit, ValMap.insert,
      Seq.getSafe, List.lookup]
  have e3 : ∀ (d : Nat) (x : RVal) (r : List (Nat × RVal)), n ≤ d →
      evalValue args r fp = .ok fpv →
      evalValue args ((d, x) :: r) fp = .ok fpv := fun d x r hd h => by
    rw [evalValue_cons_below args r d n x fp hb hd, h]
  have hA : (newSlot mem (.int 0)).length = mem.length + 1 := length_newSlot _ _
  have hB : (newSlot (newSlot mem (.int 0)) .null).length = mem.length + 2 := by
    rw [length_newSlot, hA]
  have hC : (newSlot (newSlot (newSlot mem (.int 0)) .null) (.int 0)).length = mem.length + 3 := by
    rw [length_newSlot, hB]
  have hD : (memSet (newSlot (newSlot (newSlot mem (.int 0)) .null) (.int 0)) mem.length 0
      (.int bs.length)).length = mem.length + 3 := by
    rw [length_memSet, hC]
  have c1 : memCell (newSlot (newSlot (newSlot mem (.int 0)) .null) (.int 0)) mem.length 0
      = some (.int 0) := by
    rw [memCell_newSlot_old _ _ (by omega), memCell_newSlot_old _ _ (by omega),
      memCell_newSlot_new]
  have c2 := memCell_memSet_same (.int bs.length) c1
  have c3 : memCell (memSet (newSlot (newSlot (newSlot mem (.int 0)) .null) (.int 0)) mem.length
      0 (.int bs.length) ++ [bs.map .int]) (newSlot mem (.int 0)).length 0 = some .null := by
    rw [memCell_append_left _ _ (by omega), memCell_memSet_ne _ _ _ (by omega),
      memCell_newSlot_old _ _ (by omega), memCell_newSlot_new]
  have c4 : memCell (memSet (memSet (newSlot (newSlot (newSlot mem (.int 0)) .null) (.int 0))
      mem.length 0 (.int bs.length) ++ [bs.map .int]) (newSlot mem (.int 0)).length 0
      (.ptr (memSet (newSlot (newSlot (newSlot mem (.int 0)) .null) (.int 0)) mem.length 0
        (.int bs.length)).length 0)) (newSlot (newSlot mem (.int 0)) .null).length 0
      = some (.int 0) := by
    rw [memCell_memSet_ne _ _ _ (by omega), memCell_append_left _ _ (by omega),
      memCell_memSet_ne _ _ _ (by omega), memCell_newSlot_new]
  have hw : memWrite (memSet (newSlot (newSlot (newSlot mem (.int 0)) .null) (.int 0))
      mem.length 0 (.int bs.length) ++ [List.replicate bs.length .undef])
      (memSet (newSlot (newSlot (newSlot mem (.int 0)) .null) (.int 0)) mem.length 0
        (.int bs.length)).length 0 (bs.map .int) =
      .ok (memSet (newSlot (newSlot (newSlot mem (.int 0)) .null) (.int 0)) mem.length 0
        (.int bs.length) ++ [bs.map .int]) := by
    have := memWrite_fresh (memSet (newSlot (newSlot (newSlot mem (.int 0)) .null) (.int 0))
      mem.length 0 (.int bs.length)) (bs.map .int) []
    simpa using this
  refine ⟨_, _, hgen, ?_⟩
  unfold Codegen.exec
  simp only [List.cons_append, List.nil_append]
  rw [exec_makeAlloca rt n zeroLLVM (.int 0) _ _ _ _ _ _ _ rfl]
  rw [exec_makeAlloca rt (n + 5) .nullPtr .null _ _ _ _ _ _ _ rfl]
  rw [exec_makeAlloca rt (n + 6) zeroLLVM (.int 0) _ _ _ _ _ _ _ rfl]
  rw [execList_cons_ok rt _ _ _ _ (exec_call rt (n + 1) .intRead [.reg n, fp]
    [.ptr mem.length 0, fpv] .undef _ _
    (evalArgs_cons _ _ _ _ _ (by simp [evalValue, List.lookup, beq_self_add, beq_add_self])
      (evalArgs_cons _ _ _ _ _
        (e3 _ _ _ (by omega) (e3 _ _ _ (by omega) (e3 _ _ _ (by omega) hfp)))
        (evalArgs_nil _)))
    (call_intRead rt _ _ _ _ (bs ++ rest) _ _ mem.length 0 bs.length fpv (.int 0)
      (by rw [List.append_assoc]; exact hrt _ _) c1))]
  simp only [Machine.setReg]
  rw [execList_cons_ok rt _ _ _ _ (exec_load rt (n + 2) (.reg n) _ _ _ _ _ _ (.int bs.length)
    mem.length 0 (by simp [evalValue, List.lookup, beq_self_add, beq_add_self]) c2)]
  rw [execList_cons_ok rt _ _ _ _ (exec_call rt (n + 3) .allocFunc [.reg (n + 2)]
    [.int bs.length] _ _ _
    (evalArgs_cons _ _ _ _ _ (by simp [evalValue, List.lookup, beq_self_add, beq_add_self])
      (evalArgs_nil _))
    (call_allocFunc rt _ _ _ _ _ _ bs.length))]
  simp only [Machine.setReg]
  rw [execList_cons_ok rt _ _ _ _ (exec_call rt (n + 4) .ioRead
    [.reg (n + 3), .reg (n + 2), oneLLVM, fp]
    [.ptr (memSet (newSlot (newSlot (newSlot mem (.int 0)) .null) (.int 0)) mem.length 0
      (.int bs.length)).length 0, .int bs.length, .int 1, fpv] .undef _ _
    (evalArgs_cons _ _ _ _ _ (by simp [evalValue, List.lookup, beq_self_add, beq_add_self])
      (evalArgs_cons _ _ _ _ _ (by simp [evalValue, List.lookup, beq_self_add, beq_add_self])
        (evalArgs_cons _ _ _ _ _ rfl
          (evalArgs_cons _ _ _ _ _
            (e3 _ _ _ (by omega) (e3 _ _ _ (by omega) (e3 _ _ _ (by omega)
              (e3 _ _ _ (by omega) (e3 _ _ _ (by omega) (e3 _ _ _ (by omega) hfp))))))
            (evalArgs_nil _)))))
    (call_ioRead rt _ _ _ _ bs rest _ _ _ 0 fpv hw))]
  simp only [Machine.setReg]
  rw [execList_cons_ok rt _ _ _ _ (exec_store rt (.reg (n + 3)) (.reg (n + 5)) _ _ _ _ _ _
    (.ptr (memSet (newSlot (newSlot (newSlot mem (.int 0)) .null) (.int 0)) mem.length 0
      (.int bs.length)).length 0) .null (newSlot mem (.int 0)).length 0
    (by simp [evalValue, List.lookup, beq_self_add, beq_add_self])
    (by simp [evalValue, List.lookup, beq_self_add, beq_add_self]) c3)]
  rw [execList_cons_ok rt _ _ _ _ (exec_store rt (.reg (n + 2)) (.reg (n + 6)) _ _ _ _ _ _
    (.int bs.length) (.int 0) (newSlot (newSlot mem (.int 0)) .null).length 0
    (by simp [evalValue, List.lookup, beq_self_add, beq_add_self])
    (by simp [evalValue, List.lookup, beq_self_add, beq_add_self]) c4)]
  refine ⟨_, rfl, rfl, .reg (n + 5), .reg (n + 6),
    (memSet (newSlot (newSlot (newSlot mem (.int 0)) .null) (.int 0)) mem.length 0
      (.int bs.length)).length, ?_, ?_, ?_, ?_, by omega, ?_⟩
  · rw [lookup_insert_ne _ _ _ _ hkey, lookup_insert_self _ _ _ h3]
  · rw [lookup_insert_self]
    rw [lookup_insert_ne _ _ _ _ (Ne.symm hkey), h4]
  · simp only [Machine.deref, Machine.eval]
    rw [show evalValue args _ (.reg (n + 6)) =
        .ok (.ptr (newSlot (newSlot mem (.int 0)) .null).length 0) by
      simp [evalValue, List.lookup, beq_self_add, beq_add_self]]
    simp only
    exact memCell_memSet_same _ c4
  · simp only [Machine.deref, Machine.eval]
    rw [show evalValue args _ (.reg (n + 5)) = .ok (.ptr (newSlot mem (.int 0)).length 0) by
      simp [evalValue, List.lookup, beq_self_add, beq_add_self]]
    simp only
    rw [memCell_memSet_ne _ _ _ (by omega)]
    exact memCell_memSet_same _ c3
  · show (memSet (memSet _ _ _ _) _ _ _)[_]? = _
    rw [getElem?_memSet_ne _ _ _ _ _ (by omega), getElem?_memSet_ne _ _ _ _ _ (by omega)]
    simp

/-- C8. Serialization round trip: let the integer encoding of `IntType` be
decoded by its decoder, let the slots of a value map hold the pointer to a
buffer of the bytes `bs` and the length of `bs`, and let the file be empty.  The
code `callSerialize` emits runs and leaves in the file the serialized length
followed by exactly the bytes `bs`; the code `callDeserialize` emits, run on a
machine whose file holds that stream (and then `rest`), consumes exactly the
stream, and the slots its value map names under `LEN` and `getKey()` then hold
the length of `bs` and a pointer to a buffer that did not exist before and
holds the bytes `bs`. -/
theorem serialize_deserialize_roundtrip (rt : Runtime)
    (hrt : ∀ v rest, rt.decodeInt (rt.encodeInt v ++ rest) = some (v, rest))
    (self : BaseSeqType) (hkey : self.getKey ≠ .LEN) (ins outs : ValMap)
    (seqVar lenVar fp fp2 : Value) (m m2 : Machine) (bs rest : List Int) (o : Nat) (off : Int)
    (fpv fpv2 : RVal) (n k n2 k2 : Nat)
    (h1 : ins.lookup self.getKey = some seqVar) (h2 : ins.lookup .LEN = some lenVar)
    (h3 : outs.lookup self.getKey = none) (h4 : outs.lookup .LEN = none)
    (hb1 : seqVar.below n) (hb2 : lenVar.below n) (hb3 : fp.below n) (hb4 : fp2.below n2)
    (hs : m.deref seqVar = some (.ptr o off)) (hl : m.deref lenVar = some (.int bs.length))
    (ho : o < m.mem.length) (hbuf : memRead m.mem o off bs.length = .ok (bs.map .int))
    (hfp : m.eval fp = .ok fpv) (hfp2 : m2.eval fp2 = .ok fpv2) (hstart : m.file = []) :
    ∃ g1, self.callSerialize ins fp (Codegen.fresh [] [] n k) = (.ok (), g1) ∧
      ∃ m1, g1.exec rt m = .ok m1 ∧ m1.file = rt.encodeInt bs.length ++ bs ∧
        ∃ outs1 g2, self.callDeserialize outs fp2 (Codegen.fresh [] [] n2 k2) = (.ok outs1, g2) ∧
          ∃ m3, g2.exec rt { m2 with file := m1.file ++ rest } = .ok m3 ∧ m3.file = rest ∧
            ∃ seqVar1 lenVar1 p,
              outs1.lookup self.getKey = some seqVar1 ∧ outs1.lookup .LEN = some lenVar1 ∧
              m3.deref lenVar1 = some (.int bs.length) ∧ m3.deref seqVar1 = some (.ptr p 0) ∧
              m2.mem.length ≤ p ∧ m3.mem[p]? = some (bs.map .int) := by
  obtain ⟨mem, args, regs, file, printed, loads⟩ := m
  obtain ⟨mem2, args2, regs2, file2, printed2, loads2⟩ := m2
  simp only at ho hbuf hstart
  subst hstart
  obtain ⟨g1, hg1, m1, hm1, hfile⟩ := callSerialize_runs rt self ins seqVar lenVar fp mem args
    regs [] printed loads bs o off fpv n k h1 h2 hb1 hb2 hb3 hs hl ho hbuf hfp
  obtain ⟨outs1, g2, hg2, m3, hm3, hrest, hout⟩ := callDeserialize_runs rt hrt self hkey outs fp2
    mem2 args2 regs2 rest printed2 loads2 bs fpv2 n2 k2 h3 h4 hb4 hfp2
  rw [List.nil_append] at hfile
  refine ⟨g1, hg1, m1, hm1, hfile, outs1, g2, hg2, m3, ?_, hrest, hout⟩
  rw [hfile]
  exact hm3

theorem unitRuntime_decodes (v : Int) (rest : List Int) :
    unitRuntime.decodeInt (unitRuntime.encodeInt v ++ rest) = some (v, rest) := rfl

theorem serialize_deserialize_roundtrip_witness :
    (SeqType.get.getKey ≠ .LEN ∧
      slotMachine.deref (.arg 0) = some (.ptr 0 0) ∧
      slotMachine.deref (.arg 1) = some (.int ([7, 8] : List Int).length) ∧
      memRead slotMachine.mem 0 0 ([7, 8] : List Int).length = .ok (([7, 8] : List Int).map .int) ∧
      slotMachine.eval (.arg 2) = .ok .null ∧ slotMachine.file = []) ∧
    ∃ g1, SeqType.get.callSerialize [(.SEQ, .arg 0), (.LEN, .arg 1)] (.arg 2)
        (Codegen.fresh [] [] 0 1) = (.ok (), g1) ∧
      ∃ m1, g1.exec unitRuntime slotMachine = .ok m1 ∧
        m1.file = unitRuntime.encodeInt ([7, 8] : List Int).length ++ [7, 8] ∧
        ∃ outs1 g2, SeqType.get.callDeserialize [] (.arg 2) (Codegen.fresh [] [] 0 1)
            = (.ok outs1, g2) ∧
          ∃ m3, g2.exec unitRuntime { slotMachine with file := m1.file ++ [] } = .ok m3 ∧
            m3.file = [] ∧
            ∃ seqVar1 lenVar1 p,
              outs1.lookup SeqType.get.getKey = some seqVar1 ∧
              outs1.lookup .LEN = some lenVar1 ∧
              m3.deref lenVar1 = some (.int ([7, 8] : List Int).length) ∧
              m3.deref seqVar1 = some (.ptr p 0) ∧
              slotMachine.mem.length ≤ p ∧ m3.mem[p]? = some (([7, 8] : List Int).map .int) :=
  ⟨⟨by decide, by decide, by decide, rfl, rfl, rfl⟩,
    serialize_deserialize_roundtrip unitRuntime unitRuntime_decodes SeqType.get (by decide)
      [(.SEQ, .arg 0), (.LEN, .arg 1)] [] (.arg 0) (.arg 1) (.arg 2) (.arg 2) slotMachine
      slotMachine [7, 8] [] 0 0 .null .null 0 1 0 1 (by decide) (by decide) (by decide)
      (by decide) trivial trivial trivial trivial (by decide) (by decide) (by decide)
      rfl rfl rfl rfl⟩

/-! ## Array store and load -/

theorem memCell_memSet_other {mem : List (List RVal)} {o o1 : Nat} {off j : Int} (v : RVal)
    (hoff : 0 ≤ off) (h : ¬ (o1 = o ∧ j = off)) :
    memCell (memSet mem o off v) o1 j = memCell mem o1 j := by
  by_cases ho : o1 = o
  · subst ho
    have hj : j ≠ off := fun e => h ⟨rfl, e⟩
    unfold memCell memSet
    by_cases hneg : j < 0
    · simp [hneg]
    · simp only [hneg, if_false, List.getElem?_modify_eq]
      cases mem[o1]? with
      | none => rfl
      | some cells =>
        show (cells.set off.toNat v)[j.toNat]? = cells[j.toNat]?
        rw [List.getElem?_set_ne]
        omega
  · exact memCell_memSet_ne _ _ _ ho

theorem memCell_some_nonneg {mem : List (List RVal)} {o : Nat} {off : Int} {x : RVal}
    (h : memCell mem o off = some x) : 0 ≤ off := by
  unfold memCell at h
  split at h
  · cases h
  · omega

theorem exec_gep2 (rt : Runtime) (d : Nat) (p a b : Value) (mem : List (List RVal))
    (args : List RVal) (regs : List (Nat × RVal)) (file printed : List Int)
    (loads : List (Nat × Int)) (o : Nat) (off i f : Int)
    (hp : evalValue args regs p = .ok (.ptr o off)) (ha : evalValue args regs a = .ok (.int i))
    (hb : evalValue args regs b = .ok (.int f)) :
    execInstr rt (.gep d p [a, b]) ⟨mem, args, regs, file, printed, loads⟩ =
      .ok ⟨mem, args, (d, .ptr o (off + 2 * i + f)) :: regs, file, printed, loads⟩ := by
  simp [execInstr, Machine.eval, evalArgs, hp, ha, hb, bind, Except.bind, pure, Except.pure,
    Machine.setReg]

theorem exec_storeCode (rt : Runtime) (n : Nat) (seqVar lenVar ptr idx : Value)
    (rest : List Instr) (mem : List (List RVal)) (args : List RVal) (regs : List (Nat × RVal))
    (file printed : List Int) (loads : List (Nat × Int)) (s l c0 c1 : RVal) (o1 o2 o : Nat)
    (f1 f2 off i : Int)
    (hb3 : ptr.below n) (hb4 : idx.below n)
    (he1 : evalValue args regs seqVar = .ok (.ptr o1 f1)) (hc1 : memCell mem o1 f1 = some s)
    (he2 : evalValue args ((n, s) :: regs) lenVar = .ok (.ptr o2 f2))
    (hc2 : memCell mem o2 f2 = some l)
    (hp : evalValue args regs ptr = .ok (.ptr o off))
    (hi : evalValue args regs idx = .ok (.int i))
    (h0 : memCell mem o (off + 2 * i + 0) = some c0)
    (h1 : memCell mem o (off + 2 * i + 1) = some c1) :
    execList rt (.load n seqVar :: .load (n + 1) lenVar ::
        .gep (n + 2) ptr [idx, .constInt .i32 1] :: .gep (n + 3) ptr [idx, .constInt .i32 0] ::
        .store (.reg n) (.reg (n + 2)) :: .store (.reg (n + 1)) (.reg (n + 3)) :: rest)
        ⟨mem, args, regs, file, printed, loads⟩ =
      execList rt rest
        ⟨memSet (memSet mem o (off + 2 * i + 1) s) o (off + 2 * i + 0) l, args,
          (n + 3, .ptr o (off + 2 * i + 0)) :: (n + 2, .ptr o (off + 2 * i + 1)) :: (n + 1, l) ::
            (n, s) :: regs,
          file, printed, loads ++ [(o1, f1)] ++ [(o2, f2)]⟩ := by
  have ep : ∀ (d : Nat) (x : RVal) (r : List (Nat × RVal)), n ≤ d →
      evalValue args r ptr = .ok (.ptr o off) →
      evalValue args ((d, x) :: r) ptr = .ok (.ptr o off) := fun d x r hd h => by
    rw [evalValue_cons_below args r d n x ptr hb3 hd, h]
  have ei : ∀ (d : Nat) (x : RVal) (r : List (Nat × RVal)), n ≤ d →
      evalValue args r idx = .ok (.int i) →
      evalValue args ((d, x) :: r) idx = .ok (.int i) := fun d x r hd h => by
    rw [evalValue_cons_below args r d n x idx hb4 hd, h]
  have hne : ¬ (o = o ∧ off + 2 * i + 0 = off + 2 * i + 1) := by omega
  rw [execList_cons_ok rt _ _ _ _ (exec_load rt n seqVar _ _ _ _ _ _ s o1 f1 he1 hc1)]
  rw [execList_cons_ok rt _ _ _ _ (exec_load rt (n + 1) lenVar _ _ _ _ _ _ l o2 f2 he2 hc2)]
  rw [execList_cons_ok rt _ _ _ _ (exec_gep2 rt (n + 2) ptr idx (.constInt .i32 1) _ _ _ _ _ _
    o off i 1 (ep _ _ _ (by omega) (ep _ _ _ (by omega) hp))
    (ei _ _ _ (by omega) (ei _ _ _ (by omega) hi)) rfl)]
  rw [execList_cons_ok rt _ _ _ _ (exec_gep2 rt (n + 3) ptr idx (.constInt .i32 0) _ _ _ _ _ _
    o off i 0 (ep _ _ _ (by omega) (ep _ _ _ (by omega) (ep _ _ _ (by omega) hp)))
    (ei _ _ _ (by omega) (ei _ _ _ (by omega) (ei _ _ _ (by omega) hi))) rfl)]
  rw [execList_cons_ok rt _ _ _ _ (exec_store rt (.reg n) (.reg (n + 2)) _ _ _ _ _ _ s c1 o
    (off + 2 * i + 1) (by simp [evalValue, List.lookup, beq_self_add, beq_add_self])
    (by simp [evalValue, List.lookup, beq_self_add, beq_add_self]) h1)]
  rw [execList_cons_ok rt _ _ _ _ (exec_store rt (.reg (n + 1)) (.reg (n + 3)) _ _ _ _ _ _ l c0 o
    (off + 2 * i + 0) (by simp [evalValue, List.lookup, beq_self_add, beq_add_self])
    (by simp [evalValue, List.lookup, beq_self_add, beq_add_self])
    (by rw [memCell_memSet_other s (memCell_some_nonneg h1) hne, h0]))]

theorem elementAt_stored {mem : List (List RVal)} {o : Nat} {off i : Int} {c0 c1 : RVal}
    (s l : RVal) (h0 : memCell mem o (off + 2 * i) = some c0)
    (h1 : memCell mem o (off + 2 * i + 1) = some c1) :
    elementAt (memSet (memSet mem o (off + 2 * i + 1) s) o (off + 2 * i) l) o off i
      = some (.struct l s) := by
  have hne : ¬ (o = o ∧ off + 2 * i = off + 2 * i + 1) := by omega
  have hne1 : ¬ (o = o ∧ off + 2 * i + 1 = off + 2 * i) := by omega
  have ha : memCell (memSet mem o (off + 2 * i + 1) s) o (off + 2 * i) = some c0 := by
    rw [memCell_memSet_other s (memCell_some_nonneg h1) hne, h0]
  unfold elementAt
  rw [memCell_memSet_same l ha, memCell_memSet_other l (memCell_some_nonneg h0) hne1,
    memCell_memSet_same s h1]

theorem elementAt_isSome {mem : List (List RVal)} {o : Nat} {off i : Int}
    (h : (elementAt mem o off i).isSome = true) :
    ∃ c0 c1, memCell mem o (off + 2 * i) = some c0 ∧ memCell mem o (off + 2 * i + 1) = some c1 := by
  unfold elementAt at h
  cases h0 : memCell mem o (off + 2 * i) with
  | none => simp [h0] at h
  | some c0 =>
    cases h1 : memCell mem o (off + 2 * i + 1) with
    | none => simp [h0, h1] at h
    | some c1 => exact ⟨c0, c1, rfl, rfl⟩

theorem elementAt_congr (mem mem1 : List (List RVal)) (o : Nat) (off i : Int)
    (h : ∀ j, memCell mem1 o j = memCell mem o j) :
    elementAt mem1 o off i = elementAt mem o off i := by
  unfold elementAt
  rw [h, h]

theorem slots_filled_after (mem : List (List RVal)) (o : Nat) (a b : Int)
    (s l x y u v : RVal) (ho : o < mem.length) :
    memSet (memSet (memSet (memSet (newSlot (newSlot mem u) v) o a s) o b l) mem.length 0 x)
      (newSlot mem u).length 0 y = memSet (memSet mem o a s) o b l ++ [[x], [y]] := by
  rw [length_newSlot, newSlot_eq, newSlot_eq]
  have h : mem ++ [[u]] ++ [[v]] = mem ++ [[u], [v]] := by simp
  rw [h, memSet_append_left _ _ _ _ _ ho,
    memSet_append_left _ _ _ _ _ (by rw [length_memSet]; exact ho)]
  have hlen : mem.length = (memSet (memSet mem o a s) o b l).length := by
    rw [length_memSet, length_memSet]
  rw [hlen]
  exact slots_set _ u v x y

theorem codegenLoad_runs (rt : Runtime) (self : BaseSeqType) (hkey : self.getKey ≠ .LEN)
    (outs : ValMap) (h3 : outs.lookup self.getKey = none) (h4 : outs.lookup .LEN = none)
    (ptr idx : Value) (mem : List (List RVal)) (args : List RVal) (regs : List (Nat × RVal))
    (file printed : List Int) (loads : List (Nat × Int)) (c0 c1 : RVal) (o : Nat) (off i : Int)
    (n k : Nat) (hb3 : ptr.below n) (hb4 : idx.below n)
    (hp : evalValue args regs ptr = .ok (.ptr o off))
    (hi : evalValue args regs idx = .ok (.int i))
    (h0 : memCell mem o (off + 2 * i) = some c0)
    (h1 : memCell mem o (off + 2 * i + 1) = some c1) :
    ∃ outs2 g3, self.codegenLoad outs ptr idx (Codegen.fresh [] [] n k) = (.ok outs2, g3) ∧
      ∃ m3, g3.exec rt ⟨mem, args, regs, file, printed, loads⟩ = .ok m3 ∧
        m3.mem = mem ++ [[c1], [c0]] ∧
        m3.loads = loads ++ [(o, off + 2 * i + 1), (o, off + 2 * i)] ∧
        ∃ sv lv, outs2.lookup self.getKey = some sv ∧ outs2.lookup .LEN = some lv ∧
          m3.eval sv = .ok (.ptr mem.length 0) ∧ m3.eval lv = .ok (.ptr (mem.length + 1) 0) := by
  have ep : ∀ (d : Nat) (x : RVal) (r : List (Nat × RVal)), n ≤ d →
      evalValue args r ptr = .ok (.ptr o off) →
      evalValue args ((d, x) :: r) ptr = .ok (.ptr o off) := fun d x r hd h => by
    rw [evalValue_cons_below args r d n x ptr hb3 hd, h]
  have ei : ∀ (d : Nat) (x : RVal) (r : List (Nat × RVal)), n ≤ d →
      evalValue args r idx = .ok (.int i) →
      evalValue args ((d, x) :: r) idx = .ok (.int i) := fun d x r hd h => by
    rw [evalValue_cons_below args r d n x idx hb4 hd, h]
  have ho := memCell_some_lt h0
  have hL := length_newSlot mem .null
  have hn0 : memCell (newSlot (newSlot mem .null) (.int 0)) o (off + 2 * i) = some c0 := by
    rw [memCell_newSlot_old _ _ (by omega), memCell_newSlot_old _ _ ho, h0]
  have hn1 : memCell (newSlot (newSlot mem .null) (.int 0)) o (off + 2 * i + 1) = some c1 := by
    rw [memCell_newSlot_old _ _ (by omega), memCell_newSlot_old _ _ ho, h1]
  have hq1 : memCell (newSlot (newSlot mem .null) (.int 0)) mem.length 0 = some .null := by
    rw [memCell_newSlot_old _ _ (by omega), memCell_newSlot_new]
  have hq2 : memCell (memSet (newSlot (newSlot mem .null) (.int 0)) mem.length 0 c1)
      (newSlot mem .null).length 0 = some (.int 0) := by
    rw [memCell_memSet_ne _ _ _ (by omega), memCell_newSlot_new]
  refine ⟨(outs.insert self.getKey (.reg (n + 4))).insert .LEN (.reg (n + 5)),
    ⟨[.alloca (n + 4), .store nullPtrLLVM (.reg (n + 4)), .alloca (n + 5),
        .store zeroLLVM (.reg (n + 5))],
      [.gep n ptr [idx, .constInt .i32 1], .gep (n + 1) ptr [idx, .constInt .i32 0],
        .load (n + 2) (.reg n), .load (n + 3) (.reg (n + 1)),
        .store (.reg (n + 2)) (.reg (n + 4)), .store (.reg (n + 3)) (.reg (n + 5))],
      [], [], n + 6, k⟩, ?_,
    ⟨memSet (memSet (newSlot (newSlot mem .null) (.int 0)) mem.length 0 c1)
        (newSlot mem .null).length 0 c0, args,
      (n + 3, c0) :: (n + 2, c1) :: (n + 1, .ptr o (off + 2 * i)) ::
        (n, .ptr o (off + 2 * i + 1)) :: (n + 5, .ptr (newSlot mem .null).length 0) ::
        (n + 4, .ptr mem.length 0) :: regs, file, printed,
      loads ++ [(o, off + 2 * i + 1)] ++ [(o, off + 2 * i)]⟩,
    ?_, slots_filled mem .null (.int 0) c1 c0, by simp, .reg (n + 4), .reg (n + 5),
    ?_, ?_, ?_, ?_⟩
  · simp [BaseSeqType.codegenLoad, bind, Gen.bind, Gen.lift, Gen.modify, pure, Gen.pure,
      Codegen.fresh, Codegen.createLoad, Codegen.createGEP, Codegen.createStore,
      Codegen.makeAlloca, Codegen.emitValue, Codegen.emit]
  · unfold Codegen.exec
    simp only [List.cons_append, List.nil_append]
    rw [exec_makeAlloca rt (n + 4) nullPtrLLVM .null _ _ _ _ _ _ _ rfl]
    rw [exec_makeAlloca rt (n + 5) zeroLLVM (.int 0) _ _ _ _ _ _ _ rfl]
    rw [execList_cons_ok rt _ _ _ _ (exec_gep2 rt n ptr idx (.constInt .i32 1)
      _ _ _ _ _ _ o off i 1 (ep _ _ _ (by omega) (ep _ _ _ (by omega) hp))
      (ei _ _ _ (by omega) (ei _ _ _ (by omega) hi)) rfl)]
    rw [execList_cons_ok rt _ _ _ _ (exec_gep2 rt (n + 1) ptr idx (.constInt .i32 0)
      _ _ _ _ _ _ o off i 0 (ep _ _ _ (by omega) (ep _ _ _ (by omega) (ep _ _ _ (by omega) hp)))
      (ei _ _ _ (by omega) (ei _ _ _ (by omega) (ei _ _ _ (by omega) hi))) rfl)]
    simp only [add_zero]
    rw [execList_cons_ok rt _ _ _ _ (exec_load rt (n + 2) (.reg n) _ _ _ _ _ _ c1 o
      (off + 2 * i + 1) (by simp [evalValue, List.lookup, beq_self_add, beq_add_self]) hn1)]
    rw [execList_cons_ok rt _ _ _ _ (exec_load rt (n + 3) (.reg (n + 1)) _ _ _ _ _ _ c0 o
      (off + 2 * i) (by simp [evalValue, List.lookup, beq_self_add, beq_add_self]) hn0)]
    rw [execList_cons_ok rt _ _ _ _ (exec_store rt (.reg (n + 2)) (.reg (n + 4)) _ _ _ _ _ _ c1
      .null mem.length 0 (by simp [evalValue, List.lookup, beq_self_add, beq_add_self])
      (by simp [evalValue, List.lookup, beq_self_add, beq_add_self]) hq1)]
    rw [execList_cons_ok rt _ _ _ _ (exec_store rt (.reg (n + 3)) (.reg (n + 5)) _ _ _ _ _ _ c0
      (.int 0) (newSlot mem .null).length 0
      (by simp [evalValue, List.lookup, beq_self_add, beq_add_self])
      (by simp [evalValue, List.lookup, beq_self_add, beq_add_self]) hq2)]
    rfl
  · rw [lookup_insert_ne _ _ _ _ hkey, lookup_insert_self _ _ _ h3]
  · rw [lookup_insert_self]
    rw [lookup_insert_ne _ _ _ _ (Ne.symm hkey), h4]
  · simp [Machine.eval, evalValue, List.lookup, beq_self_add, beq_add_self]
  · simp [Machine.eval, evalValue, List.lookup, beq_self_add, beq_add_self, hL]

theorem elementAt_eq_struct {mem : List (List RVal)} {o : Nat} {off i : Int} {c0 c1 : RVal}
    (h : elementAt mem o off i = some (.struct c0 c1)) :
    memCell mem o (off + 2 * i) = some c0 ∧ memCell mem o (off + 2 * i + 1) = some c1 := by
  unfold elementAt at h
  cases h0 : memCell mem o (off + 2 * i) with
  | none => simp [h0] at h
  | some a =>
    cases h1 : memCell mem o (off + 2 * i + 1) with
    | none => simp [h0, h1] at h
    | some b =>
      simp only [h0, h1, Option.some.injEq, RVal.struct.injEq] at h
      obtain ⟨rfl, rfl⟩ := h
      exact ⟨rfl, rfl⟩

/-- C11. Array store and load round trip: let a value map hold the slots of a
sequence pointer `s` and a length `l`, let `ptr` point to an array of sequence
structs and let element `idx` lie in the array.  The code `codegenStore` emits
runs; afterwards element `idx` holds `l` in field 0 and `s` in field 1, and
every cell of the memory other than the two cells of element `idx` is as it
was.  The element is a value of the struct types of `SeqType` and `StrType`
(body: integer length, byte pointer) when `l` is an integer and `s` a pointer,
and it is the aggregate `pack` builds from the same value map.  The code of
`codegenLoad` for the same `ptr` and `idx`, emitted after that of
`codegenStore` into an output map that has neither entry yet, runs: it reads
the two cells of element `idx`, field 1 first, adds to the memory the store
left exactly two slots, and the output map names these slots under `getKey()`
and `LEN`, holding `s` and `l`.  The code of `codegenLoad` on its own does the
same on any machine: where element `idx` of the array at `ptr` holds `c0` in
field 0 and `c1` in field 1, it reads these two cells, adds exactly two slots,
the first holding `c1` and named under `getKey()`, the second holding `c0` and
named under `LEN`. -/
theorem codegenStore_codegenLoad_roundtrip (rt : Runtime) (self : BaseSeqType)
    (ins outs : ValMap) (seqVar lenVar ptr idx : Value) (m : Machine) (s l : RVal) (o : Nat)
    (off i : Int) (n k : Nat)
    (hkey : self.getKey ≠ .LEN)
    (h1 : ins.lookup self.getKey = some seqVar) (h2 : ins.lookup .LEN = some lenVar)
    (h3 : outs.lookup self.getKey = none) (h4 : outs.lookup .LEN = none)
    (hb1 : seqVar.below n) (hb2 : lenVar.below n) (hb3 : ptr.below n) (hb4 : idx.below n)
    (hs : m.deref seqVar = some s) (hl : m.deref lenVar = some l)
    (hp : m.eval ptr = .ok (.ptr o off)) (hi : m.eval idx = .ok (.int i))
    (he : (elementAt m.mem o off i).isSome = true) :
    ∃ g1, self.codegenStore ins ptr idx (Codegen.fresh [] [] n k) = (.ok (), g1) ∧
      ∃ m1, g1.exec rt m = .ok m1 ∧
        elementAt m1.mem o off i = some (.struct l s) ∧
        (∀ o1 j, ¬ (o1 = o ∧ (j = off + 2 * i ∨ j = off + 2 * i + 1)) →
          memCell m1.mem o1 j = memCell m.mem o1 j) ∧
        (LType.seqInt.admits l = true → LType.i8Ptr.admits s = true →
          ∀ e, elementAt m1.mem o off i = some e →
            SeqType.getLLVMType.admits e = true ∧ StrType.getLLVMType.admits e = true) ∧
        (∃ packed gp, self.pack ins (Codegen.fresh [] [] n k) = (.ok packed, gp) ∧
          ∃ mp, gp.exec rt m = .ok mp ∧ (mp.eval packed).toOption = elementAt m1.mem o off i) ∧
        (∃ outs1 g2, self.codegenLoad outs ptr idx g1 = (.ok outs1, g2) ∧
          ∃ m2, g2.exec rt m = .ok m2 ∧
            elementAt m2.mem o off i = some (.struct l s) ∧
            m2.mem = m1.mem ++ [[s], [l]] ∧
            m2.loads = m1.loads ++ [(o, off + 2 * i + 1), (o, off + 2 * i)] ∧
            ∃ seqVar1 lenVar1,
              outs1.lookup self.getKey = some seqVar1 ∧ outs1.lookup .LEN = some lenVar1 ∧
              m2.eval seqVar1 = .ok (.ptr m.mem.length 0) ∧
              m2.eval lenVar1 = .ok (.ptr (m.mem.length + 1) 0) ∧
              m2.deref seqVar1 = some s ∧ m2.deref lenVar1 = some l) ∧
        ∀ (mr : Machine) (c0 c1 : RVal) (p : Nat) (q j : Int) (n2 k2 : Nat),
          ptr.below n2 → idx.below n2 →
          mr.eval ptr = .ok (.ptr p q) → mr.eval idx = .ok (.int j) →
          elementAt mr.mem p q j = some (.struct c0 c1) →
          ∃ outs2 g3,
            self.codegenLoad outs ptr idx (Codegen.fresh [] [] n2 k2) = (.ok outs2, g3) ∧
            ∃ m3, g3.exec rt mr = .ok m3 ∧ m3.mem = mr.mem ++ [[c1], [c0]] ∧
              m3.loads = mr.loads ++ [(p, q + 2 * j + 1), (p, q + 2 * j)] ∧
              ∃ sv lv, outs2.lookup self.getKey = some sv ∧ outs2.lookup .LEN = some lv ∧
                m3.eval sv = .ok (.ptr mr.mem.length 0) ∧
                m3.eval lv = .ok (.ptr (mr.mem.length + 1) 0) ∧
                m3.deref sv = some c1 ∧ m3.deref lv = some c0 := by
  obtain ⟨mem, args, regs, file, printed, loads⟩ := m
  obtain ⟨o1, f1, he1, hc1⟩ := Machine.deref_eq_some hs
  obtain ⟨o2, f2, he2, hc2⟩ := Machine.deref_eq_some hl
  obtain ⟨c0, c1, hd0, hd1⟩ := elementAt_isSome he
  simp only [Machine.eval] at he1 hc1 he2 hc2 hp hi hd0 hd1
  have ho1 := memCell_some_lt hc1
  have ho2 := memCell_some_lt hc2
  have ho := memCell_some_lt hd0
  have e1 : ∀ (d : Nat) (x : RVal) (r : List (Nat × RVal)), n ≤ d →
      evalValue args r seqVar = .ok (.ptr o1 f1) →
      evalValue args ((d, x) :: r) seqVar = .ok (.ptr o1 f1) := fun d x r hd h => by
    rw [evalValue_cons_below args r d n x seqVar hb1 hd, h]
  have e2 : ∀ (d : Nat) (x : RVal) (r : List (Nat × RVal)), n ≤ d →
      evalValue args r lenVar = .ok (.ptr o2 f2) →
      evalValue args ((d, x) :: r) lenVar = .ok (.ptr o2 f2) := fun d x r hd h => by
    rw [evalValue_cons_below args r d n x lenVar hb2 hd, h]
  have ep : ∀ (d : Nat) (x : RVal) (r : List (Nat × RVal)), n ≤ d →
      evalValue args r ptr = .ok (.ptr o off) →
      evalValue args ((d, x) :: r) ptr = .ok (.ptr o off) := fun d x r hd h => by
    rw [evalValue_cons_below args r d n x ptr hb3 hd, h]
  have ei : ∀ (d : Nat) (x : RVal) (r : List (Nat × RVal)), n ≤ d →
      evalValue args r idx = .ok (.int i) →
      evalValue args ((d, x) :: r) idx = .ok (.int i) := fun d x r hd h => by
    rw [evalValue_cons_below args r d n x idx hb4 hd, h]
  have hstore : self.codegenStore ins ptr idx (Codegen.fresh [] [] n k) = (.ok (),
      ⟨[], [.load n seqVar, .load (n + 1) lenVar, .gep (n + 2) ptr [idx, .constInt .i32 1],
        .gep (n + 3) ptr [idx, .constInt .i32 0], .store (.reg n) (.reg (n + 2)),
        .store (.reg (n + 1)) (.reg (n + 3))], [], [], n + 4, k⟩) := by
    simp [BaseSeqType.codegenStore, bind, Gen.bind, Gen.lift, Gen.getSafe, Gen.modify, h1, h2,
      Seq.getSafe, Codegen.fresh, Codegen.createLoad, Codegen.createGEP, Codegen.createStore,
      Codegen.emitValue, Codegen.emit]
  have hload : self.codegenLoad outs ptr idx
      ⟨[], [.load n seqVar, .load (n + 1) lenVar, .gep (n + 2) ptr [idx, .constInt .i32 1],
        .gep (n + 3) ptr [idx, .constInt .i32 0], .store (.reg n) (.reg (n + 2)),
        .store (.reg (n + 1)) (.reg (n + 3))], [], [], n + 4, k⟩ =
      (.ok ((outs.insert self.getKey (.reg (n + 8))).insert .LEN (.reg (n + 9))),
        ⟨[.alloca (n + 8), .store nullPtrLLVM (.reg (n + 8)), .alloca (n + 9),
          .store zeroLLVM (.reg (n + 9))],
        [.load n seqVar, .load (n + 1) lenVar, .gep (n + 2) ptr [idx, .constInt .i32 1],
          .gep (n + 3) ptr [idx, .constInt .i32 0], .store (.reg n) (.reg (n + 2)),
          .store (.reg (n + 1)) (.reg (n + 3)),
          .gep (n + 4) ptr [idx, .constInt .i32 1], .gep (n + 5) ptr [idx, .constInt .i32 0],
          .load (n + 6) (.reg (n + 4)), .load (n + 7) (.reg (n + 5)),
          .store (.reg (n + 6)) (.reg (n + 8)), .store (.reg (n + 7)) (.reg (n + 9))],
        [], [], n + 10, k⟩) := by
    simp [BaseSeqType.codegenLoad, bind, Gen.bind, Gen.lift, Gen.modify, pure, Gen.pure,
      Codegen.createLoad, Codegen.createGEP, Codegen.createStore, Codegen.makeAlloca,
      Codegen.emitValue, Codegen.emit]
  have hpack : self.pack ins (Codegen.fresh [] [] n k) = (.ok (.reg (n + 3)),
      ⟨[], [.load n seqVar, .load (n + 1) lenVar,
        .insertValue (n + 2) (.undef self.llvmType) (.reg (n + 1)) 0,
        .insertValue (n + 3) (.reg (n + 2)) (.reg n) 1], [], [], n + 4, k⟩) := by
    simp [BaseSeqType.pack, bind, Gen.bind, Gen.lift, Gen.getSafe, h1, h2, Seq.getSafe,
      Codegen.fresh, Codegen.createLoad, Codegen.createInsertValue, Codegen.emitValue,
      Codegen.emit]
  have hd0z : memCell mem o (off + 2 * i + 0) = some c0 := by rw [add_zero]; exact hd0
  have hel : elementAt (memSet (memSet mem o (off + 2 * i + 1) s) o (off + 2 * i) l) o off i
      = some (.struct l s) := elementAt_stored s l hd0 hd1
  refine ⟨_, hstore, ⟨memSet (memSet mem o (off + 2 * i + 1) s) o (off + 2 * i) l, args,
      (n + 3, .ptr o (off + 2 * i)) :: (n + 2, .ptr o (off + 2 * i + 1)) :: (n + 1, l) ::
        (n, s) :: regs, file, printed, loads ++ [(o1, f1)] ++ [(o2, f2)]⟩, ?_, hel, ?_, ?_, ?_, ?_,
      ?_⟩
  · unfold Codegen.exec
    simp only [List.nil_append]
    rw [exec_storeCode rt n seqVar lenVar ptr idx [] mem args regs file printed loads s l c0 c1
      o1 o2 o f1 f2 off i hb3 hb4 he1 hc1 (e2 _ _ _ (le_refl _) he2) hc2 hp hi hd0z hd1]
    simp only [add_zero]
    rfl
  · intro oj j hj
    simp only
    rw [memCell_memSet_other l (memCell_some_nonneg hd0) (by tauto),
      memCell_memSet_other s (memCell_some_nonneg hd1) (by tauto)]
  · intro hl1 hs1 e hee
    simp only at hee
    rw [hel] at hee
    cases hee
    simp [SeqType.getLLVMType, StrType.getLLVMType, LType.admits, hl1, hs1]
  · refine ⟨_, _, hpack, ⟨mem, args,
      (n + 3, .struct l s) :: (n + 2, .struct l .undef) :: (n + 1, l) :: (n, s) :: regs, file,
      printed, loads ++ [(o1, f1)] ++ [(o2, f2)]⟩, ?_, ?_⟩
    · unfold Codegen.exec
      simp only [List.nil_append]
      rw [execList_cons_ok rt _ _ _ _ (exec_load rt n seqVar _ _ _ _ _ _ s o1 f1 he1 hc1)]
      rw [execList_cons_ok rt _ _ _ _ (exec_load rt (n + 1) lenVar _ _ _ _ _ _ l o2 f2
        (e2 _ _ _ (le_refl _) he2) hc2)]
      rw [execList_cons_ok rt _ _ _ _ (exec_insertValue rt (n + 2)
        (.undef self.llvmType) (.reg (n + 1)) 0 _ _ _ _ _ _ .undef l
        (.struct l .undef) rfl (by simp [evalValue, List.lookup, beq_self_add, beq_add_self])
        rfl)]
      rw [execList_cons_ok rt _ _ _ _ (exec_insertValue rt (n + 3) (.reg (n + 2))
        (.reg n) 1 _ _ _ _ _ _ (.struct l .undef) s (.struct l s)
        (by simp [evalValue, List.lookup, beq_self_add, beq_add_self])
        (by simp [evalValue, List.lookup, beq_self_add, beq_add_self]) rfl)]
      rfl
    · simp only [Machine.eval, evalValue_reg_head, hel]
      rfl
  · have hL := length_newSlot mem .null
    have hm1 : memCell (newSlot (newSlot mem .null) (.int 0)) o1 f1 = some s := by
      rw [memCell_newSlot_old _ _ (by omega), memCell_newSlot_old _ _ ho1, hc1]
    have hm2 : memCell (newSlot (newSlot mem .null) (.int 0)) o2 f2 = some l := by
      rw [memCell_newSlot_old _ _ (by omega), memCell_newSlot_old _ _ ho2, hc2]
    have hn0 : memCell (newSlot (newSlot mem .null) (.int 0)) o (off + 2 * i) = some c0 := by
      rw [memCell_newSlot_old _ _ (by omega), memCell_newSlot_old _ _ ho, hd0]
    have hn0z : memCell (newSlot (newSlot mem .null) (.int 0)) o (off + 2 * i + 0)
        = some c0 := by rw [add_zero]; exact hn0
    have hn1 : memCell (newSlot (newSlot mem .null) (.int 0)) o (off + 2 * i + 1) = some c1 := by
      rw [memCell_newSlot_old _ _ (by omega), memCell_newSlot_old _ _ ho, hd1]
    have hne : ¬ (o = o ∧ off + 2 * i = off + 2 * i + 1) := by omega
    have hne1 : ¬ (o = o ∧ off + 2 * i + 1 = off + 2 * i) := by omega
    have hr0 : memCell (memSet (memSet (newSlot (newSlot mem .null) (.int 0)) o
        (off + 2 * i + 1) s) o (off + 2 * i) l) o (off + 2 * i) = some l :=
      memCell_memSet_same l (by
        rw [memCell_memSet_other s (memCell_some_nonneg hd1) hne, hn0])
    have hr1 : memCell (memSet (memSet (newSlot (newSlot mem .null) (.int 0)) o
        (off + 2 * i + 1) s) o (off + 2 * i) l) o (off + 2 * i + 1) = some s := by
      rw [memCell_memSet_other l (memCell_some_nonneg hd0) hne1]
      exact memCell_memSet_same s hn1
    have hq1 : memCell (memSet (memSet (newSlot (newSlot mem .null) (.int 0)) o
        (off + 2 * i + 1) s) o (off + 2 * i) l) mem.length 0 = some .null := by
      rw [memCell_memSet_ne _ _ _ (by omega), memCell_memSet_ne _ _ _ (by omega),
        memCell_newSlot_old _ _ (by omega), memCell_newSlot_new]
    have hq2 : memCell (memSet (memSet (memSet (newSlot (newSlot mem .null) (.int 0)) o
        (off + 2 * i + 1) s) o (off + 2 * i) l) mem.length 0 s)
        (newSlot mem .null).length 0 = some (.int 0) := by
      rw [memCell_memSet_ne _ _ _ (by omega), memCell_memSet_ne _ _ _ (by omega),
        memCell_memSet_ne _ _ _ (by omega), memCell_newSlot_new]
    refine ⟨_, _, hload, ⟨memSet (memSet (memSet (memSet (newSlot (newSlot mem .null) (.int 0)) o
        (off + 2 * i + 1) s) o (off + 2 * i) l) mem.length 0 s) (newSlot mem .null).length 0 l,
      args,
      (n + 7, l) :: (n + 6, s) :: (n + 5, .ptr o (off + 2 * i)) ::
        (n + 4, .ptr o (off + 2 * i + 1)) ::
        (n + 3, .ptr o (off + 2 * i)) :: (n + 2, .ptr o (off + 2 * i + 1)) :: (n + 1, l) ::
        (n, s) :: (n + 9, .ptr (newSlot mem .null).length 0) :: (n + 8, .ptr mem.length 0) ::
        regs,
      file, printed,
      loads ++ [(o1, f1)] ++ [(o2, f2)] ++ [(o, off + 2 * i + 1)] ++ [(o, off + 2 * i)]⟩,
      ?_, ?_, slots_filled_after mem o _ _ s l s l .null (.int 0) ho, by simp,
      .reg (n + 8), .reg (n + 9), ?_, ?_,
      by simp [Machine.eval, evalValue, List.lookup, beq_self_add, beq_add_self],
      by simp [Machine.eval, evalValue, List.lookup, beq_self_add, beq_add_self, hL], ?_, ?_⟩
    · unfold Codegen.exec
      simp only [List.cons_append, List.nil_append]
      rw [exec_makeAlloca rt (n + 8) nullPtrLLVM .null _ _ _ _ _ _ _ rfl]
      rw [exec_makeAlloca rt (n + 9) zeroLLVM (.int 0) _ _ _ _ _ _ _ rfl]
      rw [exec_storeCode rt n seqVar lenVar ptr idx _ _ args _ file printed loads s l c0 c1
        o1 o2 o f1 f2 off i hb3 hb4 (e1 _ _ _ (by omega) (e1 _ _ _ (by omega) he1)) hm1
        (e2 _ _ _ (by omega) (e2 _ _ _ (by omega) (e2 _ _ _ (by omega) he2))) hm2
        (ep _ _ _ (by omega) (ep _ _ _ (by omega) hp))
        (ei _ _ _ (by omega) (ei _ _ _ (by omega) hi)) hn0z hn1]
      simp only [add_zero]
      rw [execList_cons_ok rt _ _ _ _ (exec_gep2 rt (n + 4) ptr idx (.constInt .i32 1)
        _ _ _ _ _ _ o off i 1
        (ep _ _ _ (by omega) (ep _ _ _ (by omega) (ep _ _ _ (by omega) (ep _ _ _ (by omega)
          (ep _ _ _ (by omega) (ep _ _ _ (by omega) hp))))))
        (ei _ _ _ (by omega) (ei _ _ _ (by omega) (ei _ _ _ (by omega) (ei _ _ _ (by omega)
          (ei _ _ _ (by omega) (ei _ _ _ (by omega) hi)))))) rfl)]
      rw [execList_cons_ok rt _ _ _ _ (exec_gep2 rt (n + 5) ptr idx (.constInt .i32 0)
        _ _ _ _ _ _ o off i 0
        (ep _ _ _ (by omega) (ep _ _ _ (by omega) (ep _ _ _ (by omega) (ep _ _ _ (by omega)
          (ep _ _ _ (by omega) (ep _ _ _ (by omega) (ep _ _ _ (by omega) hp)))))))
        (ei _ _ _ (by omega) (ei _ _ _ (by omega) (ei _ _ _ (by omega) (ei _ _ _ (by omega)
          (ei _ _ _ (by omega) (ei _ _ _ (by omega) (ei _ _ _ (by omega) hi))))))) rfl)]
      simp only [add_zero]
      rw [execList_cons_ok rt _ _ _ _ (exec_load rt (n + 6) (.reg (n + 4)) _ _ _ _ _ _ s o
        (off + 2 * i + 1) (by simp [evalValue, List.lookup, beq_self_add, beq_add_self]) hr1)]
      rw [execList_cons_ok rt _ _ _ _ (exec_load rt (n + 7) (.reg (n + 5)) _ _ _ _ _ _ l o
        (off + 2 * i) (by simp [evalValue, List.lookup, beq_self_add, beq_add_self]) hr0)]
      rw [execList_cons_ok rt _ _ _ _ (exec_store rt (.reg (n + 6)) (.reg (n + 8)) _ _ _ _ _ _ s
        .null mem.length 0 (by simp [evalValue, List.lookup, beq_self_add, beq_add_self])
        (by simp [evalValue, List.lookup, beq_self_add, beq_add_self]) hq1)]
      rw [execList_cons_ok rt _ _ _ _ (exec_store rt (.reg (n + 7)) (.reg (n + 9)) _ _ _ _ _ _ l
        (.int 0) (newSlot mem .null).length 0
        (by simp [evalValue, List.lookup, beq_self_add, beq_add_self])
        (by simp [evalValue, List.lookup, beq_self_add, beq_add_self]) hq2)]
      rfl
    · simp only
      rw [elementAt_congr
        (memSet (memSet (newSlot (newSlot mem .null) (.int 0)) o (off + 2 * i + 1) s) o
          (off + 2 * i) l) _ o off i (fun j => by
        rw [memCell_memSet_ne _ _ _ (by omega), memCell_memSet_ne _ _ _ (by omega)])]
      exact elementAt_stored s l hn0 hn1
    · rw [lookup_insert_ne _ _ _ _ hkey, lookup_insert_self _ _ _ h3]
    · rw [lookup_insert_self]
      rw [lookup_insert_ne _ _ _ _ (Ne.symm hkey), h4]
    · simp only [Machine.deref, Machine.eval]
      rw [show evalValue args _ (.reg (n + 8)) = .ok (.ptr mem.length 0) by
        simp [evalValue, List.lookup, beq_self_add, beq_add_self]]
      simp only
      rw [memCell_memSet_ne _ _ _ (by omega)]
      exact memCell_memSet_same s hq1
    · simp only [Machine.deref, Machine.eval]
      rw [show evalValue args _ (.reg (n + 9)) = .ok (.ptr (newSlot mem .null).length 0) by
        simp [evalValue, List.lookup, beq_self_add, beq_add_self]]
      simp only
      exact memCell_memSet_same l hq2
  · intro mr c0 c1 p q j n2 k2 hp3 hp4 hpp hpi hpe
    obtain ⟨mem2, args2, regs2, file2, printed2, loads2⟩ := mr
    obtain ⟨hq0, hq1⟩ := elementAt_eq_struct hpe
    obtain ⟨outs2, g3, hg3, m3, hm3, hmem3, hloads3, sv, lv, hk1, hk2, hsv, hlv⟩ :=
      codegenLoad_runs rt self hkey outs h3 h4 ptr idx mem2 args2 regs2 file2 printed2 loads2
        c0 c1 p q j n2 k2 hp3 hp4 hpp hpi hq0 hq1
    obtain ⟨hd1, hd2⟩ := deref_slots hmem3 hsv hlv
    exact ⟨outs2, g3, hg3, m3, hm3, hmem3, hloads3, sv, lv, hk1, hk2, hsv, hlv, hd1, hd2⟩

theorem codegenStore_codegenLoad_roundtrip_witness :
    (SeqType.get.getKey ≠ .LEN ∧
      ([(.SEQ, .arg 0), (.LEN, .arg 1)] : ValMap).lookup SeqType.get.getKey = some (.arg 0) ∧
      ([(.SEQ, .arg 0), (.LEN, .arg 1)] : ValMap).lookup .LEN = some (.arg 1) ∧
      arrayMachine.deref (.arg 0) = some (.ptr 0 0) ∧
      arrayMachine.deref (.arg 1) = some (.int 2) ∧
      arrayMachine.eval (.arg 2) = .ok (.ptr 3 0) ∧ arrayMachine.eval (.arg 3) = .ok (.int 1) ∧
      (elementAt arrayMachine.mem 3 0 1).isSome = true) ∧
    ∃ g1, SeqType.get.codegenStore [(.SEQ, .arg 0), (.LEN, .arg 1)] (.arg 2) (.arg 3)
        (Codegen.fresh [] [] 0 1) = (.ok (), g1) ∧
      ∃ m1, g1.exec unitRuntime arrayMachine = .ok m1 ∧
        elementAt m1.mem 3 0 1 = some (.struct (.int 2) (.ptr 0 0)) ∧
        (∀ o1 j, ¬ (o1 = 3 ∧ (j = 0 + 2 * 1 ∨ j = 0 + 2 * 1 + 1)) →
          memCell m1.mem o1 j = memCell arrayMachine.mem o1 j) ∧
        (LType.seqInt.admits (.int 2) = true → LType.i8Ptr.admits (.ptr 0 0) = true →
          ∀ e, elementAt m1.mem 3 0 1 = some e →
            SeqType.getLLVMType.admits e = true ∧ StrType.getLLVMType.admits e = true) ∧
        (∃ packed gp, SeqType.get.pack [(.SEQ, .arg 0), (.LEN, .arg 1)]
            (Codegen.fresh [] [] 0 1) = (.ok packed, gp) ∧
          ∃ mp, gp.exec unitRuntime arrayMachine = .ok mp ∧
            (mp.eval packed).toOption = elementAt m1.mem 3 0 1) ∧
        (∃ outs1 g2, SeqType.get.codegenLoad [] (.arg 2) (.arg 3) g1 = (.ok outs1, g2) ∧
          ∃ m2, g2.exec unitRuntime arrayMachine = .ok m2 ∧
            elementAt m2.mem 3 0 1 = some (.struct (.int 2) (.ptr 0 0)) ∧
            m2.mem = m1.mem ++ [[.ptr 0 0], [.int 2]] ∧
            m2.loads = m1.loads ++ [(3, 0 + 2 * 1 + 1), (3, 0 + 2 * 1)] ∧
            ∃ seqVar1 lenVar1,
              outs1.lookup SeqType.get.getKey = some seqVar1 ∧ outs1.lookup .LEN = some lenVar1 ∧
              m2.eval seqVar1 = .ok (.ptr arrayMachine.mem.length 0) ∧
              m2.eval lenVar1 = .ok (.ptr (arrayMachine.mem.length + 1) 0) ∧
              m2.deref seqVar1 = some (.ptr 0 0) ∧ m2.deref lenVar1 = some (.int 2)) ∧
        ∀ (mr : Machine) (c0 c1 : RVal) (p : Nat) (q j : Int) (n2 k2 : Nat),
          (Value.arg 2).below n2 → (Value.arg 3).below n2 →
          mr.eval (.arg 2) = .ok (.ptr p q) → mr.eval (.arg 3) = .ok (.int j) →
          elementAt mr.mem p q j = some (.struct c0 c1) →
          ∃ outs2 g3,
            SeqType.get.codegenLoad [] (.arg 2) (.arg 3) (Codegen.fresh [] [] n2 k2)
              = (.ok outs2, g3) ∧
            ∃ m3, g3.exec unitRuntime mr = .ok m3 ∧ m3.mem = mr.mem ++ [[c1], [c0]] ∧
              m3.loads = mr.loads ++ [(p, q + 2 * j + 1), (p, q + 2 * j)] ∧
              ∃ sv lv, outs2.lookup SeqType.get.getKey = some sv ∧ outs2.lookup .LEN = some lv ∧
                m3.eval sv = .ok (.ptr mr.mem.length 0) ∧
                m3.eval lv = .ok (.ptr (mr.mem.length + 1) 0) ∧
                m3.deref sv = some c1 ∧ m3.deref lv = some c0 :=
  ⟨⟨by decide, by decide, by decide, by decide, by decide, rfl, rfl, by decide⟩,
    codegenStore_codegenLoad_roundtrip unitRuntime SeqType.get [(.SEQ, .arg 0), (.LEN, .arg 1)]
      [] (.arg 0) (.arg 1) (.arg 2) (.arg 3) arrayMachine (.ptr 0 0) (.int 2) 3 0 1 0 1
      (by decide) (by decide) (by decide) (by decide) (by decide) trivial trivial trivial trivial
      (by decide) (by decide) rfl rfl (by decide)⟩

end Seq
